import Mathlib

set_option autoImplicit false

/-!
Verification development for the policy-table persistence and decision core
(sql_pt_representation.cc). The SQL catalog, schema and the rpc document
types live outside the provided sources; where a definition models such a
missing part, its doc comment starts with "Modelled from the spec:" and the
rest is a direct shallow embedding of the C++ source.
-/

namespace Policy

/-! ## Association-list containers

The C++ document model stores its maps in std::map containers.  We embed a
map as a list of key-value pairs kept unique by construction: an update
replaces the first entry carrying the key in place and appends a missing key
at the end, mirroring what the map holds (the claims compare unordered
containers only up to ordering). -/

/-- Association list standing in for a std::map keyed by strings. -/
abbrev AList (α : Type) := List (String × α)

/-- Lookup of the first value stored under a key. -/
def alookup {α : Type} (k : String) : AList α → Option α
  | [] => none
  | (k1, v) :: rest => if k1 = k then some v else alookup k rest

/-- Map write map[k] = v: replace the first entry with the key, append otherwise. -/
def aupdate {α : Type} (k : String) (v : α) : AList α → AList α
  | [] => [(k, v)]
  | (k1, v1) :: rest =>
      if k1 = k then (k1, v) :: rest else (k1, v1) :: aupdate k v rest

/-- Map read-modify-write map[k] (creating a default when absent), as done by
operator[] followed by a mutation of the stored value. -/
def amodify {α : Type} (k : String) (d : α) (f : α → α) : AList α → AList α
  | [] => [(k, f d)]
  | (k1, v1) :: rest =>
      if k1 = k then (k1, f v1) :: rest else (k1, v1) :: amodify k d f rest

/-- Effectful map over Option, used where a loop converts every row and
returns failure at the first row that does not convert. -/
def optionMapM {α β : Type} (f : α → Option β) : List α → Option (List β)
  | [] => some []
  | a :: l =>
      match f a with
      | none => none
      | some b =>
          match optionMapM f l with
          | none => none
          | some bs => some (b :: bs)

/-- Lean embedding of the anonymous-namespace helper InsertUnique of
sql_pt_representation.cc: scan for the value and push it back only when it
is not present yet. -/
def InsertUnique {α : Type} [DecidableEq α] (value : α) (array : List α) : List α :=
  if value ∈ array then array else array ++ [value]

/-- Modelled from the spec: an INSERT OR IGNORE style insertion used by the
query catalog (sql_pt_queries.cc is not under src/) for tables whose primary
key is the inserted tuple; inserting a tuple already present leaves the table
unchanged. -/
def insertIfAbsent {α : Type} [DecidableEq α] (x : α) (l : List α) : List α :=
  if x ∈ l then l else l ++ [x]

/-! ## Enumerated domains

Modelled from the spec: the enumerated domains Priority, HmiLevel, Parameter,
AppHMIType and RequestType with their canonical string tokens and the total
EnumToJsonString / partial EnumFromJsonString conversions (the rpc table type
headers are not under src/).  The HMI levels are the four tiers named by the
glossary; the other carriers are representative canonical token sets.  The
default value of each carrier stands for the value a default-constructed
C++ enum wrapper holds. -/

inductive HmiLevel where
  | FULL | LIMITED | BACKGROUND | NONE
deriving DecidableEq, Repr

inductive Priority where
  | EMERGENCY | NAVIGATION | VOICECOM | COMMUNICATION | NORMAL | NONE
deriving DecidableEq, Repr

inductive Parameter where
  | gps | speed | rpm | fuelLevel
deriving DecidableEq, Repr

inductive AppHMIType where
  | DEFAULT | MEDIA | NAVIGATION | SYSTEM
deriving DecidableEq, Repr

inductive RequestType where
  | HTTP | FILE_RESUME | PROPRIETARY
deriving DecidableEq, Repr

def HmiLevel.toJsonString : HmiLevel → String
  | .FULL => "FULL"
  | .LIMITED => "LIMITED"
  | .BACKGROUND => "BACKGROUND"
  | .NONE => "NONE"

def HmiLevel.fromJsonString (s : String) : Option HmiLevel :=
  if s = "FULL" then some .FULL
  else if s = "LIMITED" then some .LIMITED
  else if s = "BACKGROUND" then some .BACKGROUND
  else if s = "NONE" then some .NONE
  else none

def Priority.toJsonString : Priority → String
  | .EMERGENCY => "EMERGENCY"
  | .NAVIGATION => "NAVIGATION"
  | .VOICECOM => "VOICECOM"
  | .COMMUNICATION => "COMMUNICATION"
  | .NORMAL => "NORMAL"
  | .NONE => "NONE"

def Priority.fromJsonString (s : String) : Option Priority :=
  if s = "EMERGENCY" then some .EMERGENCY
  else if s = "NAVIGATION" then some .NAVIGATION
  else if s = "VOICECOM" then some .VOICECOM
  else if s = "COMMUNICATION" then some .COMMUNICATION
  else if s = "NORMAL" then some .NORMAL
  else if s = "NONE" then some .NONE
  else none

def Parameter.toJsonString : Parameter → String
  | .gps => "gps"
  | .speed => "speed"
  | .rpm => "rpm"
  | .fuelLevel => "fuelLevel"

def Parameter.fromJsonString (s : String) : Option Parameter :=
  if s = "gps" then some .gps
  else if s = "speed" then some .speed
  else if s = "rpm" then some .rpm
  else if s = "fuelLevel" then some .fuelLevel
  else none

def AppHMIType.toJsonString : AppHMIType → String
  | .DEFAULT => "DEFAULT"
  | .MEDIA => "MEDIA"
  | .NAVIGATION => "NAVIGATION"
  | .SYSTEM => "SYSTEM"

def AppHMIType.fromJsonString (s : String) : Option AppHMIType :=
  if s = "DEFAULT" then some .DEFAULT
  else if s = "MEDIA" then some .MEDIA
  else if s = "NAVIGATION" then some .NAVIGATION
  else if s = "SYSTEM" then some .SYSTEM
  else none

def RequestType.toJsonString : RequestType → String
  | .HTTP => "HTTP"
  | .FILE_RESUME => "FILE_RESUME"
  | .PROPRIETARY => "PROPRIETARY"

def RequestType.fromJsonString (s : String) : Option RequestType :=
  if s = "HTTP" then some .HTTP
  else if s = "FILE_RESUME" then some .FILE_RESUME
  else if s = "PROPRIETARY" then some .PROPRIETARY
  else none

/-! ## The deterministic group hash -/

/-- Modelled from the spec: the Djb2 hash over the bytes of a string, kept in
32 bits (utils/gen_hash and CacheManager::GenerateHash are not under src/).
The classic recurrence is hash = hash * 33 + c starting from 5381. -/
def Djb2Hash (str : String) : Nat :=
  str.data.foldl (fun h c => (h * 33 + c.toNat) % 4294967296) 5381

/-- Reinterpretation of an unsigned 32-bit value as a signed int32, as the
C++ cast of the hash to a signed integer does. -/
def int32OfUInt32 (n : Nat) : Int :=
  if n < 2147483648 then (n : Int) else (n : Int) - 4294967296

/-- Modelled from the spec: CacheManager::GenerateHash, the signed 32-bit
Djb2 hash of a group name. -/
def GenerateHash (str : String) : Int :=
  int32OfUInt32 (Djb2Hash str)

/-- The stable id stored for a functional group: abs(Djb2Hash(name)), exactly
as SaveFunctionalGroupings computes it. -/
def GroupId (name : String) : Int :=
  ((GenerateHash name).natAbs : Int)

/-- Special identifier kDefaultId of the source. -/
def kDefaultId : String := "default"

/-- Special identifier kPreDataConsentId of the source. -/
def kPreDataConsentId : String := "pre_DataConsent"

/-- Special identifier kDeviceId of the source. -/
def kDeviceId : String := "device"

/-! ## Document model

Modelled from the spec: the typed, partially optional policy-table document
(the policy_table type headers are not under src/).  An Option field embeds
the three-valued presence where the source distinguishes unset from set; a
field the gather and save paths treat as mandatory is embedded plainly. -/

/-- The hmi-level and parameter sets of one rpc inside a functional group. -/
structure RpcEntry where
  hmi_levels : List HmiLevel
  parameters : List Parameter
deriving DecidableEq, Repr

/-- One functional group value: the optional user-consent prompt and the rpc
map, where none embeds the set-to-null / never-touched rpcs container. -/
structure Rpcs where
  user_consent_prompt : Option String
  rpcs : Option (AList RpcEntry)
deriving DecidableEq, Repr

/-- Structured application parameters. -/
structure ApplicationParams where
  priority : Priority
  memory_kb : Int
  heart_beat_timeout_ms : Int
  certificate : Option String
  groups : List String
  nicknames : List String
  appHMIType : List AppHMIType
  requestType : List RequestType
deriving DecidableEq, Repr

/-- Default-constructed ApplicationParams, as held by a Nullable value that
was set to null or to a string: every optional empty, every integer zero. -/
def defaultApplicationParams : ApplicationParams :=
  { priority := .EMERGENCY
    memory_kb := 0
    heart_beat_timeout_ms := 0
    certificate := none
    groups := []
    nicknames := []
    appHMIType := []
    requestType := [] }

/-- Policy value of one application: explicitly null (revoked), a predefined
string, or structured parameters. -/
inductive AppPolicyValue where
  | null
  | str (s : String)
  | params (p : ApplicationParams)
deriving DecidableEq, Repr

/-- Boolean is_null test of the Nullable wrapper. -/
def AppPolicyValue.isNull : AppPolicyValue → Bool
  | .null => true
  | _ => false

/-- Underlying ApplicationParams of a policy value (default-constructed for
null and string values, as in the C++ Nullable wrapper). -/
def AppPolicyValue.getParams : AppPolicyValue → ApplicationParams
  | .params p => p
  | _ => defaultApplicationParams

/-- Device policy: the priority, none while never assigned. -/
structure DevicePolicy where
  priority : Option Priority
deriving DecidableEq, Repr

/-- Application-policies section: the per-application map and the device
policy. -/
structure ApplicationPoliciesSection where
  apps : AList AppPolicyValue
  device : DevicePolicy
deriving DecidableEq, Repr

/-- Module meta sub-document. -/
structure ModuleMeta where
  pt_exchanged_at_odometer_x : Option Int
  pt_exchanged_x_days_after_epoch : Option Int
  ignition_cycles_since_last_exchange : Option Int
deriving DecidableEq, Repr

/-- Module config sub-document. -/
structure ModuleConfig where
  preloaded_pt : Option Bool
  exchange_after_x_ignition_cycles : Option Int
  exchange_after_x_kilometers : Option Int
  exchange_after_x_days : Option Int
  timeout_after_x_seconds : Option Int
  vehicle_make : Option String
  vehicle_model : Option String
  vehicle_year : Option String
  preloaded_date : Option String
  certificate : Option String
  seconds_between_retries : List Int
  notifications_per_minute_by_priority : AList Int
  endpoints : AList (AList (List String))
deriving DecidableEq, Repr

/-- Consumer-friendly-messages sub-document: the version and the optional
messages container (message type mapped to its language codes; the message
bodies are never read or written by this component). -/
structure ConsumerFriendlyMessages where
  version : Option String
  messages : Option (AList (List String))
deriving DecidableEq, Repr

/-- Usage-and-error-counts sub-document: the app_level keys (the values
stored are empty AppLevel records). -/
structure UsageAndErrorCounts where
  app_level : List String
deriving DecidableEq, Repr

/-- The whole policy-table document. -/
structure Table where
  module_meta : ModuleMeta
  module_config : ModuleConfig
  usage_and_error_counts : UsageAndErrorCounts
  device_data : List String
  functional_groupings : AList Rpcs
  consumer_friendly_messages : ConsumerFriendlyMessages
  app_policies_section : ApplicationPoliciesSection
deriving DecidableEq, Repr

/-! ## Relational state

Modelled from the spec: the tables installed by kCreateSchema (the schema
text is not under src/), one list of rows per table, plus the singleton rows.
Nullable columns are Option valued exactly where the source consults IsNull
or binds a null. -/

/-- Singleton module_meta row (the columns this component touches). -/
structure ModuleMetaRow where
  pt_exchanged_at_odometer_x : Int
  pt_exchanged_x_days_after_epoch : Int
  ignition_cycles_since_last_exchange : Int
deriving DecidableEq, Repr

/-- Singleton module_config row. -/
structure ModuleConfigRow where
  preloaded_pt : Bool
  exchange_after_x_ignition_cycles : Int
  exchange_after_x_kilometers : Int
  exchange_after_x_days : Int
  timeout_after_x_seconds : Int
  vehicle_make : Option String
  vehicle_model : Option String
  vehicle_year : Option String
  preloaded_date : Option String
  certificate : Option String
deriving DecidableEq, Repr

/-- One functional_group row. -/
structure GroupRow where
  id : Int
  name : String
  user_consent_prompt : Option String
deriving DecidableEq, Repr

/-- One rpc row: name, nullable hmi-level token, nullable parameter token
and the owning group id. -/
structure RpcRow where
  name : String
  hmi_level : Option String
  parameter : Option String
  group_id : Int
deriving DecidableEq, Repr

/-- One application row. -/
structure AppRow where
  app_id : String
  priority : Option String
  is_revoked : Option Bool
  memory_kb : Option Int
  heart_beat_timeout_ms : Option Int
  certificate : Option String
  is_default : Option Bool
  is_predata : Option Bool
deriving DecidableEq, Repr

/-- One endpoint row: service type, url, application id. -/
structure EndpointRow where
  service : String
  url : String
  app_id : String
deriving DecidableEq, Repr

/-- The relational policy-table state. -/
structure DBState where
  module_meta : Option ModuleMetaRow
  module_config : Option ModuleConfigRow
  endpoint : List EndpointRow
  notifications_by_priority : List (String × Int)
  seconds_between_retries : List Int
  functional_group : List GroupRow
  rpc : List RpcRow
  application : List AppRow
  app_group : List (String × Int)
  nickname : List (String × String)
  app_type : List (String × String)
  request_type : List (String × String)
  device_data : List String
  app_level : List String
  message_version : Option String
  message_type : List String
  language : List String
  message_string : List (String × String)
deriving DecidableEq, Repr

/-- Reading a nullable text column: GetString yields the empty string on a
NULL column. -/
def getStringOpt (o : Option String) : String := o.getD ""

/-- Reading a nullable integer column: GetInteger and GetUInteger yield zero
on a NULL column. -/
def getIntegerOpt (o : Option Int) : Int := o.getD 0

/-- Reading a nullable boolean column through the IsNull guard the source
uses: NULL reads as false. -/
def getBooleanOpt (o : Option Bool) : Bool := o.getD false

/-- Conversion applied where the source parses a stored priority token into
the enum while ignoring the conversion result: an unknown token leaves the
default-constructed value in place. -/
def priorityFromToken (t : Option String) : Priority :=
  (Priority.fromJsonString (getStringOpt t)).getD .EMERGENCY

/-! ## The load path (GenerateSnapshot and the Gather methods)

Each definition below embeds the correspondingly named method of
SQLPTRepresentation.  The SQL selects themselves are modelled from the spec
(the query catalog is not under src/): a select visits the rows of its table
in stored order, and the joins resolve foreign references as described in
sections 3 and 4.4 of the specification. -/

/-- Embedding of SQLPTRepresentation::GatherModuleMeta. -/
def GatherModuleMeta (s : DBState) : ModuleMeta :=
  match s.module_meta with
  | some m =>
      { pt_exchanged_at_odometer_x := some m.pt_exchanged_at_odometer_x
        pt_exchanged_x_days_after_epoch := some m.pt_exchanged_x_days_after_epoch
        ignition_cycles_since_last_exchange :=
          some m.ignition_cycles_since_last_exchange }
  | none =>
      { pt_exchanged_at_odometer_x := none
        pt_exchanged_x_days_after_epoch := none
        ignition_cycles_since_last_exchange := none }

/-- Modelled from the spec: the kSelectEndpoints rows folded by
GatherModuleConfig into endpoints[service][app].push_back(url). -/
def gatherEndpoints (rows : List EndpointRow) : AList (AList (List String)) :=
  rows.foldl
    (fun acc r =>
      amodify r.service []
        (fun inner => amodify r.app_id [] (fun urls => urls ++ [r.url]) inner) acc)
    []

/-- Modelled from the spec: the kSelectNotificationsPerMin rows folded into
the notifications map (a later row for the same priority overwrites). -/
def gatherNotifications (rows : List (String × Int)) : AList Int :=
  rows.foldl (fun acc r => aupdate r.1 r.2 acc) []

/-- Embedding of SQLPTRepresentation::GatherModuleConfig.  The endpoint,
notification and retry-seconds selects run even when the module_config
select finds no row, exactly as in the source. -/
def GatherModuleConfig (s : DBState) : ModuleConfig :=
  let core : ModuleConfig :=
    match s.module_config with
    | some row =>
        { preloaded_pt := some row.preloaded_pt
          exchange_after_x_ignition_cycles := some row.exchange_after_x_ignition_cycles
          exchange_after_x_kilometers := some row.exchange_after_x_kilometers
          exchange_after_x_days := some row.exchange_after_x_days
          timeout_after_x_seconds := some row.timeout_after_x_seconds
          vehicle_make := some (getStringOpt row.vehicle_make)
          vehicle_model := some (getStringOpt row.vehicle_model)
          vehicle_year := some (getStringOpt row.vehicle_year)
          preloaded_date := some (getStringOpt row.preloaded_date)
          certificate := some (getStringOpt row.certificate)
          seconds_between_retries := []
          notifications_per_minute_by_priority := []
          endpoints := [] }
    | none =>
        { preloaded_pt := none
          exchange_after_x_ignition_cycles := none
          exchange_after_x_kilometers := none
          exchange_after_x_days := none
          timeout_after_x_seconds := none
          vehicle_make := none
          vehicle_model := none
          vehicle_year := none
          preloaded_date := none
          certificate := none
          seconds_between_retries := []
          notifications_per_minute_by_priority := []
          endpoints := [] }
  { core with
    endpoints := gatherEndpoints s.endpoint
    notifications_per_minute_by_priority :=
      gatherNotifications s.notifications_by_priority
    seconds_between_retries := s.seconds_between_retries }

/-- Embedding of SQLPTRepresentation::GatherUsageAndErrorCounts: the app ids
are collected into the map with empty AppLevel values (duplicate keys
collapse onto the existing entry). -/
def GatherUsageAndErrorCounts (s : DBState) : UsageAndErrorCounts :=
  { app_level :=
      s.app_level.foldl (fun acc k => if k ∈ acc then acc else acc ++ [k]) [] }

/-- Embedding of SQLPTRepresentation::GatherDeviceData. -/
def GatherDeviceData (s : DBState) : List String :=
  s.device_data.foldl (fun acc k => if k ∈ acc then acc else acc ++ [k]) []

/-- One step of the inner kSelectAllRpcs loop of GatherFunctionalGroupings:
a row of the bound group contributes its hmi-level and then its parameter,
each only when the column is non-null and the token converts. -/
def selectAllRpcsStep (gid : Int) (acc : AList RpcEntry) (r : RpcRow) :
    AList RpcEntry :=
  if r.group_id = gid then
    let acc1 :=
      match r.hmi_level with
      | some t =>
          match HmiLevel.fromJsonString t with
          | some h =>
              amodify r.name ⟨[], []⟩
                (fun e => { e with hmi_levels := InsertUnique h e.hmi_levels }) acc
          | none => acc
      | none => acc
    match r.parameter with
    | some t =>
        match Parameter.fromJsonString t with
        | some p =>
            amodify r.name ⟨[], []⟩
              (fun e => { e with parameters := InsertUnique p e.parameters }) acc1
        | none => acc1
    | none => acc1
  else acc

/-- The rpcs container of one functional group as GatherFunctionalGroupings
builds it: a group whose loop touched no rpc is set to null (none). -/
def gatherGroupRpcs (rpcRows : List RpcRow) (gid : Int) : Option (AList RpcEntry) :=
  let l := rpcRows.foldl (selectAllRpcsStep gid) []
  if l = [] then none else some l

/-- Embedding of SQLPTRepresentation::GatherFunctionalGroupings. -/
def GatherFunctionalGroupings (s : DBState) : AList Rpcs :=
  s.functional_group.foldl
    (fun acc g =>
      aupdate g.name
        { user_consent_prompt := g.user_consent_prompt
          rpcs := gatherGroupRpcs s.rpc g.id } acc)
    []

/-- Embedding of SQLPTRepresentation::GatherConsumerFriendlyMessages: only
the version is read; the messages container is never touched. -/
def GatherConsumerFriendlyMessages (s : DBState) : ConsumerFriendlyMessages :=
  { version := s.message_version, messages := none }

/-- Embedding of SQLPTRepresentation::IsApplicationRevoked: the is_revoked
column of the application row, with NULL reading as false. -/
def IsApplicationRevoked (s : DBState) (app_id : String) : Bool :=
  match s.application.find? (fun r => r.app_id = app_id) with
  | some row => getBooleanOpt row.is_revoked
  | none => false

/-- Embedding of SQLPTRepresentation::IsDefaultPolicy. -/
def IsDefaultPolicy (s : DBState) (app_id : String) : Bool :=
  match s.application.find? (fun r => r.app_id = app_id) with
  | some row => getBooleanOpt row.is_default
  | none => false

/-- Embedding of SQLPTRepresentation::IsPredataPolicy, which unconditionally
returns false in the source. -/
def IsPredataPolicy (_s : DBState) (_app_id : String) : Bool := false

/-- Embedding of SQLPTRepresentation::GatherAppGroup.  Modelled from the
spec: kSelectAppGroups joins the app_group references (stored as functional
group ids, section 4.4) back to the group names. -/
def GatherAppGroup (s : DBState) (app_id : String) : List String :=
  (s.app_group.filter (fun r => r.1 = app_id)).filterMap
    (fun r => (s.functional_group.find? (fun g => g.id = r.2)).map (fun g => g.name))

/-- Embedding of SQLPTRepresentation::GatherNickName. -/
def GatherNickName (s : DBState) (app_id : String) : List String :=
  (s.nickname.filter (fun r => r.1 = app_id)).map (fun r => r.2)

/-- Embedding of SQLPTRepresentation::GatherAppType: an app-type token that
fails enum conversion makes the whole gather return failure (none). -/
def GatherAppType (s : DBState) (app_id : String) : Option (List AppHMIType) :=
  optionMapM (fun r => AppHMIType.fromJsonString r.2)
    (s.app_type.filter (fun r => r.1 = app_id))

/-- Embedding of SQLPTRepresentation::GatherRequestType: an unknown token
makes the whole gather return failure (none). -/
def GatherRequestType (s : DBState) (app_id : String) : Option (List RequestType) :=
  optionMapM (fun r => RequestType.fromJsonString r.2)
    (s.request_type.filter (fun r => r.1 = app_id))

/-- One iteration body plus the remaining loop of
GatherApplicationPoliciesSection, with the accumulated section threaded
through.  Mirrors the source: a revoked app maps to null and continues; a
default-policy (resp. pre-data) app has the predefined string written into
the map without a continue; the device row only assigns device.priority; any
other app receives structured parameters, and a failing GatherAppType or
GatherRequestType aborts the whole loop with failure. -/
def gatherAppsLoop (s : DBState) :
    List AppRow → ApplicationPoliciesSection → Bool × ApplicationPoliciesSection
  | [], acc => (true, acc)
  | r :: rest, acc =>
      if IsApplicationRevoked s r.app_id then
        gatherAppsLoop s rest
          { acc with apps := aupdate r.app_id .null acc.apps }
      else
        let acc1 :=
          if IsDefaultPolicy s r.app_id then
            { acc with apps := aupdate r.app_id (.str kDefaultId) acc.apps }
          else acc
        let acc2 :=
          if IsPredataPolicy s r.app_id then
            { acc1 with apps := aupdate r.app_id (.str kPreDataConsentId) acc1.apps }
          else acc1
        if r.app_id = kDeviceId then
          gatherAppsLoop s rest
            { acc2 with device := { priority := some (priorityFromToken r.priority) } }
        else
          match GatherAppType s r.app_id with
          | none => (false, acc2)
          | some types =>
              match GatherRequestType s r.app_id with
              | none => (false, acc2)
              | some reqs =>
                  let p : ApplicationParams :=
                    { priority := priorityFromToken r.priority
                      memory_kb := getIntegerOpt r.memory_kb
                      heart_beat_timeout_ms := getIntegerOpt r.heart_beat_timeout_ms
                      certificate :=
                        if r.heart_beat_timeout_ms.isSome then
                          some (getStringOpt r.certificate)
                        else none
                      groups := GatherAppGroup s r.app_id
                      nicknames := GatherNickName s r.app_id
                      appHMIType := types
                      requestType := reqs }
                  gatherAppsLoop s rest
                    { acc2 with apps := aupdate r.app_id (.params p) acc2.apps }

/-- Embedding of SQLPTRepresentation::GatherApplicationPoliciesSection.  The
boolean is the return value of the source method; the section carries
whatever was filled in up to a failure, exactly as the caller observes. -/
def GatherApplicationPoliciesSection (s : DBState) :
    Bool × ApplicationPoliciesSection :=
  gatherAppsLoop s s.application { apps := [], device := { priority := none } }

/-- Embedding of SQLPTRepresentation::GenerateSnapshot: the seven gathers in
source order assembled into a fresh document (the boolean results of the
fallible gathers are discarded by the source). -/
def GenerateSnapshot (s : DBState) : Table :=
  { module_meta := GatherModuleMeta s
    module_config := GatherModuleConfig s
    usage_and_error_counts := GatherUsageAndErrorCounts s
    device_data := GatherDeviceData s
    functional_groupings := GatherFunctionalGroupings s
    consumer_friendly_messages := GatherConsumerFriendlyMessages s
    app_policies_section := (GatherApplicationPoliciesSection s).2 }

/-! ## The save path

The statements of the query catalog are named by an explicit carrier so that
prepare and exec failures (which in the source depend only on the statement,
section 7 of the spec: statement failures are environmental) can be injected
per statement.  A failing sub-save returns none; a succeeding one returns
the written state. -/

/-- Names of the catalog statements exercised by the save path and the
lifecycle methods. -/
inductive Stmt where
  | kDeleteRpc | kDeleteFunctionalGroup | kInsertFunctionalGroup
  | kInsertRpc | kInsertRpcWithParameter
  | kDeleteAppGroup | kDeleteApplication | kDeleteRequestType
  | kInsertApplication | kInsertAppGroup | kInsertNickname
  | kInsertAppType | kInsertRequestType
  | kDeleteAppGroupByApplicationId | kSelectApplicationFull
  | kInsertApplicationFull | kUpdatePreloaded | kUpdateIsDefault
  | kUpdateModuleConfig | kDeleteSecondsBetweenRetries
  | kInsertSecondsBetweenRetry | kInsertNotificationsByPriority
  | kDeleteEndpoint | kInsertEndpoint
  | kDeleteMessageString | kUpdateVersion | kInsertMessageType
  | kInsertLanguage
  | kDeleteAppLevel | kInsertAppLevel | kInsertDeviceData
  | kSaveModuleMeta
  | kDropSchema | kCreateSchema | kInsertInitData
deriving DecidableEq, BEq, Repr

/-- Failure environment: the set of statements whose prepare or exec fails. -/
structure Env where
  fails : List Stmt
deriving DecidableEq, Repr

/-- Success of a statement under the environment. -/
def Env.ok (e : Env) (st : Stmt) : Bool := !(e.fails.contains st)

/-- The all-success environment. -/
def allOk : Env := ⟨[]⟩

/-- Run one statement: apply its state effect on success, fail otherwise. -/
def execStmt (env : Env) (st : Stmt) (f : DBState → DBState) (s : DBState) :
    Option DBState :=
  if env.ok st then some (f s) else none

/-- The rpc rows SaveRpcs writes for one group: one row per (rpc, hmi_level)
when the parameter list is empty, one row per (rpc, hmi_level, parameter)
otherwise. -/
def rpcRowsOf (group_id : Int) (rpcs : AList RpcEntry) : List RpcRow :=
  rpcs.flatMap (fun e =>
    e.2.hmi_levels.flatMap (fun h =>
      if e.2.parameters = [] then
        [{ name := e.1, hmi_level := some (HmiLevel.toJsonString h),
           parameter := none, group_id := group_id }]
      else
        e.2.parameters.map (fun p =>
          { name := e.1, hmi_level := some (HmiLevel.toJsonString h),
            parameter := some (Parameter.toJsonString p), group_id := group_id })))

/-- Embedding of SQLPTRepresentation::SaveRpcs. -/
def SaveRpcs (env : Env) (group_id : Int) (rpcs : AList RpcEntry) (s : DBState) :
    Option DBState :=
  if env.ok .kInsertRpc ∧ env.ok .kInsertRpcWithParameter then
    some { s with rpc := s.rpc ++ rpcRowsOf group_id rpcs }
  else none

/-- One iteration of the SaveFunctionalGroupings loop: insert the group row
under the deterministic id abs(Djb2Hash(name)), then its rpcs. -/
def saveFGStep (env : Env) (s : DBState) (g : String × Rpcs) : Option DBState :=
  SaveRpcs env (GroupId g.1) (g.2.rpcs.getD [])
    { s with
      functional_group :=
        s.functional_group ++
          [{ id := GroupId g.1, name := g.1,
             user_consent_prompt := g.2.user_consent_prompt }] }

/-- Embedding of SQLPTRepresentation::SaveFunctionalGroupings: delete all
rpcs, delete all groups, then insert each group under the deterministic id
abs(Djb2Hash(name)) followed by its rpcs. -/
def SaveFunctionalGroupings (env : Env) (groups : AList Rpcs) (s : DBState) :
    Option DBState := do
  let s ← execStmt env .kDeleteRpc (fun s => { s with rpc := [] }) s
  let s ← execStmt env .kDeleteFunctionalGroup
      (fun s => { s with functional_group := [] }) s
  if ¬ env.ok .kInsertFunctionalGroup then none else
  groups.foldlM (saveFGStep env) s

/-- The application row SaveSpecificAppPolicy inserts (kInsertApplication
does not bind is_default and is_predata, which take the schema default). -/
def appRowOf (app : String × AppPolicyValue) : AppRow :=
  let p := app.2.getParams
  { app_id := app.1
    priority := some (Priority.toJsonString p.priority)
    is_revoked := some app.2.isNull
    memory_kb := some p.memory_kb
    heart_beat_timeout_ms := some p.heart_beat_timeout_ms
    certificate := p.certificate
    is_default := some false
    is_predata := some false }

/-- Resolution of a group-name list against the stored group table: each
name found becomes an (application, group id) reference, a missing name
inserts nothing. -/
def resolveGroups (fg : List GroupRow) (app_id : String)
    (app_groups : List String) : List (String × Int) :=
  app_groups.filterMap (fun n =>
    (fg.find? (fun g => g.name = n)).map (fun g => (app_id, g.id)))

/-- Embedding of SQLPTRepresentation::SaveAppGroup.  Modelled from the spec:
kInsertAppGroup resolves the group name to the stored group id (section 4.4:
other tables hold references to the stable ids); a name without a stored
group inserts nothing. -/
def SaveAppGroup (env : Env) (app_id : String) (app_groups : List String)
    (s : DBState) : Option DBState :=
  if env.ok .kInsertAppGroup then
    some { s with
      app_group := s.app_group ++ resolveGroups s.functional_group app_id app_groups }
  else none

/-- Embedding of SQLPTRepresentation::SaveNickname (insertion keyed on the
(name, application) pair). -/
def SaveNickname (env : Env) (app_id : String) (nicknames : List String)
    (s : DBState) : Option DBState :=
  if env.ok .kInsertNickname then
    some { s with
      nickname := nicknames.foldl (fun t n => insertIfAbsent (app_id, n) t) s.nickname }
  else none

/-- Embedding of SQLPTRepresentation::SaveAppType (insertion keyed on the
(application, type) pair). -/
def SaveAppType (env : Env) (app_id : String) (types : List AppHMIType)
    (s : DBState) : Option DBState :=
  if env.ok .kInsertAppType then
    some { s with
      app_type :=
        types.foldl (fun t ty => insertIfAbsent (app_id, AppHMIType.toJsonString ty) t)
          s.app_type }
  else none

/-- Embedding of SQLPTRepresentation::SaveRequestType. -/
def SaveRequestType (env : Env) (app_id : String) (types : List RequestType)
    (s : DBState) : Option DBState :=
  if env.ok .kInsertRequestType then
    some { s with
      request_type :=
        s.request_type ++ types.map (fun ty => (app_id, RequestType.toJsonString ty)) }
  else none

/-- Embedding of SQLPTRepresentation::SetPreloaded (a void method whose
failures are ignored by its caller). -/
def SetPreloaded (env : Env) (value : Bool) (s : DBState) : DBState :=
  if env.ok .kUpdatePreloaded then
    { s with module_config := s.module_config.map (fun c => { c with preloaded_pt := value }) }
  else s

/-- Embedding of SQLPTRepresentation::SetIsDefault. -/
def SetIsDefault (env : Env) (app_id : String) (is_default : Bool) (s : DBState) :
    Option DBState :=
  execStmt env .kUpdateIsDefault
    (fun s => { s with
      application := s.application.map (fun r =>
        if r.app_id = app_id then { r with is_default := some is_default } else r) })
    s

/-- Embedding of SQLPTRepresentation::CopyApplication.  Modelled from the
spec: the ten-column application row of the source application is copied
under the destination id, replacing a destination row already present. -/
def CopyApplication (env : Env) (src dst : String) (s : DBState) : Option DBState :=
  if ¬ env.ok .kSelectApplicationFull then none else
  match s.application.find? (fun r => r.app_id = src) with
  | none => none
  | some row =>
      execStmt env .kInsertApplicationFull
        (fun s =>
          let newRow := { row with app_id := dst }
          { s with
            application :=
              if s.application.any (fun r => r.app_id = dst) then
                s.application.map (fun r => if r.app_id = dst then newRow else r)
              else s.application ++ [newRow] })
        s

/-- Embedding of SQLPTRepresentation::SetDefaultPolicy. -/
def SetDefaultPolicy (env : Env) (app_id : String) (s : DBState) : Option DBState := do
  let s ← execStmt env .kDeleteAppGroupByApplicationId
      (fun s => { s with app_group := s.app_group.filter (fun r => ¬ r.1 = app_id) }) s
  let s ← CopyApplication env kDefaultId app_id s
  let s := SetPreloaded env false s
  let default_groups := GatherAppGroup s kDefaultId
  let s ← SaveAppGroup env app_id default_groups s
  SetIsDefault env app_id true s

/-- Embedding of SQLPTRepresentation::SaveSpecificAppPolicy: insert the
application row; a string value equal to kDefaultId delegates to
SetDefaultPolicy and stops; every other value continues with groups,
nicknames, HMI types and request types. -/
def SaveSpecificAppPolicy (env : Env) (app : String × AppPolicyValue)
    (s : DBState) : Option DBState := do
  let s ← execStmt env .kInsertApplication
      (fun s => { s with application := s.application ++ [appRowOf app] }) s
  match app.2 with
  | .str v =>
      if v = kDefaultId then SetDefaultPolicy env app.1 s
      else saveAppRest env app s
  | _ => saveAppRest env app s
where
  /-- The group, nickname, type and request-type writes shared by the
  non-delegating paths. -/
  saveAppRest (env : Env) (app : String × AppPolicyValue) (s : DBState) :
      Option DBState := do
    let p := app.2.getParams
    let s ← SaveAppGroup env app.1 p.groups s
    let s ← SaveNickname env app.1 p.nicknames s
    let s ← SaveAppType env app.1 p.appHMIType s
    SaveRequestType env app.1 p.requestType s

/-- The application row SaveDevicePolicy inserts: the device priority,
is_revoked false, zero memory and heart-beat, and a null certificate. -/
def deviceRowOf (device : DevicePolicy) : AppRow :=
  { app_id := kDeviceId
    priority := some (Priority.toJsonString (device.priority.getD .EMERGENCY))
    is_revoked := some false
    memory_kb := some 0
    heart_beat_timeout_ms := some 0
    certificate := none
    is_default := some false
    is_predata := some false }

/-- Embedding of SQLPTRepresentation::SaveDevicePolicy. -/
def SaveDevicePolicy (env : Env) (device : DevicePolicy) (s : DBState) :
    Option DBState :=
  execStmt env .kInsertApplication
    (fun s => { s with application := s.application ++ [deviceRowOf device] })
    s

/-- Modelled from the spec: IsPredefinedApp of policy_helper.h (not under
src/), true exactly on the reserved identifiers of the glossary. -/
def IsPredefinedApp (app_id : String) : Bool :=
  app_id = kDefaultId ∨ app_id = kPreDataConsentId ∨ app_id = kDeviceId

/-- Save of an optionally present predefined application (the find call of
the source followed by the guarded SaveSpecificAppPolicy). -/
def saveOptApp (env : Env) (k : String) (o : Option AppPolicyValue) (s : DBState) :
    Option DBState :=
  match o with
  | some v => SaveSpecificAppPolicy env (k, v) s
  | none => some s

/-- Embedding of SQLPTRepresentation::SaveApplicationPoliciesSection: clear
app_group, application and request_type; save the predefined apps first
(default, then pre_DataConsent), then the device policy, then every
non-predefined app. -/
def SaveApplicationPoliciesSection (env : Env)
    (policies : ApplicationPoliciesSection) (s : DBState) : Option DBState := do
  let s ← execStmt env .kDeleteAppGroup (fun s => { s with app_group := [] }) s
  let s ← execStmt env .kDeleteApplication (fun s => { s with application := [] }) s
  let s ← execStmt env .kDeleteRequestType (fun s => { s with request_type := [] }) s
  let s ← saveOptApp env kDefaultId (alookup kDefaultId policies.apps) s
  let s ← saveOptApp env kPreDataConsentId (alookup kPreDataConsentId policies.apps) s
  let s ← SaveDevicePolicy env policies.device s
  policies.apps.foldlM
    (fun s a => if IsPredefinedApp a.1 then some s else SaveSpecificAppPolicy env a s)
    s

/-- Embedding of SQLPTRepresentation::SaveSecondsBetweenRetries: delete all
rows, then insert the sequence under its indices. -/
def SaveSecondsBetweenRetries (env : Env) (seconds : List Int) (s : DBState) :
    Option DBState := do
  let s ← execStmt env .kDeleteSecondsBetweenRetries
      (fun s => { s with seconds_between_retries := [] }) s
  execStmt env .kInsertSecondsBetweenRetry
    (fun s => { s with seconds_between_retries := s.seconds_between_retries ++ seconds }) s

/-- Embedding of SQLPTRepresentation::SaveNumberOfNotificationsPerMinute.
Modelled from the spec: the insert is keyed on the priority, overwriting a
stored count for the same priority. -/
def SaveNumberOfNotificationsPerMinute (env : Env) (notifications : AList Int)
    (s : DBState) : Option DBState :=
  if env.ok .kInsertNotificationsByPriority then
    some { s with
      notifications_by_priority :=
        notifications.foldl (fun t kv => aupdate kv.1 kv.2 t) s.notifications_by_priority }
  else none

/-- The endpoint rows SaveServiceEndpoints writes, in nested iteration
order. -/
def endpointRowsOf (endpoints : AList (AList (List String))) : List EndpointRow :=
  endpoints.flatMap (fun svc =>
    svc.2.flatMap (fun app =>
      app.2.map (fun u => { service := svc.1, url := u, app_id := app.1 })))

/-- Embedding of SQLPTRepresentation::SaveServiceEndpoints. -/
def SaveServiceEndpoints (env : Env) (endpoints : AList (AList (List String)))
    (s : DBState) : Option DBState := do
  let s ← execStmt env .kDeleteEndpoint (fun s => { s with endpoint := [] }) s
  execStmt env .kInsertEndpoint
    (fun s => { s with endpoint := s.endpoint ++ endpointRowsOf endpoints }) s

/-- Embedding of SQLPTRepresentation::SaveModuleConfig. -/
def SaveModuleConfig (env : Env) (config : ModuleConfig) (s : DBState) :
    Option DBState := do
  if ¬ env.ok .kUpdateModuleConfig then none else
  let s := { s with
    module_config := s.module_config.map (fun _ =>
      { preloaded_pt := config.preloaded_pt.getD false
        exchange_after_x_ignition_cycles :=
          config.exchange_after_x_ignition_cycles.getD 0
        exchange_after_x_kilometers := config.exchange_after_x_kilometers.getD 0
        exchange_after_x_days := config.exchange_after_x_days.getD 0
        timeout_after_x_seconds := config.timeout_after_x_seconds.getD 0
        vehicle_make := config.vehicle_make
        vehicle_model := config.vehicle_model
        vehicle_year := config.vehicle_year
        preloaded_date := config.preloaded_date
        certificate := config.certificate }) }
  let s ← SaveSecondsBetweenRetries env config.seconds_between_retries s
  let s ← SaveNumberOfNotificationsPerMinute env
      config.notifications_per_minute_by_priority s
  SaveServiceEndpoints env config.endpoints s

/-- Embedding of SQLPTRepresentation::SaveMessageType. -/
def SaveMessageType (env : Env) (ty : String) (s : DBState) : Option DBState :=
  execStmt env .kInsertMessageType
    (fun s => { s with message_type := insertIfAbsent ty s.message_type }) s

/-- Embedding of SQLPTRepresentation::SaveLanguage. -/
def SaveLanguage (env : Env) (code : String) (s : DBState) : Option DBState :=
  execStmt env .kInsertLanguage
    (fun s => { s with language := insertIfAbsent code s.language }) s

/-- Embedding of SQLPTRepresentation::SaveMessageString, a deliberate no-op
that returns true. -/
def SaveMessageString (_env : Env) (_ty _lang : String) (s : DBState) :
    Option DBState :=
  some s

/-- Embedding of SQLPTRepresentation::SaveConsumerFriendlyMessages: an unset
messages container writes nothing and succeeds; otherwise all message
strings are deleted, the version updated, and the types and languages
re-inserted. -/
def SaveConsumerFriendlyMessages (env : Env) (messages : ConsumerFriendlyMessages)
    (s : DBState) : Option DBState :=
  match messages.messages with
  | none => some s
  | some m => do
      let s ← execStmt env .kDeleteMessageString
          (fun s => { s with message_string := [] }) s
      let s ← execStmt env .kUpdateVersion
          (fun s => { s with
            message_version := s.message_version.map (fun _ => messages.version.getD "") }) s
      m.foldlM
        (fun s ty => do
          let s ← SaveMessageType env ty.1 s
          ty.2.foldlM
            (fun s lang => do
              let s ← SaveLanguage env lang s
              SaveMessageString env ty.1 lang s)
            s)
        s

/-- Embedding of SQLPTRepresentation::SaveDeviceData. -/
def SaveDeviceData (env : Env) (devices : List String) (s : DBState) :
    Option DBState :=
  if env.ok .kInsertDeviceData then
    some { s with device_data := devices.foldl (fun t d => insertIfAbsent d t) s.device_data }
  else none

/-- Embedding of SQLPTRepresentation::SaveUsageAndErrorCounts. -/
def SaveUsageAndErrorCounts (env : Env) (counts : UsageAndErrorCounts)
    (s : DBState) : Option DBState := do
  let s ← execStmt env .kDeleteAppLevel (fun s => { s with app_level := [] }) s
  execStmt env .kInsertAppLevel
    (fun s => { s with app_level := s.app_level ++ counts.app_level }) s

/-- Embedding of SQLPTRepresentation::SaveModuleMeta. -/
def SaveModuleMeta (env : Env) (meta : ModuleMeta) (s : DBState) : Option DBState :=
  execStmt env .kSaveModuleMeta
    (fun s => { s with
      module_meta := s.module_meta.map (fun _ =>
        { pt_exchanged_at_odometer_x := meta.pt_exchanged_at_odometer_x.getD 0
          pt_exchanged_x_days_after_epoch :=
            meta.pt_exchanged_x_days_after_epoch.getD 0
          ignition_cycles_since_last_exchange :=
            meta.ignition_cycles_since_last_exchange.getD 0 }) })
    s

/-- Embedding of SQLPTRepresentation::Save: the seven sub-saves in source
order under one transaction.  A failing sub-save rolls the transaction back
(the observable state is the pre-call state, the transaction semantics of
the storage driver per sections 4.1 and 5 of the spec) and returns false;
otherwise the transaction commits and Save returns true. -/
def Save (env : Env) (table : Table) (s : DBState) : Bool × DBState :=
  match SaveFunctionalGroupings env table.functional_groupings s with
  | none => (false, s)
  | some s1 =>
    match SaveApplicationPoliciesSection env table.app_policies_section s1 with
    | none => (false, s)
    | some s2 =>
      match SaveModuleConfig env table.module_config s2 with
      | none => (false, s)
      | some s3 =>
        match SaveConsumerFriendlyMessages env table.consumer_friendly_messages s3 with
        | none => (false, s)
        | some s4 =>
          match SaveDeviceData env table.device_data s4 with
          | none => (false, s)
          | some s5 =>
            match SaveUsageAndErrorCounts env table.usage_and_error_counts s5 with
            | none => (false, s)
            | some s6 =>
              match SaveModuleMeta env table.module_meta s6 with
              | none => (false, s)
              | some s7 => (true, s7)

/-! ## Lifecycle -/

/-- The state of a database with a freshly created empty schema. -/
def emptyDBState : DBState :=
  { module_meta := none, module_config := none, endpoint := []
    notifications_by_priority := [], seconds_between_retries := []
    functional_group := [], rpc := [], application := [], app_group := []
    nickname := [], app_type := [], request_type := [], device_data := []
    app_level := [], message_version := none, message_type := []
    language := [], message_string := [] }

/-- Modelled from the spec: the kInsertInitData seed constituting an
empty-but-valid policy table (singleton rows present, every entity table
empty). -/
def seedDBState : DBState :=
  { emptyDBState with
    module_meta := some { pt_exchanged_at_odometer_x := 0
                          pt_exchanged_x_days_after_epoch := 0
                          ignition_cycles_since_last_exchange := 0 }
    module_config := some { preloaded_pt := false
                            exchange_after_x_ignition_cycles := 0
                            exchange_after_x_kilometers := 0
                            exchange_after_x_days := 0
                            timeout_after_x_seconds := 0
                            vehicle_make := none, vehicle_model := none
                            vehicle_year := none, preloaded_date := none
                            certificate := none }
    message_version := some "0" }

/-- Embedding of SQLPTRepresentation::RefreshDB: drop, re-create and seed
the schema. -/
def RefreshDB (env : Env) (s : DBState) : Bool × DBState :=
  if ¬ env.ok .kDropSchema then (false, s)
  else if ¬ env.ok .kCreateSchema then (false, emptyDBState)
  else if ¬ env.ok .kInsertInitData then (false, emptyDBState)
  else (true, seedDBState)

/-- Result carrier of Init. -/
inductive InitResult where
  | SUCCESS | EXISTS | FAIL
deriving DecidableEq, Repr

/-- Environmental inputs of Init: the open results, the read/write
capability, the kCheckPgNumber row (none when the pragma fails), the
kCheckDBIntegrity prepare success and its result rows, the kIsFirstRun
result (none when its prepare or step fails), and the outcomes of schema
creation and seeding. -/
structure InitEnv where
  first_open : Bool
  retry_opens : List Bool
  is_read_write : Bool
  page_count : Option Int
  integrity_prepare_ok : Bool
  integrity_rows : List String
  first_run_row : Option Bool
  create_ok : Bool
  insert_ok : Bool
deriving DecidableEq, Repr

/-- The schema-creation tail of Init (kCreateSchema then kInsertInitData). -/
def initCreateBranch (env : InitEnv) : InitResult × Bool :=
  if ¬ env.create_ok then (.FAIL, false)
  else if ¬ env.insert_ok then (.FAIL, false)
  else (.SUCCESS, false)

/-- Embedding of SQLPTRepresentation::Init.  The boolean output records
whether kSetNotFirstRun was executed.  The integrity while-loop of the
source returns from its first iteration: the first row decides, later rows
are never read; an empty result set falls through to schema creation. -/
def Init (env : InitEnv) : InitResult × Bool :=
  if ¬ (env.first_open ∨ env.retry_opens.any id) then (.FAIL, false)
  else if ¬ env.is_read_write then (.FAIL, false)
  else
    match env.page_count with
    | none => initCreateBranch env
    | some pages =>
        if 0 < pages then
          if ¬ env.integrity_prepare_ok then initCreateBranch env
          else
            match env.integrity_rows with
            | [] => initCreateBranch env
            | row :: _ =>
                if row = "ok" then
                  match env.first_run_row with
                  | some true => (.SUCCESS, true)
                  | some false => (.EXISTS, false)
                  | none => (.EXISTS, false)
                else (.FAIL, false)
        else initCreateBranch env

/-! ## Decision engine -/

/-- Permission verdict carrier. -/
inductive PermitResult where
  | kRpcAllowed | kRpcDisallowed
deriving DecidableEq, Repr

/-- Result record of CheckPermissions. -/
structure CheckPermissionResult where
  hmi_level_permitted : PermitResult
  list_of_allowed_params : List String
deriving DecidableEq, Repr

/-- Modelled from the spec: the kSelectRpc rows for the three bound keys -
the parameter column of every rpc row reachable through one of the
application's groups whose rpc name and hmi level match. -/
def selectRpcRows (s : DBState) (app_id hmi_level rpc : String) :
    List (Option String) :=
  (s.app_group.filter (fun ag => ag.1 = app_id)).flatMap (fun ag =>
    ((s.rpc.filter (fun r =>
        r.group_id = ag.2 ∧ r.name = rpc ∧ r.hmi_level = some hmi_level)).map
      (fun r => r.parameter)))

/-- Embedding of SQLPTRepresentation::CheckPermissions: any matching row
permits the level; the row loop then collects every non-null parameter of
every row, the first row included. -/
def CheckPermissions (s : DBState) (app_id hmi_level rpc : String) :
    CheckPermissionResult :=
  let rows := selectRpcRows s app_id hmi_level rpc
  { hmi_level_permitted := if rows.isEmpty then .kRpcDisallowed else .kRpcAllowed
    list_of_allowed_params := rows.filterMap id }

/-- Definition following the words of claim C3 (parameters contributed only
by the rows after the first), kept solely to compare with the embedding of
the source. -/
def CheckPermissionsClaimC3 (s : DBState) (app_id hmi_level rpc : String) :
    CheckPermissionResult :=
  let rows := selectRpcRows s app_id hmi_level rpc
  { hmi_level_permitted := if rows.isEmpty then .kRpcDisallowed else .kRpcAllowed
    list_of_allowed_params := (rows.drop 1).filterMap id }

/-- Embedding of SQLPTRepresentation::KilometersBeforeExchange.  The select
reads the limit from module_config and the odometer at last exchange from
module_meta; a missing row fails the exec and returns 0. -/
def KilometersBeforeExchange (s : DBState) (current : Int) : Int :=
  match s.module_config, s.module_meta with
  | some cfg, some meta =>
      let limit := cfg.exchange_after_x_kilometers
      let last := meta.pt_exchanged_at_odometer_x
      if limit < 0 ∨ last < 0 ∨ current < 0 ∨ current < last ∨
          limit < current - last then 0
      else limit - (current - last)
  | _, _ => 0

/-- Embedding of SQLPTRepresentation::DaysBeforeExchange: identical to the
kilometers arithmetic except that last == 0 short-circuits to the limit
before any clamping check. -/
def DaysBeforeExchange (s : DBState) (current : Int) : Int :=
  match s.module_config, s.module_meta with
  | some cfg, some meta =>
      let limit := cfg.exchange_after_x_days
      let last := meta.pt_exchanged_x_days_after_epoch
      if last = 0 then limit
      else if limit < 0 ∨ last < 0 ∨ current < 0 ∨ current < last ∨
          limit < current - last then 0
      else limit - (current - last)
  | _, _ => 0

/-- Modelled from the spec: the UserFriendlyMessage record (the policy type
headers are not under src/); only message_code is ever assigned by
GetUserFriendlyMsg. -/
structure UserFriendlyMessage where
  message_code : String
  tts : String := ""
  label : String := ""
  line1 : String := ""
  line2 : String := ""
  text_body : String := ""
deriving DecidableEq, Repr

/-- Embedding of SQLPTRepresentation::GetUserFriendlyMsg: one message per
requested code with only the code filled in; the state and language inputs
are never consulted. -/
def GetUserFriendlyMsg (_s : DBState) (msg_codes : List String)
    (_language : String) : List UserFriendlyMessage :=
  msg_codes.map (fun c => { message_code := c })

/-! ## Claim C2: Save runs the seven sub-saves in order under one
transaction -/

/-- The seven sub-saves composed in the order Save runs them:
SaveFunctionalGroupings, SaveApplicationPoliciesSection, SaveModuleConfig,
SaveConsumerFriendlyMessages, SaveDeviceData, SaveUsageAndErrorCounts,
SaveModuleMeta. -/
def saveSubChain (env : Env) (table : Table) (s : DBState) : Option DBState := do
  let s ← SaveFunctionalGroupings env table.functional_groupings s
  let s ← SaveApplicationPoliciesSection env table.app_policies_section s
  let s ← SaveModuleConfig env table.module_config s
  let s ← SaveConsumerFriendlyMessages env table.consumer_friendly_messages s
  let s ← SaveDeviceData env table.device_data s
  let s ← SaveUsageAndErrorCounts env table.usage_and_error_counts s
  SaveModuleMeta env table.module_meta s

/-! ## Claim C3: CheckPermissions -/

/-- Concrete store for the permission claims: one group binding for app1 and
one rpc row carrying a parameter. -/
def stateC3 : DBState :=
  { emptyDBState with
    app_group := [("app1", 5)]
    rpc := [{ name := "Show", hmi_level := some "FULL",
              parameter := some "gps", group_id := 5 }] }

/-- Concrete store for the cadence witness: kilometer limit 100 with last
odometer 20, day limit 30 with last day 0. -/
def stateC4 : DBState :=
  { emptyDBState with
    module_config := some { preloaded_pt := false
                            exchange_after_x_ignition_cycles := 0
                            exchange_after_x_kilometers := 100
                            exchange_after_x_days := 30
                            timeout_after_x_seconds := 60
                            vehicle_make := none, vehicle_model := none
                            vehicle_year := none, preloaded_date := none
                            certificate := none }
    module_meta := some { pt_exchanged_at_odometer_x := 20
                          pt_exchanged_x_days_after_epoch := 0
                          ignition_cycles_since_last_exchange := 0 } }

/-! ## Claim C6: the Init integrity and first-run logic -/

/-- Concrete Init environment whose integrity check yields an "ok" first row
followed by a corrupt row. -/
def initEnvC6 : InitEnv :=
  { first_open := true, retry_opens := [], is_read_write := true
    page_count := some 1, integrity_prepare_ok := true
    integrity_rows := ["ok", "corrupt"], first_run_row := some false
    create_ok := true, insert_ok := true }

/-! ## Claim C5: unknown enum tokens during load -/

/-- Replacement of every unconvertible hmi-level or parameter token of an
rpc row by a NULL column. -/
def sanitizeRpcRow (r : RpcRow) : RpcRow :=
  { r with
    hmi_level :=
      match r.hmi_level with
      | some t => if (HmiLevel.fromJsonString t).isSome then some t else none
      | none => none
    parameter :=
      match r.parameter with
      | some t => if (Parameter.fromJsonString t).isSome then some t else none
      | none => none }

/-- The state with every unknown rpc token blanked out. -/
def sanitizeRpcTokens (s : DBState) : DBState :=
  { s with rpc := s.rpc.map sanitizeRpcRow }

/-- Concrete store for C5: one application whose single app-type row carries
an unconvertible token. -/
def stateC5 : DBState :=
  { emptyDBState with
    application := [{ app_id := "app1", priority := some "NORMAL"
                      is_revoked := some false, memory_kb := some 5
                      heart_beat_timeout_ms := some 7, certificate := none
                      is_default := some false, is_predata := some false }]
    app_type := [("app1", "NOT_A_TYPE")] }

/-- The structured ApplicationParams the gather loop assembles for one
application row (assuming its type gathers succeed). -/
def gatherRowParams (s : DBState) (r : AppRow) : ApplicationParams :=
  { priority := priorityFromToken r.priority
    memory_kb := getIntegerOpt r.memory_kb
    heart_beat_timeout_ms := getIntegerOpt r.heart_beat_timeout_ms
    certificate :=
      if r.heart_beat_timeout_ms.isSome then some (getStringOpt r.certificate)
      else none
    groups := GatherAppGroup s r.app_id
    nicknames := GatherNickName s r.app_id
    appHMIType := (GatherAppType s r.app_id).getD []
    requestType := (GatherRequestType s r.app_id).getD [] }

/-- Total one-row summary of the gather loop: a revoked app maps to null, a
non-revoked device row assigns only the device priority, and every other
row maps to its structured parameters. -/
def gatherRowStep (s : DBState) (acc : ApplicationPoliciesSection) (r : AppRow) :
    ApplicationPoliciesSection :=
  if IsApplicationRevoked s r.app_id then
    { acc with apps := aupdate r.app_id .null acc.apps }
  else if r.app_id = kDeviceId then
    { acc with device := { priority := some (priorityFromToken r.priority) } }
  else
    { acc with apps := aupdate r.app_id (.params (gatherRowParams s r)) acc.apps }

/-- Concrete store for C9: a single non-revoked application flagged
is_default. -/
def stateC9 : DBState :=
  { emptyDBState with
    application := [{ app_id := "app1", priority := some "NORMAL"
                      is_revoked := some false, memory_kb := some 5
                      heart_beat_timeout_ms := some 7, certificate := none
                      is_default := some true, is_predata := some false }] }

/-- The application row of the C9 store. -/
def appRowC9 : AppRow :=
  { app_id := "app1", priority := some "NORMAL", is_revoked := some false
    memory_kb := some 5, heart_beat_timeout_ms := some 7, certificate := none
    is_default := some true, is_predata := some false }

/-! ## Claim C1: the snapshot round trip -/

/-- Structural equality of two documents up to the ordering of the unordered
containers: the functional-group and application maps are compared as maps
(by lookup); every other component, including the ordered sequences inside
the values, is compared directly. -/
structure TableEquiv (A B : Table) : Prop where
  module_meta : A.module_meta = B.module_meta
  module_config : A.module_config = B.module_config
  usage_and_error_counts : A.usage_and_error_counts = B.usage_and_error_counts
  device_data : A.device_data = B.device_data
  functional_groupings : ∀ g : String,
    alookup g A.functional_groupings = alookup g B.functional_groupings
  consumer_friendly_messages :
    A.consumer_friendly_messages = B.consumer_friendly_messages
  apps : ∀ a : String,
    alookup a A.app_policies_section.apps = alookup a B.app_policies_section.apps
  device : A.app_policies_section.device = B.app_policies_section.device

/-- Store refuting the round trip: the single rpc row of group G carries a
NULL hmi_level together with a parameter. -/
def stateC1bad : DBState :=
  { emptyDBState with
    functional_group := [{ id := 7, name := "G", user_consent_prompt := none }]
    rpc := [{ name := "Show", hmi_level := none, parameter := some "gps",
              group_id := 7 }] }

/-- The group rows a save of the given groupings writes, in map order. -/
def fgRowsOf (groups : AList Rpcs) : List GroupRow :=
  groups.map (fun g =>
    { id := GroupId g.1, name := g.1, user_consent_prompt := g.2.user_consent_prompt })

/-- The rpc rows a save of the given groupings writes, in map order. -/
def rpcRowsAll (groups : AList Rpcs) : List RpcRow :=
  groups.flatMap (fun g => rpcRowsOf (GroupId g.1) (g.2.rpcs.getD []))

/-- Net state effect of a successful SaveFunctionalGroupings. -/
def applyFG (groups : AList Rpcs) (s : DBState) : DBState :=
  { s with rpc := rpcRowsAll groups, functional_group := fgRowsOf groups }

/-- Net state effect of a successful SaveSpecificAppPolicy on a non-string
policy value. -/
def applyApp (app : String × AppPolicyValue) (s : DBState) : DBState :=
  let p := app.2.getParams
  { s with
    application := s.application ++ [appRowOf app]
    app_group := s.app_group ++ resolveGroups s.functional_group app.1 p.groups
    nickname := p.nicknames.foldl (fun t n => insertIfAbsent (app.1, n) t) s.nickname
    app_type :=
      p.appHMIType.foldl
        (fun t ty => insertIfAbsent (app.1, AppHMIType.toJsonString ty) t) s.app_type
    request_type :=
      s.request_type ++ p.requestType.map (fun ty => (app.1, RequestType.toJsonString ty)) }

/-- Net state effect of the non-predefined app loop. -/
def applyLoop (apps : AList AppPolicyValue) (s : DBState) : DBState :=
  apps.foldl (fun s a => if IsPredefinedApp a.1 then s else applyApp a s) s

/-- Net state effect of saveOptApp on a non-string value. -/
def applyOptApp (k : String) (o : Option AppPolicyValue) (s : DBState) : DBState :=
  match o with
  | some v => applyApp (k, v) s
  | none => s

/-- Net state effect of a successful SaveApplicationPoliciesSection on a
section without string values. -/
def applyAPS (pol : ApplicationPoliciesSection) (s : DBState) : DBState :=
  let s0 : DBState := { s with app_group := [], application := [], request_type := [] }
  let s1 := applyOptApp kDefaultId (alookup kDefaultId pol.apps) s0
  let s2 := applyOptApp kPreDataConsentId (alookup kPreDataConsentId pol.apps) s1
  let s3 : DBState := { s2 with application := s2.application ++ [deviceRowOf pol.device] }
  applyLoop pol.apps s3

/-- The module_config row a save writes. -/
def cfgRowOf (config : ModuleConfig) : ModuleConfigRow :=
  { preloaded_pt := config.preloaded_pt.getD false
    exchange_after_x_ignition_cycles := config.exchange_after_x_ignition_cycles.getD 0
    exchange_after_x_kilometers := config.exchange_after_x_kilometers.getD 0
    exchange_after_x_days := config.exchange_after_x_days.getD 0
    timeout_after_x_seconds := config.timeout_after_x_seconds.getD 0
    vehicle_make := config.vehicle_make
    vehicle_model := config.vehicle_model
    vehicle_year := config.vehicle_year
    preloaded_date := config.preloaded_date
    certificate := config.certificate }

/-- Net state effect of a successful SaveModuleConfig. -/
def applyMC (config : ModuleConfig) (s : DBState) : DBState :=
  { s with
    module_config := s.module_config.map (fun _ => cfgRowOf config)
    seconds_between_retries := config.seconds_between_retries
    notifications_by_priority :=
      config.notifications_per_minute_by_priority.foldl
        (fun t kv => aupdate kv.1 kv.2 t) s.notifications_by_priority
    endpoint := endpointRowsOf config.endpoints }

/-- The module_meta row a save writes. -/
def metaRowOf (meta : ModuleMeta) : ModuleMetaRow :=
  { pt_exchanged_at_odometer_x := meta.pt_exchanged_at_odometer_x.getD 0
    pt_exchanged_x_days_after_epoch := meta.pt_exchanged_x_days_after_epoch.getD 0
    ignition_cycles_since_last_exchange :=
      meta.ignition_cycles_since_last_exchange.getD 0 }

/-- Net state effect of a successful Save of a document without string app
values and with an unset messages container. -/
def finalState (table : Table) (s : DBState) : DBState :=
  let s1 := applyFG table.functional_groupings s
  let s2 := applyAPS table.app_policies_section s1
  let s3 := applyMC table.module_config s2
  let s5 : DBState :=
    { s3 with
      device_data :=
        table.device_data.foldl (fun t d => insertIfAbsent d t) s3.device_data }
  let s6 : DBState := { s5 with app_level := table.usage_and_error_counts.app_level }
  { s6 with module_meta := s6.module_meta.map (fun _ => metaRowOf table.module_meta) }

/-- Application row of an optionally present predefined app. -/
def optRows (k : String) (o : Option AppPolicyValue) : List AppRow :=
  match o with
  | some v => [appRowOf (k, v)]
  | none => []

/-- App-group rows of an optionally present predefined app. -/
def optGroupRows (fg : List GroupRow) (k : String) (o : Option AppPolicyValue) :
    List (String × Int) :=
  match o with
  | some v => resolveGroups fg k v.getParams.groups
  | none => []

/-- Request-type rows of an optionally present predefined app. -/
def optRequestRows (k : String) (o : Option AppPolicyValue) :
    List (String × String) :=
  match o with
  | some v =>
      v.getParams.requestType.map (fun ty => (k, RequestType.toJsonString ty))
  | none => []

/-! ## Stage E: the endpoint refold -/

/-- One endpoint row folded into one service's application map. -/
def epInner (r : EndpointRow) (inner : AList (List String)) : AList (List String) :=
  amodify r.app_id [] (fun urls => urls ++ [r.url]) inner

/-- One endpoint row folded into the endpoints map. -/
def epStep (acc : AList (AList (List String))) (r : EndpointRow) :
    AList (AList (List String)) :=
  amodify r.service [] (epInner r) acc

/-- Shape invariant of a gathered endpoint map: duplicate-free service keys,
per service a non-empty, duplicate-free application map, and per application
a non-empty url list. -/
def EndpointsCanon (E : AList (AList (List String))) : Prop :=
  (E.map Prod.fst).Nodup ∧
  ∀ svc ∈ E, svc.2 ≠ [] ∧ (svc.2.map Prod.fst).Nodup ∧ ∀ app ∈ svc.2, app.2 ≠ []

/-! ## Stage F: the rpc refold -/

/-- Pure per-entry effect of one rpc row of the kSelectAllRpcs loop. -/
def entryStep (e : RpcEntry) (r : RpcRow) : RpcEntry :=
  let e1 :=
    match r.hmi_level with
    | some t =>
        match HmiLevel.fromJsonString t with
        | some h => { e with hmi_levels := InsertUnique h e.hmi_levels }
        | none => e
    | none => e
  match r.parameter with
  | some t =>
      match Parameter.fromJsonString t with
      | some p => { e1 with parameters := InsertUnique p e1.parameters }
      | none => e1
  | none => e1

/-- One row as written by SaveRpcs. -/
def segRow (nm : String) (gid : Int) (h : HmiLevel) (po : Option String) : RpcRow :=
  { name := nm
    hmi_level := some (HmiLevel.toJsonString h)
    parameter := po
    group_id := gid }

/-- The rows SaveRpcs writes for one rpc entry. -/
def segRowsOf (nm : String) (gid : Int) (hs : List HmiLevel) (ps : List Parameter) :
    List RpcRow :=
  hs.flatMap (fun h =>
    if ps = [] then [segRow nm gid h none]
    else ps.map (fun p => segRow nm gid h (some (Parameter.toJsonString p))))

/-! ## Stage G: the application-policies refold -/

/-- Total fold form of the gather loop over the application rows. -/
def gatherPol (s : DBState) : ApplicationPoliciesSection :=
  s.application.foldl (gatherRowStep s) { apps := [], device := { priority := none } }

/-- The application rows a successful Save writes for a section. -/
def savedAppRows (pol : ApplicationPoliciesSection) : List AppRow :=
  optRows kDefaultId (alookup kDefaultId pol.apps) ++
  optRows kPreDataConsentId (alookup kPreDataConsentId pol.apps) ++
  [deviceRowOf pol.device] ++
  (pol.apps.filter (fun a => ! IsPredefinedApp a.1)).map appRowOf

/-- Well-formed relational store: the schema-level invariants under which a
snapshot survives the save / re-generate round trip. -/
structure WFState (s : DBState) : Prop where
  rpc_hmi : ∀ r ∈ s.rpc, ∃ t h, r.hmi_level = some t ∧ HmiLevel.fromJsonString t = some h
  heart_beat : ∀ r ∈ s.application, r.heart_beat_timeout_ms.isSome = true
  app_ids : (s.application.map (fun r => r.app_id)).Nodup
  app_type_tokens : ∀ r ∈ s.app_type, (AppHMIType.fromJsonString r.2).isSome = true
  request_type_tokens : ∀ r ∈ s.request_type, (RequestType.fromJsonString r.2).isSome = true
  device_row : ∃ d ∈ s.application, d.app_id = kDeviceId
  device_live : IsApplicationRevoked s kDeviceId = false
  device_not_default : IsDefaultPolicy s kDeviceId = false
  group_ids : ∀ g1 ∈ s.functional_group, ∀ g2 ∈ s.functional_group,
    GroupId g1.name = GroupId g2.name → g1.name = g2.name
  notif_keys : (s.notifications_by_priority.map Prod.fst).Nodup

/-- Well-formed witness store: the seeded empty table plus the mandatory
device application row. -/
def stateC1 : DBState :=
  { seedDBState with
    application := [{ app_id := kDeviceId
                      priority := some "NORMAL"
                      is_revoked := some false
                      memory_kb := some 0
                      heart_beat_timeout_ms := some 0
                      certificate := none
                      is_default := some false
                      is_predata := some false }] }

@[simp] theorem alookup_aupdate_self {α : Type} (k : String) (v : α) (l : AList α) :
    alookup k (aupdate k v l) = some v := by
  induction l with
  | nil => simp [aupdate, alookup]
  | cons hd tl ih =>
      obtain ⟨k1, v1⟩ := hd
      by_cases h : k1 = k
      · simp [aupdate, alookup, h]
      · simp [aupdate, alookup, h, ih]

@[simp] theorem alookup_aupdate_ne {α : Type} (k k2 : String) (v : α) (l : AList α)
    (h : k2 ≠ k) : alookup k (aupdate k2 v l) = alookup k l := by
  induction l with
  | nil => simp [aupdate, alookup, h]
  | cons hd tl ih =>
      obtain ⟨k1, v1⟩ := hd
      by_cases h1 : k1 = k2
      · have h2 : ¬ k1 = k := by rw [h1]; exact h
        simp [aupdate, alookup, h1, h2, h]
      · by_cases h2 : k1 = k
        · have h3 : ¬ k = k2 := by rw [← h2]; exact h1
          simp [aupdate, alookup, h1, h2, h3]
        · simp [aupdate, alookup, h1, h2, ih]

@[simp] theorem allOk_ok (st : Stmt) : allOk.ok st = true := rfl

@[simp] theorem alookup_nil {α : Type} (k : String) : alookup (α := α) k [] = none := rfl

theorem alookup_cons {α : Type} (k k1 : String) (v : α) (rest : AList α) :
    alookup k ((k1, v) :: rest) = if k1 = k then some v else alookup k rest := rfl

theorem HmiLevel.hmi_from_to (h : HmiLevel) :
    HmiLevel.fromJsonString (HmiLevel.toJsonString h) = some h := by
  cases h <;> rfl

theorem HmiLevel.hmi_to_from {s : String} {h : HmiLevel}
    (hs : HmiLevel.fromJsonString s = some h) : HmiLevel.toJsonString h = s := by
  cases h <;>
    (unfold HmiLevel.fromJsonString at hs;
     split_ifs at hs <;> simp_all [HmiLevel.toJsonString])

theorem Priority.prio_from_to (p : Priority) :
    Priority.fromJsonString (Priority.toJsonString p) = some p := by
  cases p <;> rfl

theorem Priority.prio_to_from {s : String} {p : Priority}
    (hs : Priority.fromJsonString s = some p) : Priority.toJsonString p = s := by
  cases p <;>
    (unfold Priority.fromJsonString at hs;
     split_ifs at hs <;> simp_all [Priority.toJsonString])

theorem Parameter.param_from_to (p : Parameter) :
    Parameter.fromJsonString (Parameter.toJsonString p) = some p := by
  cases p <;> rfl

theorem Parameter.param_to_from {s : String} {p : Parameter}
    (hs : Parameter.fromJsonString s = some p) : Parameter.toJsonString p = s := by
  cases p <;>
    (unfold Parameter.fromJsonString at hs;
     split_ifs at hs <;> simp_all [Parameter.toJsonString])

theorem AppHMIType.appty_from_to (t : AppHMIType) :
    AppHMIType.fromJsonString (AppHMIType.toJsonString t) = some t := by
  cases t <;> rfl

theorem AppHMIType.appty_to_from {s : String} {t : AppHMIType}
    (hs : AppHMIType.fromJsonString s = some t) : AppHMIType.toJsonString t = s := by
  cases t <;>
    (unfold AppHMIType.fromJsonString at hs;
     split_ifs at hs <;> simp_all [AppHMIType.toJsonString])

theorem RequestType.reqty_from_to (t : RequestType) :
    RequestType.fromJsonString (RequestType.toJsonString t) = some t := by
  cases t <;> rfl

theorem RequestType.reqty_to_from {s : String} {t : RequestType}
    (hs : RequestType.fromJsonString s = some t) : RequestType.toJsonString t = s := by
  cases t <;>
    (unfold RequestType.fromJsonString at hs;
     split_ifs at hs <;> simp_all [RequestType.toJsonString])

/-- C2: Save executes exactly the fixed sub-save chain inside one
transaction: when some sub-save fails the rolled-back observable state is
the pre-call state and Save returns false; when all succeed the committed
state is the chain result and Save returns true. -/
theorem C2_save_transactional (env : Env) (table : Table) (s : DBState) :
    Save env table s =
      (match saveSubChain env table s with
       | some s7 => (true, s7)
       | none => (false, s)) ∧
    ((Save env table s).1 = false → (Save env table s).2 = s) ∧
    (∀ s7, (Save env table s) = (true, s7) → saveSubChain env table s = some s7) := by
  suffices key : Save env table s =
      (match saveSubChain env table s with
       | some s7 => (true, s7)
       | none => (false, s)) by
    refine ⟨key, ?_, ?_⟩
    · intro hf
      rw [key] at hf ⊢
      cases hch : saveSubChain env table s with
      | none => simp [hch]
      | some s7 => rw [hch] at hf; simp at hf
    · intro s7 h7
      rw [key] at h7
      cases hch : saveSubChain env table s with
      | none => rw [hch] at h7; simp at h7
      | some s7b =>
          rw [hch] at h7
          simp only [Prod.mk.injEq] at h7
          rw [h7.2]
  unfold Save saveSubChain
  cases h1 : SaveFunctionalGroupings env table.functional_groupings s with
  | none => simp [h1]
  | some s1 =>
    cases h2 : SaveApplicationPoliciesSection env table.app_policies_section s1 with
    | none => simp [h1, h2]
    | some s2 =>
      cases h3 : SaveModuleConfig env table.module_config s2 with
      | none => simp [h1, h2, h3]
      | some s3 =>
        cases h4 : SaveConsumerFriendlyMessages env
            table.consumer_friendly_messages s3 with
        | none => simp [h1, h2, h3, h4]
        | some s4 =>
          cases h5 : SaveDeviceData env table.device_data s4 with
          | none => simp [h1, h2, h3, h4, h5]
          | some s5 =>
            cases h6 : SaveUsageAndErrorCounts env table.usage_and_error_counts s5 with
            | none => simp [h1, h2, h3, h4, h5, h6]
            | some s6 =>
              cases h7 : SaveModuleMeta env table.module_meta s6 with
              | none => simp [h1, h2, h3, h4, h5, h6, h7]
              | some s7 => simp [h1, h2, h3, h4, h5, h6, h7]

/-- C3 counterexample: with a single matching row carrying a non-null
parameter, the source collects that first row's parameter, while the claim
(parameters only from the rows after the first) predicts an empty list. -/
theorem C3_counterexample :
    CheckPermissions stateC3 "app1" "FULL" "Show" ≠
      CheckPermissionsClaimC3 stateC3 "app1" "FULL" "Show" ∧
    (CheckPermissions stateC3 "app1" "FULL" "Show").list_of_allowed_params =
      ["gps"] ∧
    (CheckPermissionsClaimC3 stateC3 "app1" "FULL" "Show").list_of_allowed_params =
      [] ∧
    (CheckPermissions stateC3 "app1" "FULL" "Show").hmi_level_permitted =
      .kRpcAllowed := by
  decide

/-- C3 amended: the verdict is kRpcAllowed exactly when kSelectRpc yields at
least one row, and list_of_allowed_params receives the non-null parameter
values of every row, the first row included, in row order without
deduplication. -/
theorem C3_amended (s : DBState) (app_id hmi_level rpc : String) :
    ((CheckPermissions s app_id hmi_level rpc).hmi_level_permitted =
        .kRpcAllowed ↔ selectRpcRows s app_id hmi_level rpc ≠ []) ∧
    (CheckPermissions s app_id hmi_level rpc).list_of_allowed_params =
      (selectRpcRows s app_id hmi_level rpc).filterMap id := by
  constructor
  · cases h : selectRpcRows s app_id hmi_level rpc <;>
      simp [CheckPermissions, h]
  · rfl

/-! ## Claim C4: the cadence clamps -/

/-- C4: with the stored limit and last values present,
KilometersBeforeExchange returns limit - (current - last) clamped to zero on
any negative or out-of-order input, and DaysBeforeExchange behaves
identically except that last == 0 short-circuits to the limit. -/
theorem C4_cadence_clamp (s : DBState) (cfg : ModuleConfigRow)
    (meta : ModuleMetaRow) (current : Int)
    (hc : s.module_config = some cfg) (hm : s.module_meta = some meta) :
    (KilometersBeforeExchange s current =
      (if cfg.exchange_after_x_kilometers < 0 ∨
          meta.pt_exchanged_at_odometer_x < 0 ∨ current < 0 ∨
          current < meta.pt_exchanged_at_odometer_x ∨
          cfg.exchange_after_x_kilometers <
            current - meta.pt_exchanged_at_odometer_x
       then 0
       else cfg.exchange_after_x_kilometers -
              (current - meta.pt_exchanged_at_odometer_x))) ∧
    (DaysBeforeExchange s current =
      (if meta.pt_exchanged_x_days_after_epoch = 0 then cfg.exchange_after_x_days
       else if cfg.exchange_after_x_days < 0 ∨
          meta.pt_exchanged_x_days_after_epoch < 0 ∨ current < 0 ∨
          current < meta.pt_exchanged_x_days_after_epoch ∨
          cfg.exchange_after_x_days <
            current - meta.pt_exchanged_x_days_after_epoch
       then 0
       else cfg.exchange_after_x_days -
              (current - meta.pt_exchanged_x_days_after_epoch))) := by
  constructor <;> simp [KilometersBeforeExchange, DaysBeforeExchange, hc, hm]

/-- C4 witness at the concrete store: 100 - (50 - 20) = 70 kilometers, and
the day counter short-circuits to its limit because last == 0. -/
theorem C4_cadence_clamp_witness :
    KilometersBeforeExchange stateC4 50 = 70 ∧ DaysBeforeExchange stateC4 50 = 30 := by
  have h := C4_cadence_clamp stateC4
    ({ preloaded_pt := false
       exchange_after_x_ignition_cycles := 0
       exchange_after_x_kilometers := 100
       exchange_after_x_days := 30
       timeout_after_x_seconds := 60
       vehicle_make := none, vehicle_model := none
       vehicle_year := none, preloaded_date := none
       certificate := none })
    ({ pt_exchanged_at_odometer_x := 20
       pt_exchanged_x_days_after_epoch := 0
       ignition_cycles_since_last_exchange := 0 })
    50 rfl rfl
  constructor
  · rw [h.1]; decide
  · rw [h.2]; decide

/-- C6 counterexample: a non-ok integrity row after the first is never read;
Init returns EXISTS rather than the FAIL the claim requires for any non-ok
row. -/
theorem C6_counterexample :
    "corrupt" ∈ initEnvC6.integrity_rows ∧ "corrupt" ≠ "ok" ∧
    Init initEnvC6 = (.EXISTS, false) ∧ (InitResult.EXISTS ≠ .FAIL) := by
  decide

/-- C6 amended: on an opened, writable, non-empty database only the first
kCheckDBIntegrity row is examined: a non-ok first row returns FAIL, an ok
first row runs kIsFirstRun (true executes kSetNotFirstRun and returns
SUCCESS, false or a failing select returns EXISTS), and an empty integrity
result falls through to schema creation. -/
theorem C6_amended (env : InitEnv) (pages : Int)
    (hopen : env.first_open = true) (hrw : env.is_read_write = true)
    (hpages : env.page_count = some pages) (hpos : 0 < pages)
    (hint : env.integrity_prepare_ok = true) :
    Init env =
      (match env.integrity_rows with
       | [] => initCreateBranch env
       | row :: _ =>
           if row = "ok" then
             match env.first_run_row with
             | some true => (.SUCCESS, true)
             | some false => (.EXISTS, false)
             | none => (.EXISTS, false)
           else (.FAIL, false)) := by
  simp [Init, hopen, hrw, hpages, hpos, hint]

/-- C6 witness: the amended rule applied at the concrete environment. -/
theorem C6_amended_witness : Init initEnvC6 = (.EXISTS, false) := by
  have h := C6_amended initEnvC6 1 rfl rfl rfl (by decide) rfl
  simpa using h

/-! ## Claim C7: preserve-on-absent for consumer-friendly messages -/

/-- C7: an unset messages container makes SaveConsumerFriendlyMessages
return true without touching the state: no message deletion, no version
update, no insertion. -/
theorem C7_preserve_on_absent (env : Env) (messages : ConsumerFriendlyMessages)
    (s : DBState) (h : messages.messages = none) :
    SaveConsumerFriendlyMessages env messages s = some s := by
  simp [SaveConsumerFriendlyMessages, h]

/-- C7 witness: the preserve-on-absent rule at a concrete document and
store. -/
theorem C7_preserve_on_absent_witness :
    SaveConsumerFriendlyMessages allOk
      { version := some "007", messages := none } seedDBState = some seedDBState :=
  C7_preserve_on_absent allOk { version := some "007", messages := none }
    seedDBState rfl

/-! ## Claim C8: stable functional-group ids -/

/-- SaveRpcs never touches the functional_group table. -/
theorem SaveRpcs_functional_group (env : Env) (gid : Int) (rpcs : AList RpcEntry)
    (s s' : DBState) (h : SaveRpcs env gid rpcs s = some s') :
    s'.functional_group = s.functional_group := by
  unfold SaveRpcs at h
  split_ifs at h
  injection h with h
  rw [← h]

/-- One SaveFunctionalGroupings iteration preserves the hash-id invariant of
the group table. -/
theorem saveFGStep_hash (env : Env) (s : DBState) (g : String × Rpcs)
    (s' : DBState) (h : saveFGStep env s g = some s')
    (hs : ∀ r ∈ s.functional_group, r.id = GroupId r.name) :
    ∀ r ∈ s'.functional_group, r.id = GroupId r.name := by
  unfold saveFGStep at h
  have hfg := SaveRpcs_functional_group _ _ _ _ _ h
  intro r hr
  rw [hfg] at hr
  simp only [List.mem_append, List.mem_singleton] at hr
  rcases hr with hr | hr
  · exact hs r hr
  · rw [hr]

/-- The SaveFunctionalGroupings loop preserves the hash-id invariant. -/
theorem saveFG_foldlM_hash (env : Env) :
    ∀ (groups : AList Rpcs) (s s' : DBState),
      (∀ r ∈ s.functional_group, r.id = GroupId r.name) →
      List.foldlM (saveFGStep env) s groups = some s' →
      ∀ r ∈ s'.functional_group, r.id = GroupId r.name := by
  intro groups
  induction groups with
  | nil =>
      intro s s' hs h
      simp only [List.foldlM_nil] at h
      injection h with h
      rw [← h]; exact hs
  | cons g gs ih =>
      intro s s' hs h
      simp only [List.foldlM_cons] at h
      cases h1 : saveFGStep env s g with
      | none =>
          rw [h1] at h
          exact Option.noConfusion h
      | some s1 =>
          rw [h1] at h
          exact ih s1 s' (saveFGStep_hash env s g s1 h1 hs) h

/-- C8: every group row a successful SaveFunctionalGroupings leaves behind
carries the id abs(Djb2Hash(name)); the id stored for a name is therefore
identical across any two successful saves, in particular across a RefreshDB
(which empties the group table) followed by a re-save. -/
theorem C8_stable_group_ids :
    (∀ env groups s s', SaveFunctionalGroupings env groups s = some s' →
       ∀ r ∈ s'.functional_group, r.id = GroupId r.name) ∧
    (∀ env1 env2 groups1 groups2 s1 s2 t1 t2,
       SaveFunctionalGroupings env1 groups1 s1 = some t1 →
       SaveFunctionalGroupings env2 groups2 s2 = some t2 →
       ∀ r1 ∈ t1.functional_group, ∀ r2 ∈ t2.functional_group,
         r1.name = r2.name → r1.id = r2.id) ∧
    (∀ env s, (RefreshDB env s).1 = true →
       (RefreshDB env s).2.functional_group = []) ∧
    (∀ name, GroupId name = ((GenerateHash name).natAbs : Int)) := by
  have base : ∀ env groups s s', SaveFunctionalGroupings env groups s = some s' →
      ∀ r ∈ s'.functional_group, r.id = GroupId r.name := by
    intro env groups s s' h
    unfold SaveFunctionalGroupings at h
    by_cases ho1 : env.ok .kDeleteRpc
    · by_cases ho2 : env.ok .kDeleteFunctionalGroup
      · by_cases ho3 : env.ok .kInsertFunctionalGroup
        · simp only [execStmt, ho1, ho2, ho3, if_true, Option.bind_eq_bind',
            Option.some_bind'] at h
          rw [if_neg (by simp)] at h
          exact saveFG_foldlM_hash env groups _ s'
            (fun r hr => absurd hr (List.not_mem_nil r)) h
        · simp [execStmt, ho1, ho2, ho3] at h
      · simp [execStmt, ho1, ho2] at h
    · simp [execStmt, ho1] at h
  refine ⟨base, ?_, ?_, fun _ => rfl⟩
  · intro env1 env2 groups1 groups2 s1 s2 t1 t2 h1 h2 r1 hr1 r2 hr2 hname
    rw [base env1 groups1 s1 t1 h1 r1 hr1, base env2 groups2 s2 t2 h2 r2 hr2, hname]
  · intro env s h
    unfold RefreshDB at h ⊢
    split_ifs at h ⊢
    rfl

/-- C8 witness: a concrete save of one group named G stores it under
abs(Djb2Hash("G")). -/
theorem C8_stable_group_ids_witness :
    ({ id := GroupId "G", name := "G", user_consent_prompt := none } : GroupRow).id =
      GroupId "G" := by
  refine C8_stable_group_ids.1 allOk
    [("G", { user_consent_prompt := none, rpcs := none })] seedDBState
    { seedDBState with
      functional_group := [{ id := GroupId "G", name := "G",
                             user_consent_prompt := none }]
      rpc := [] }
    (by rfl)
    { id := GroupId "G", name := "G", user_consent_prompt := none }
    (by simp)

/-- One gather step treats an unknown token exactly like a NULL column. -/
theorem selectAllRpcsStep_sanitize (gid : Int) (acc : AList RpcEntry) (r : RpcRow) :
    selectAllRpcsStep gid acc (sanitizeRpcRow r) = selectAllRpcsStep gid acc r := by
  unfold selectAllRpcsStep sanitizeRpcRow
  rcases r with ⟨name, hmi, param, rgid⟩
  by_cases hg : rgid = gid
  · rcases hmi with _ | t1
    · rcases param with _ | t2
      · rfl
      · cases h2 : Parameter.fromJsonString t2 <;> simp [hg, h2]
    · rcases param with _ | t2
      · cases h1 : HmiLevel.fromJsonString t1 <;> simp [hg, h1]
      · cases h1 : HmiLevel.fromJsonString t1 <;>
          cases h2 : Parameter.fromJsonString t2 <;> simp [hg, h1, h2]
  · simp [hg]

/-- Congruence of the functional-groupings fold in the rpc table. -/
theorem gatherFG_congr (fg : List GroupRow) (rpc1 rpc2 : List RpcRow)
    (h : ∀ gid, gatherGroupRpcs rpc1 gid = gatherGroupRpcs rpc2 gid) :
    ∀ acc : AList Rpcs,
      List.foldl
        (fun acc g =>
          aupdate g.name
            { user_consent_prompt := g.user_consent_prompt
              rpcs := gatherGroupRpcs rpc1 g.id } acc) acc fg =
      List.foldl
        (fun acc g =>
          aupdate g.name
            { user_consent_prompt := g.user_consent_prompt
              rpcs := gatherGroupRpcs rpc2 g.id } acc) acc fg := by
  intro acc
  simp only [h]

/-- An optionMapM fails exactly when some element fails. -/
theorem optionMapM_eq_none_iff {α β : Type} (f : α → Option β) :
    ∀ l : List α, optionMapM f l = none ↔ ∃ x ∈ l, f x = none := by
  intro l
  induction l with
  | nil => simp [optionMapM]
  | cons a l ih =>
      cases ha : f a with
      | none =>
          constructor
          · intro _
            exact ⟨a, List.mem_cons_self a l, ha⟩
          · intro _
            simp [optionMapM, ha]
      | some b =>
          cases hl : optionMapM f l with
          | none =>
              constructor
              · intro _
                obtain ⟨x, hx, hfx⟩ := ih.mp hl
                exact ⟨x, List.mem_cons_of_mem a hx, hfx⟩
              · intro _
                simp [optionMapM, ha, hl]
          | some bs =>
              constructor
              · intro h
                rw [show optionMapM f (a :: l) = some (b :: bs) by
                  simp [optionMapM, ha, hl]] at h
                exact Option.noConfusion h
              · rintro ⟨x, hx, hfx⟩
                rcases List.mem_cons.mp hx with rfl | hx
                · rw [ha] at hfx; exact Option.noConfusion hfx
                · rw [ih.mpr ⟨x, hx, hfx⟩] at hl; exact Option.noConfusion hl

/-- C5 counterexample: the unknown AppHMIType token does not merely drop its
row: GatherAppType fails, and with it the load of the whole
application-policies sub-document returns failure. -/
theorem C5_counterexample :
    AppHMIType.fromJsonString "NOT_A_TYPE" = none ∧
    GatherAppType stateC5 "app1" = none ∧
    (GatherApplicationPoliciesSection stateC5).1 = false := by
  decide

/-- C5 amended: inside GatherFunctionalGroupings an unknown hmi-level or
parameter token behaves exactly like a NULL column - only that value is
dropped and the load continues - but in GatherAppType and GatherRequestType
an unknown token makes the gather of the enclosing sub-document fail: it
returns failure precisely when some row of the application carries an
unconvertible token. -/
theorem C5_amended :
    (∀ s : DBState,
       GatherFunctionalGroupings (sanitizeRpcTokens s) = GatherFunctionalGroupings s) ∧
    (∀ (s : DBState) (a : String),
       GatherAppType s a = none ↔
         ∃ r ∈ s.app_type, r.1 = a ∧ AppHMIType.fromJsonString r.2 = none) ∧
    (∀ (s : DBState) (a : String),
       GatherRequestType s a = none ↔
         ∃ r ∈ s.request_type, r.1 = a ∧ RequestType.fromJsonString r.2 = none) := by
  refine ⟨?_, ?_, ?_⟩
  · intro s
    have hrpc : ∀ (l : List RpcRow) (gid : Int) (acc : AList RpcEntry),
        List.foldl (selectAllRpcsStep gid) acc (l.map sanitizeRpcRow) =
          List.foldl (selectAllRpcsStep gid) acc l := by
      intro l gid
      induction l with
      | nil => intro acc; rfl
      | cons r rest ih =>
          intro acc
          simp only [List.map_cons, List.foldl_cons, selectAllRpcsStep_sanitize]
          exact ih _
    have hgrp : ∀ gid,
        gatherGroupRpcs (s.rpc.map sanitizeRpcRow) gid = gatherGroupRpcs s.rpc gid := by
      intro gid
      unfold gatherGroupRpcs
      rw [hrpc]
    exact gatherFG_congr s.functional_group (s.rpc.map sanitizeRpcRow) s.rpc hgrp []
  · intro s a
    rw [show GatherAppType s a =
        optionMapM (fun r => AppHMIType.fromJsonString r.2)
          (s.app_type.filter (fun r => r.1 = a)) from rfl]
    rw [optionMapM_eq_none_iff]
    constructor
    · rintro ⟨x, hx, hfx⟩
      exact ⟨x, (List.mem_filter.mp hx).1,
        by simpa using (List.mem_filter.mp hx).2, hfx⟩
    · rintro ⟨x, hx, hxa, hfx⟩
      exact ⟨x, List.mem_filter.mpr ⟨hx, by simpa using hxa⟩, hfx⟩
  · intro s a
    rw [show GatherRequestType s a =
        optionMapM (fun r => RequestType.fromJsonString r.2)
          (s.request_type.filter (fun r => r.1 = a)) from rfl]
    rw [optionMapM_eq_none_iff]
    constructor
    · rintro ⟨x, hx, hfx⟩
      exact ⟨x, (List.mem_filter.mp hx).1,
        by simpa using (List.mem_filter.mp hx).2, hfx⟩
    · rintro ⟨x, hx, hxa, hfx⟩
      exact ⟨x, List.mem_filter.mpr ⟨hx, by simpa using hxa⟩, hfx⟩

/-! ## Claim C9: the application-policies gather

The loop of GatherApplicationPoliciesSection is related to a total
one-pass fold (gatherRowStep) under the hypotheses that every stored
app-type and request-type token converts, and that the device row does not
carry the is_default flag. -/

/-- Updating the same key twice keeps only the second value. -/
theorem aupdate_aupdate {α : Type} (k : String) (v1 v2 : α) (l : AList α) :
    aupdate k v2 (aupdate k v1 l) = aupdate k v2 l := by
  induction l with
  | nil => simp [aupdate]
  | cons hd tl ih =>
      obtain ⟨k1, w⟩ := hd
      by_cases h : k1 = k
      · simp [aupdate, h]
      · simp [aupdate, h, ih]

/-- An optionMapM over a list of convertible elements succeeds. -/
theorem optionMapM_isSome {α β : Type} (f : α → Option β) :
    ∀ l : List α, (∀ x ∈ l, (f x).isSome = true) → (optionMapM f l).isSome = true := by
  intro l
  induction l with
  | nil => intro _; rfl
  | cons a l ih =>
      intro h
      have ha := h a (List.mem_cons_self a l)
      cases hfa : f a with
      | none => rw [hfa] at ha; exact Bool.noConfusion ha
      | some b =>
          have hl := ih (fun x hx => h x (List.mem_cons_of_mem a hx))
          cases hml : optionMapM f l with
          | none => rw [hml] at hl; exact Bool.noConfusion hl
          | some bs => simp [optionMapM, hfa, hml]

/-- GatherAppType succeeds when every stored app-type token converts. -/
theorem gatherAppType_isSome (s : DBState)
    (hT : ∀ r ∈ s.app_type, (AppHMIType.fromJsonString r.2).isSome = true)
    (a : String) : (GatherAppType s a).isSome = true :=
  optionMapM_isSome _ _ (fun x hx => hT x (List.mem_filter.mp hx).1)

/-- GatherRequestType succeeds when every stored request-type token
converts. -/
theorem gatherRequestType_isSome (s : DBState)
    (hR : ∀ r ∈ s.request_type, (RequestType.fromJsonString r.2).isSome = true)
    (a : String) : (GatherRequestType s a).isSome = true :=
  optionMapM_isSome _ _ (fun x hx => hR x (List.mem_filter.mp hx).1)

/-- The gather loop succeeds and equals the total fold when every stored
app-type and request-type token converts and the device application is not
flagged is_default. -/
theorem gatherAppsLoop_eq_fold (s : DBState)
    (hT : ∀ r ∈ s.app_type, (AppHMIType.fromJsonString r.2).isSome = true)
    (hR : ∀ r ∈ s.request_type, (RequestType.fromJsonString r.2).isSome = true)
    (hdev : IsDefaultPolicy s kDeviceId = false) :
    ∀ (rows : List AppRow) (acc : ApplicationPoliciesSection),
      gatherAppsLoop s rows acc = (true, rows.foldl (gatherRowStep s) acc) := by
  intro rows
  induction rows with
  | nil => intro acc; rfl
  | cons r rest ih =>
      intro acc
      by_cases hrev : IsApplicationRevoked s r.app_id
      · simp only [gatherAppsLoop, hrev, if_true, List.foldl_cons, gatherRowStep]
        exact ih _
      · by_cases hdvc : r.app_id = kDeviceId
        · have hrevb : IsApplicationRevoked s r.app_id = false := by
            simpa using hrev
          have hrevD : IsApplicationRevoked s kDeviceId = false := hdvc ▸ hrevb
          have hdefD : IsDefaultPolicy s kDeviceId = false := hdev
          simp only [gatherAppsLoop, hdvc, hrevD, hdefD, IsPredataPolicy,
            Bool.false_eq_true, if_false, if_true, List.foldl_cons, gatherRowStep]
          exact ih _
        · obtain ⟨types, hty⟩ :=
            Option.isSome_iff_exists.mp (gatherAppType_isSome s hT r.app_id)
          obtain ⟨reqs, hrq⟩ :=
            Option.isSome_iff_exists.mp (gatherRequestType_isSome s hR r.app_id)
          have hty2 : (GatherAppType s r.app_id).getD [] = types := by
            rw [hty]; rfl
          have hrq2 : (GatherRequestType s r.app_id).getD [] = reqs := by
            rw [hrq]; rfl
          by_cases hdef : IsDefaultPolicy s r.app_id
          · simp only [gatherAppsLoop, hrev, if_false, hdef, if_true,
              IsPredataPolicy, Bool.false_eq_true, hdvc, hty, hrq,
              List.foldl_cons, gatherRowStep]
            rw [show
              ({ apps := aupdate r.app_id
                    (.params { priority := priorityFromToken r.priority
                               memory_kb := getIntegerOpt r.memory_kb
                               heart_beat_timeout_ms := getIntegerOpt r.heart_beat_timeout_ms
                               certificate :=
                                 if r.heart_beat_timeout_ms.isSome then
                                   some (getStringOpt r.certificate)
                                 else none
                               groups := GatherAppGroup s r.app_id
                               nicknames := GatherNickName s r.app_id
                               appHMIType := types
                               requestType := reqs })
                    (aupdate r.app_id (.str kDefaultId) acc.apps)
                 device := acc.device } : ApplicationPoliciesSection) =
              { apps := aupdate r.app_id (.params (gatherRowParams s r)) acc.apps
                device := acc.device } by
              rw [aupdate_aupdate]
              unfold gatherRowParams
              rw [hty2, hrq2]]
            exact ih _
          · simp only [gatherAppsLoop, hrev, if_false, hdef, IsPredataPolicy,
              Bool.false_eq_true, hdvc, hty, hrq, List.foldl_cons, gatherRowStep]
            rw [show
              ({ apps := aupdate r.app_id
                    (.params { priority := priorityFromToken r.priority
                               memory_kb := getIntegerOpt r.memory_kb
                               heart_beat_timeout_ms := getIntegerOpt r.heart_beat_timeout_ms
                               certificate :=
                                 if r.heart_beat_timeout_ms.isSome then
                                   some (getStringOpt r.certificate)
                                 else none
                               groups := GatherAppGroup s r.app_id
                               nicknames := GatherNickName s r.app_id
                               appHMIType := types
                               requestType := reqs })
                    acc.apps
                 device := acc.device } : ApplicationPoliciesSection) =
              { apps := aupdate r.app_id (.params (gatherRowParams s r)) acc.apps
                device := acc.device } by
              unfold gatherRowParams
              rw [hty2, hrq2]]
            exact ih _

/-- Rows whose id differs from the key leave its map entry unchanged. -/
theorem foldGather_apps_untouched (s : DBState) :
    ∀ (rows : List AppRow) (acc : ApplicationPoliciesSection) (k : String),
      (∀ r ∈ rows, r.app_id ≠ k) →
      alookup k (rows.foldl (gatherRowStep s) acc).apps = alookup k acc.apps := by
  intro rows
  induction rows with
  | nil => intro acc k _; rfl
  | cons r rest ih =>
      intro acc k h
      have hr : r.app_id ≠ k := h r (List.mem_cons_self r rest)
      have hrest : ∀ x ∈ rest, x.app_id ≠ k :=
        fun x hx => h x (List.mem_cons_of_mem r hx)
      rw [List.foldl_cons, ih _ k hrest]
      unfold gatherRowStep
      split_ifs <;> simp [alookup_aupdate_ne _ _ _ _ hr]

/-- Rows that are not a live device row leave the device policy unchanged. -/
theorem foldGather_device_untouched (s : DBState) :
    ∀ (rows : List AppRow) (acc : ApplicationPoliciesSection),
      (∀ r ∈ rows, r.app_id = kDeviceId → IsApplicationRevoked s r.app_id = true) →
      (rows.foldl (gatherRowStep s) acc).device = acc.device := by
  intro rows
  induction rows with
  | nil => intro acc _; rfl
  | cons r rest ih =>
      intro acc h
      rw [List.foldl_cons, ih _ (fun x hx => h x (List.mem_cons_of_mem r hx))]
      unfold gatherRowStep
      split_ifs with h1 h2
      · rfl
      · exact absurd (h r (List.mem_cons_self r rest) h2) (by simpa using h1)
      · rfl

/-- Lookup of a row's id in the gather fold, for distinct row ids. -/
theorem foldGather_lookup_mem (s : DBState) :
    ∀ (rows : List AppRow) (acc : ApplicationPoliciesSection) (r : AppRow),
      r ∈ rows → (rows.map (fun x => x.app_id)).Nodup →
      (IsApplicationRevoked s r.app_id = true →
        alookup r.app_id (rows.foldl (gatherRowStep s) acc).apps = some .null) ∧
      (IsApplicationRevoked s r.app_id = false → r.app_id ≠ kDeviceId →
        alookup r.app_id (rows.foldl (gatherRowStep s) acc).apps =
          some (.params (gatherRowParams s r))) := by
  intro rows
  induction rows with
  | nil => intro acc r hr; exact absurd hr (List.not_mem_nil r)
  | cons x rest ih =>
      intro acc r hr hnd
      rw [List.map_cons, List.nodup_cons] at hnd
      obtain ⟨hx_not, hnd_rest⟩ := hnd
      rcases List.mem_cons.mp hr with rfl | hr2
      · have huntouched : ∀ y ∈ rest, y.app_id ≠ r.app_id := by
          intro y hy hEq
          exact hx_not (hEq ▸ List.mem_map_of_mem (fun z => z.app_id) hy)
        constructor
        · intro hrev
          rw [List.foldl_cons, foldGather_apps_untouched s rest _ _ huntouched]
          unfold gatherRowStep
          rw [if_pos hrev]
          exact alookup_aupdate_self _ _ _
        · intro hrev hdvc
          rw [List.foldl_cons, foldGather_apps_untouched s rest _ _ huntouched]
          unfold gatherRowStep
          rw [if_neg (by simp [hrev]), if_neg hdvc]
          exact alookup_aupdate_self _ _ _
      · rw [List.foldl_cons]
        exact ih _ r hr2 hnd_rest

/-- The device priority assembled by the gather fold, for distinct row
ids. -/
theorem foldGather_device_value (s : DBState) :
    ∀ (rows : List AppRow) (acc : ApplicationPoliciesSection) (d : AppRow),
      d ∈ rows → (rows.map (fun x => x.app_id)).Nodup →
      d.app_id = kDeviceId → IsApplicationRevoked s d.app_id = false →
      (rows.foldl (gatherRowStep s) acc).device =
        { priority := some (priorityFromToken d.priority) } := by
  intro rows
  induction rows with
  | nil => intro acc d hd; exact absurd hd (List.not_mem_nil d)
  | cons x rest ih =>
      intro acc d hd hnd hdev hrev
      rw [List.map_cons, List.nodup_cons] at hnd
      obtain ⟨hx_not, hnd_rest⟩ := hnd
      rcases List.mem_cons.mp hd with rfl | hd2
      · have hq : ∀ r ∈ rest, r.app_id = kDeviceId →
            IsApplicationRevoked s r.app_id = true := by
          intro r hrmem hrdev
          exact absurd (show d.app_id ∈ rest.map (fun z => z.app_id) by
            rw [hdev, ← hrdev]
            exact List.mem_map_of_mem (fun z => z.app_id) hrmem) hx_not
        rw [List.foldl_cons, foldGather_device_untouched s rest _ hq]
        unfold gatherRowStep
        rw [if_neg (by simp [hrev]), if_pos hdev]
      · rw [List.foldl_cons]
        exact ih _ d hd2 hnd_rest hdev hrev

/-- C9 counterexample: the default-policy app app1 does not end up mapped to
the string "default" - the structured parameters assigned at the end of the
iteration overwrite it. -/
theorem C9_counterexample :
    IsDefaultPolicy stateC9 "app1" = true ∧
    alookup "app1" (GatherApplicationPoliciesSection stateC9).2.apps =
      some (.params { priority := .NORMAL, memory_kb := 5
                      heart_beat_timeout_ms := 7, certificate := some ""
                      groups := [], nicknames := [], appHMIType := []
                      requestType := [] }) ∧
    alookup "app1" (GatherApplicationPoliciesSection stateC9).2.apps ≠
      some (.str kDefaultId) := by
  decide

/-- C9 amended: a revoked app maps to null; a non-revoked device row only
sets device.priority and leaves no map entry of its own; every other app -
the default-policy and pre-data flags included, since the transient string
assignment is overwritten and IsPredataPolicy is constantly false - maps to
the structured ApplicationParams filled from its row and the helper
selects. -/
theorem C9_amended (s : DBState)
    (hT : ∀ r ∈ s.app_type, (AppHMIType.fromJsonString r.2).isSome = true)
    (hR : ∀ r ∈ s.request_type, (RequestType.fromJsonString r.2).isSome = true)
    (hdev : IsDefaultPolicy s kDeviceId = false)
    (hnodup : (s.application.map (fun r => r.app_id)).Nodup) :
    (GatherApplicationPoliciesSection s).1 = true ∧
    ∀ r ∈ s.application,
      (IsApplicationRevoked s r.app_id = true →
        alookup r.app_id (GatherApplicationPoliciesSection s).2.apps =
          some .null) ∧
      (IsApplicationRevoked s r.app_id = false → r.app_id = kDeviceId →
        (GatherApplicationPoliciesSection s).2.device =
          { priority := some (priorityFromToken r.priority) }) ∧
      (IsApplicationRevoked s r.app_id = false → r.app_id ≠ kDeviceId →
        alookup r.app_id (GatherApplicationPoliciesSection s).2.apps =
          some (.params (gatherRowParams s r))) := by
  have key := gatherAppsLoop_eq_fold s hT hR hdev s.application
    { apps := [], device := { priority := none } }
  unfold GatherApplicationPoliciesSection
  rw [key]
  refine ⟨rfl, ?_⟩
  intro r hrmem
  refine ⟨?_, ?_, ?_⟩
  · intro hrev
    exact (foldGather_lookup_mem s s.application _ r hrmem hnodup).1 hrev
  · intro hrev hdvc
    exact foldGather_device_value s s.application _ r hrmem hnodup hdvc hrev
  · intro hrev hdvc
    exact (foldGather_lookup_mem s s.application _ r hrmem hnodup).2 hrev hdvc

/-- C9 witness: the amended characterization applied to the concrete
default-flagged application. -/
theorem C9_amended_witness :
    alookup "app1" (GatherApplicationPoliciesSection stateC9).2.apps =
      some (.params (gatherRowParams stateC9 appRowC9)) :=
  ((C9_amended stateC9 (by intro r hr; exact absurd hr (List.not_mem_nil r))
      (by intro r hr; exact absurd hr (List.not_mem_nil r))
      (by decide) (by decide)).2 appRowC9
    (List.mem_singleton.mpr rfl)).2.2 (by decide) (by decide)

/-! ## Claim C10: GetUserFriendlyMsg -/

/-- C10: GetUserFriendlyMsg never consults the store, returns one message
per requested code in input order with only message_code set, and the
language argument has no effect. -/
theorem C10_user_friendly_msg (s1 s2 : DBState) (codes : List String)
    (l1 l2 : String) :
    GetUserFriendlyMsg s1 codes l1 = GetUserFriendlyMsg s2 codes l2 ∧
    GetUserFriendlyMsg s1 codes l1 =
      codes.map (fun c =>
        { message_code := c, tts := "", label := "", line1 := "", line2 := ""
          text_body := "" }) :=
  ⟨rfl, rfl⟩

/-- Lookup distributes over append. -/
theorem alookup_append {α : Type} (k : String) (l1 l2 : AList α) :
    alookup k (l1 ++ l2) =
      (match alookup k l1 with
       | some v => some v
       | none => alookup k l2) := by
  induction l1 with
  | nil => simp [alookup]
  | cons hd tl ih =>
      obtain ⟨k1, v1⟩ := hd
      by_cases h : k1 = k <;> simp [alookup, h, ih]

/-- Updating an absent key appends the pair. -/
theorem aupdate_of_lookup_none {α : Type} (k : String) (v : α) (l : AList α)
    (h : alookup k l = none) : aupdate k v l = l ++ [(k, v)] := by
  induction l with
  | nil => rfl
  | cons hd tl ih =>
      obtain ⟨k1, v1⟩ := hd
      by_cases hk : k1 = k
      · rw [alookup_cons, if_pos hk] at h
        exact Option.noConfusion h
      · rw [alookup_cons, if_neg hk] at h
        simp [aupdate, hk, ih h]

/-- Re-writing the value a key already holds changes nothing. -/
theorem aupdate_of_lookup_eq {α : Type} (k : String) (v : α) (l : AList α)
    (h : alookup k l = some v) : aupdate k v l = l := by
  induction l with
  | nil => exact Option.noConfusion h
  | cons hd tl ih =>
      obtain ⟨k1, v1⟩ := hd
      by_cases hk : k1 = k
      · rw [alookup_cons, if_pos hk] at h
        injection h with h
        simp [aupdate, hk, h]
      · rw [alookup_cons, if_neg hk] at h
        simp [aupdate, hk, ih h]

/-- A member of an updated list is the new pair or an old member. -/
theorem mem_aupdate {α : Type} (k : String) (v : α) (l : AList α) :
    ∀ kv ∈ aupdate k v l, kv = (k, v) ∨ kv ∈ l := by
  induction l with
  | nil => intro kv h; simp [aupdate] at h; exact Or.inl h
  | cons hd tl ih =>
      obtain ⟨k1, v1⟩ := hd
      intro kv h
      by_cases hk : k1 = k
      · simp only [aupdate, if_pos hk] at h
        rcases List.mem_cons.mp h with rfl | h
        · exact Or.inl (by rw [hk])
        · exact Or.inr (List.mem_cons_of_mem _ h)
      · simp only [aupdate, if_neg hk] at h
        rcases List.mem_cons.mp h with rfl | h
        · exact Or.inr (List.mem_cons_self _ _)
        · rcases ih kv h with h2 | h2
          · exact Or.inl h2
          · exact Or.inr (List.mem_cons_of_mem _ h2)

/-- A key is absent exactly when no pair carries it. -/
theorem alookup_eq_none_iff {α : Type} (k : String) (l : AList α) :
    alookup k l = none ↔ k ∉ l.map Prod.fst := by
  induction l with
  | nil => simp [alookup]
  | cons hd tl ih =>
      obtain ⟨k1, v1⟩ := hd
      rw [alookup_cons, List.map_cons]
      by_cases h : k1 = k
      · subst h
        simp
      · rw [if_neg h, ih]
        constructor
        · intro hn
          rw [List.mem_cons]
          rintro (hc | hc)
          · exact h hc.symm
          · exact hn hc
        · intro hn hm
          exact hn (List.mem_cons_of_mem _ hm)

/-- Lookup of a stored pair under distinct keys. -/
theorem alookup_of_mem_nodup {α : Type} (k : String) (v : α) :
    ∀ l : AList α, (l.map Prod.fst).Nodup → (k, v) ∈ l → alookup k l = some v := by
  intro l
  induction l with
  | nil => intro _ h; exact absurd h (List.not_mem_nil _)
  | cons hd tl ih =>
      obtain ⟨k1, v1⟩ := hd
      intro hnd hm
      rw [List.map_cons, List.nodup_cons] at hnd
      rcases List.mem_cons.mp hm with heq | hm2
      · injection heq with h1 h2
        simp [alookup, h1, h2]
      · have hk : k1 ≠ k := by
          intro hk
          exact hnd.1 (hk ▸ (List.mem_map_of_mem Prod.fst hm2 : k ∈ tl.map Prod.fst))
        rw [alookup_cons, if_neg hk]
        exact ih hnd.2 hm2

/-- A found value is a stored pair. -/
theorem mem_of_alookup {α : Type} (k : String) (v : α) :
    ∀ l : AList α, alookup k l = some v → (k, v) ∈ l := by
  intro l
  induction l with
  | nil => intro h; exact Option.noConfusion h
  | cons hd tl ih =>
      obtain ⟨k1, v1⟩ := hd
      intro h
      by_cases hk : k1 = k
      · rw [alookup_cons, if_pos hk] at h
        injection h with h
        exact List.mem_cons.mpr (Or.inl (by rw [hk, h]))
      · rw [alookup_cons, if_neg hk] at h
        exact List.mem_cons_of_mem _ (ih h)

/-- Updates keep the key list duplicate-free. -/
theorem aupdate_nodup {α : Type} (k : String) (v : α) :
    ∀ l : AList α, (l.map Prod.fst).Nodup → ((aupdate k v l).map Prod.fst).Nodup := by
  intro l
  induction l with
  | nil => intro _; simp [aupdate]
  | cons hd tl ih =>
      obtain ⟨k1, v1⟩ := hd
      intro hnd
      rw [List.map_cons, List.nodup_cons] at hnd
      by_cases hk : k1 = k
      · simp only [aupdate, if_pos hk, List.map_cons, List.nodup_cons]
        exact ⟨hnd.1, hnd.2⟩
      · simp only [aupdate, if_neg hk, List.map_cons, List.nodup_cons]
        refine ⟨?_, ih hnd.2⟩
        intro hmem
        rcases (List.mem_map.mp hmem) with ⟨kv, hkv, hfst⟩
        rcases mem_aupdate k v tl kv hkv with rfl | hold
        · exact hk hfst.symm
        · have hx : kv.1 ∈ tl.map Prod.fst := List.mem_map_of_mem Prod.fst hold
          rw [hfst] at hx
          exact hnd.1 hx

/-- Folding updates of fresh, distinct keys appends them in order. -/
theorem foldl_aupdate_fresh {α : Type} :
    ∀ (l : List (String × α)) (acc : AList α),
      (l.map Prod.fst).Nodup →
      (∀ kv ∈ l, alookup kv.1 acc = none) →
      l.foldl (fun t kv => aupdate kv.1 kv.2 t) acc = acc ++ l := by
  intro l
  induction l with
  | nil => intro acc _ _; simp
  | cons kv rest ih =>
      obtain ⟨k, v⟩ := kv
      intro acc hnd hfresh
      rw [List.map_cons, List.nodup_cons] at hnd
      rw [List.foldl_cons,
        aupdate_of_lookup_none k v acc (hfresh (k, v) (List.mem_cons_self _ _)),
        ih (acc ++ [(k, v)]) hnd.2, List.append_assoc]
      · rfl
      · intro kv2 hkv2
        rw [alookup_append]
        rw [hfresh kv2 (List.mem_cons_of_mem _ hkv2)]
        have hk2 : kv2.1 ≠ k := by
          intro he
          have hx : kv2.1 ∈ rest.map Prod.fst := List.mem_map_of_mem Prod.fst hkv2
          rw [he] at hx
          exact hnd.1 hx
        simp [alookup, Ne.symm hk2]

/-- Folding updates that re-store the looked-up values changes nothing. -/
theorem foldl_aupdate_self {α : Type} :
    ∀ (entries : List (String × α)) (t : AList α),
      (∀ kv ∈ entries, alookup kv.1 t = some kv.2) →
      entries.foldl (fun t kv => aupdate kv.1 kv.2 t) t = t := by
  intro entries
  induction entries with
  | nil => intro t _; rfl
  | cons kv rest ih =>
      obtain ⟨k, v⟩ := kv
      intro t h
      rw [List.foldl_cons, aupdate_of_lookup_eq k v t (h (k, v) (List.mem_cons_self _ _))]
      exact ih t (fun kv2 hkv2 => h kv2 (List.mem_cons_of_mem _ hkv2))

/-- A map gathered from rows with distinct keys is the row list itself. -/
theorem gatherNotifications_of_nodup (l : List (String × Int))
    (h : (l.map Prod.fst).Nodup) : gatherNotifications l = l := by
  unfold gatherNotifications
  have := foldl_aupdate_fresh l [] h (fun kv _ => rfl)
  simpa using this

/-- Inserting elements already present changes nothing. -/
theorem foldl_insertIfAbsent_mem {α : Type} [DecidableEq α] :
    ∀ (l : List α) (t : List α), (∀ x ∈ l, x ∈ t) →
      l.foldl (fun t x => insertIfAbsent x t) t = t := by
  intro l
  induction l with
  | nil => intro t _; rfl
  | cons a rest ih =>
      intro t h
      rw [List.foldl_cons,
        show insertIfAbsent a t = t from if_pos (h a (List.mem_cons_self _ _))]
      exact ih t (fun x hx => h x (List.mem_cons_of_mem _ hx))

/-- Inserting images already present changes nothing. -/
theorem foldl_insertIfAbsent_mem_map {α β : Type} [DecidableEq β] (g : α → β) :
    ∀ (l : List α) (t : List β), (∀ x ∈ l, g x ∈ t) →
      l.foldl (fun t x => insertIfAbsent (g x) t) t = t := by
  intro l
  induction l with
  | nil => intro t _; rfl
  | cons a rest ih =>
      intro t h
      rw [List.foldl_cons,
        show insertIfAbsent (g a) t = t from if_pos (h a (List.mem_cons_self _ _))]
      exact ih t (fun x hx => h x (List.mem_cons_of_mem _ hx))

/-- The duplicate-dropping key fold of GatherDeviceData and
GatherUsageAndErrorCounts. -/
theorem dedup_fold_spec :
    ∀ (l acc : List String), acc.Nodup →
      (l.foldl (fun acc k => if k ∈ acc then acc else acc ++ [k]) acc).Nodup ∧
      (∀ x ∈ l.foldl (fun acc k => if k ∈ acc then acc else acc ++ [k]) acc,
        x ∈ acc ∨ x ∈ l) ∧
      (l.Nodup → (∀ x ∈ l, x ∉ acc) →
        l.foldl (fun acc k => if k ∈ acc then acc else acc ++ [k]) acc = acc ++ l) := by
  intro l
  induction l with
  | nil =>
      intro acc hacc
      exact ⟨hacc, fun x hx => Or.inl hx, fun _ _ => by simp⟩
  | cons a rest ih =>
      intro acc hacc
      rw [List.foldl_cons]
      by_cases ha : a ∈ acc
      · rw [if_pos ha]
        obtain ⟨h1, h2, h3⟩ := ih acc hacc
        refine ⟨h1, ?_, ?_⟩
        · intro x hx
          rcases h2 x hx with hx2 | hx2
          · exact Or.inl hx2
          · exact Or.inr (List.mem_cons_of_mem _ hx2)
        · intro hnd hfr
          exact absurd ha (hfr a (List.mem_cons_self _ _))
      · rw [if_neg ha]
        have hacc2 : (acc ++ [a]).Nodup := by
          rw [List.nodup_append]
          exact ⟨hacc, List.nodup_singleton a, by simpa using ha⟩
        obtain ⟨h1, h2, h3⟩ := ih (acc ++ [a]) hacc2
        refine ⟨h1, ?_, ?_⟩
        · intro x hx
          rcases h2 x hx with hx2 | hx2
          · rcases List.mem_append.mp hx2 with hx3 | hx3
            · exact Or.inl hx3
            · exact Or.inr (List.mem_cons.mpr (Or.inl (List.mem_singleton.mp hx3)))
          · exact Or.inr (List.mem_cons_of_mem _ hx2)
        · intro hnd hfr
          rw [List.nodup_cons] at hnd
          rw [h3 hnd.2 ?_, List.append_assoc]
          · rfl
          · intro x hx
            rw [List.mem_append]
            rintro (hx2 | hx2)
            · exact hfr x (List.mem_cons_of_mem _ hx) hx2
            · exact hnd.1 (List.mem_singleton.mp hx2 ▸ hx)

/-- InsertUnique of a present value is the identity. -/
theorem InsertUnique_mem {α : Type} [DecidableEq α] (a : α) (l : List α)
    (h : a ∈ l) : InsertUnique a l = l := if_pos h

/-- InsertUnique of a fresh value appends it. -/
theorem InsertUnique_not_mem {α : Type} [DecidableEq α] (a : α) (l : List α)
    (h : a ∉ l) : InsertUnique a l = l ++ [a] := if_neg h

/-- A fold of InsertUnique over fresh, distinct values appends them. -/
theorem foldl_InsertUnique_fresh {α : Type} [DecidableEq α] :
    ∀ (l acc : List α), l.Nodup → (∀ x ∈ l, x ∉ acc) →
      l.foldl (fun t x => InsertUnique x t) acc = acc ++ l := by
  intro l
  induction l with
  | nil => intro acc _ _; simp
  | cons a rest ih =>
      intro acc hnd hfr
      rw [List.nodup_cons] at hnd
      rw [List.foldl_cons, InsertUnique_not_mem a acc (hfr a (List.mem_cons_self _ _)),
        ih (acc ++ [a]) hnd.2, List.append_assoc]
      · rfl
      · intro x hx
        rw [List.mem_append]
        rintro (hx2 | hx2)
        · exact hfr x (List.mem_cons_of_mem _ hx) hx2
        · exact hnd.1 (List.mem_singleton.mp hx2 ▸ hx)

/-- A fold of InsertUnique over present values changes nothing. -/
theorem foldl_InsertUnique_mem {α : Type} [DecidableEq α] :
    ∀ (l acc : List α), (∀ x ∈ l, x ∈ acc) →
      l.foldl (fun t x => InsertUnique x t) acc = acc := by
  intro l
  induction l with
  | nil => intro acc _; rfl
  | cons a rest ih =>
      intro acc h
      rw [List.foldl_cons, InsertUnique_mem a acc (h a (List.mem_cons_self _ _))]
      exact ih acc (fun x hx => h x (List.mem_cons_of_mem _ hx))

/-- The first list element matching a duplicate-free key. -/
theorem find?_of_key_nodup {α β : Type} [DecidableEq β] (key : α → β) :
    ∀ (l : List α) (x : α), (l.map key).Nodup → x ∈ l →
      l.find? (fun y => key y = key x) = some x := by
  intro l
  induction l with
  | nil => intro x _ h; exact absurd h (List.not_mem_nil x)
  | cons a rest ih =>
      intro x hnd hx
      rw [List.map_cons, List.nodup_cons] at hnd
      rcases List.mem_cons.mp hx with rfl | hx2
      · rw [List.find?_cons_of_pos]
        simp
      · rw [List.find?_cons_of_neg, ih x hnd.2 hx2]
        simp only [decide_eq_true_eq]
        intro he
        exact hnd.1 (he ▸ List.mem_map_of_mem key hx2)

/-- No list element matches an absent key. -/
theorem find?_of_key_not_mem {α β : Type} [DecidableEq β] (key : α → β) :
    ∀ (l : List α) (b : β), (∀ y ∈ l, key y ≠ b) →
      l.find? (fun y => key y = b) = none := by
  intro l
  induction l with
  | nil => intro b _; rfl
  | cons a rest ih =>
      intro b h
      rw [List.find?_cons_of_neg, ih b (fun y hy => h y (List.mem_cons_of_mem _ hy))]
      simp only [decide_eq_true_eq]
      exact h a (List.mem_cons_self _ _)

/-- Mapping then re-converting pointwise inverts an optionMapM. -/
theorem optionMapM_map_section {α β : Type} (f : β → Option α) (g : α → β)
    (hfg : ∀ x : α, f (g x) = some x) :
    ∀ l : List α, optionMapM f (l.map g) = some l := by
  intro l
  induction l with
  | nil => rfl
  | cons a rest ih => simp [optionMapM, hfg a, ih]

/-- Every output element of a successful optionMapM comes from an input. -/
theorem optionMapM_mem {α β : Type} (f : α → Option β) :
    ∀ (l : List α) (bs : List β), optionMapM f l = some bs →
      ∀ b ∈ bs, ∃ x ∈ l, f x = some b := by
  intro l
  induction l with
  | nil =>
      intro bs h b hb
      injection h with h
      rw [← h] at hb
      exact absurd hb (List.not_mem_nil b)
  | cons a rest ih =>
      intro bs h b hb
      cases ha : f a with
      | none => rw [show optionMapM f (a :: rest) = none by simp [optionMapM, ha]] at h
                exact Option.noConfusion h
      | some c =>
          cases hr : optionMapM f rest with
          | none =>
              rw [show optionMapM f (a :: rest) = none by simp [optionMapM, ha, hr]] at h
              exact Option.noConfusion h
          | some cs =>
              rw [show optionMapM f (a :: rest) = some (c :: cs) by
                simp [optionMapM, ha, hr]] at h
              injection h with h
              rw [← h] at hb
              rcases List.mem_cons.mp hb with rfl | hb2
              · exact ⟨a, List.mem_cons_self _ _, ha⟩
              · obtain ⟨x, hx, hfx⟩ := ih cs hr b hb2
                exact ⟨x, List.mem_cons_of_mem _ hx, hfx⟩

/-- One saveFGStep under the all-success environment. -/
theorem saveFGStep_allOk (s : DBState) (g : String × Rpcs) :
    saveFGStep allOk s g =
      some { s with
        functional_group :=
          s.functional_group ++
            [{ id := GroupId g.1, name := g.1,
               user_consent_prompt := g.2.user_consent_prompt }]
        rpc := s.rpc ++ rpcRowsOf (GroupId g.1) (g.2.rpcs.getD []) } := rfl

/-- The SaveFunctionalGroupings loop under the all-success environment. -/
theorem saveFG_fold_allOk :
    ∀ (groups : AList Rpcs) (s : DBState),
      List.foldlM (saveFGStep allOk) s groups =
        some { s with
          functional_group := s.functional_group ++ fgRowsOf groups
          rpc := s.rpc ++ rpcRowsAll groups } := by
  intro groups
  induction groups with
  | nil =>
      intro s
      simp [fgRowsOf, rpcRowsAll]
  | cons g gs ih =>
      intro s
      rw [List.foldlM_cons, saveFGStep_allOk]
      show List.foldlM (saveFGStep allOk) _ gs = _
      rw [ih]
      simp [fgRowsOf, rpcRowsAll, List.append_assoc]

/-- SaveFunctionalGroupings under the all-success environment. -/
theorem saveFG_allOk (groups : AList Rpcs) (s : DBState) :
    SaveFunctionalGroupings allOk groups s = some (applyFG groups s) := by
  show List.foldlM (saveFGStep allOk) { s with rpc := [], functional_group := [] } groups
      = some (applyFG groups s)
  rw [saveFG_fold_allOk]
  rfl

/-- SaveSpecificAppPolicy of a non-string value under the all-success
environment. -/
theorem saveSpecific_allOk (app : String × AppPolicyValue) (s : DBState)
    (hnot : ∀ str, app.2 ≠ .str str) :
    SaveSpecificAppPolicy allOk app s = some (applyApp app s) := by
  obtain ⟨a, v⟩ := app
  cases v with
  | null => rfl
  | params p => rfl
  | str v => exact absurd rfl (hnot v)

/-- SaveDevicePolicy under the all-success environment. -/
theorem saveDevice_allOk (dev : DevicePolicy) (s : DBState) :
    SaveDevicePolicy allOk dev s =
      some { s with application := s.application ++ [deviceRowOf dev] } := rfl

/-- The non-predefined app loop under the all-success environment. -/
theorem apsLoop_allOk :
    ∀ (apps : AList AppPolicyValue) (s : DBState),
      (∀ kv ∈ apps, ∀ str, kv.2 ≠ .str str) →
      List.foldlM
        (fun s a =>
          if IsPredefinedApp a.1 then some s else SaveSpecificAppPolicy allOk a s)
        s apps = some (applyLoop apps s) := by
  intro apps
  induction apps with
  | nil => intro s _; rfl
  | cons a rest ih =>
      intro s hnot
      rw [List.foldlM_cons]
      by_cases hp : IsPredefinedApp a.1
      · rw [if_pos hp]
        show List.foldlM _ s rest = _
        rw [ih s (fun kv hkv => hnot kv (List.mem_cons_of_mem _ hkv))]
        unfold applyLoop
        rw [List.foldl_cons, if_pos hp]
      · rw [if_neg hp, saveSpecific_allOk a s (hnot a (List.mem_cons_self _ _))]
        show List.foldlM _ (applyApp a s) rest = _
        rw [ih _ (fun kv hkv => hnot kv (List.mem_cons_of_mem _ hkv))]
        unfold applyLoop
        rw [List.foldl_cons, if_neg hp]

/-- SaveApplicationPoliciesSection without string values under the
all-success environment. -/
theorem execStmt_allOk (st : Stmt) (f : DBState → DBState) (s : DBState) :
    execStmt allOk st f s = some (f s) := rfl

/-- The saveOptApp helper under the all-success environment. -/
theorem saveOptApp_allOk (k : String) (o : Option AppPolicyValue) (s : DBState)
    (h : ∀ v, o = some v → ∀ str, v ≠ .str str) :
    saveOptApp allOk k o s = some (applyOptApp k o s) := by
  cases o with
  | none => rfl
  | some v => exact saveSpecific_allOk (k, v) s (h v rfl)

/-- SaveApplicationPoliciesSection without string values under the
all-success environment. -/
theorem saveAPS_allOk (pol : ApplicationPoliciesSection) (s : DBState)
    (hnot : ∀ kv ∈ pol.apps, ∀ str, kv.2 ≠ .str str) :
    SaveApplicationPoliciesSection allOk pol s = some (applyAPS pol s) := by
  unfold SaveApplicationPoliciesSection applyAPS
  simp only [execStmt_allOk, Option.bind_eq_bind', Option.some_bind']
  rw [saveOptApp_allOk kDefaultId (alookup kDefaultId pol.apps) _
    (fun v hv str => hnot (kDefaultId, v) (mem_of_alookup _ _ _ hv) str)]
  simp only [Option.bind_eq_bind', Option.some_bind']
  rw [saveOptApp_allOk kPreDataConsentId (alookup kPreDataConsentId pol.apps) _
    (fun v hv str => hnot (kPreDataConsentId, v) (mem_of_alookup _ _ _ hv) str)]
  simp only [Option.bind_eq_bind', Option.some_bind', saveDevice_allOk]
  exact apsLoop_allOk pol.apps _ hnot

/-- SaveModuleConfig under the all-success environment. -/
theorem saveMC_allOk (config : ModuleConfig) (s : DBState) :
    SaveModuleConfig allOk config s = some (applyMC config s) := rfl

/-- SaveConsumerFriendlyMessages of an unset messages container. -/
theorem saveCFM_unset (env : Env) (messages : ConsumerFriendlyMessages)
    (s : DBState) (h : messages.messages = none) :
    SaveConsumerFriendlyMessages env messages s = some s := by
  unfold SaveConsumerFriendlyMessages
  rw [h]

/-- SaveDeviceData under the all-success environment. -/
theorem saveDD_allOk (devices : List String) (s : DBState) :
    SaveDeviceData allOk devices s =
      some { s with
        device_data := devices.foldl (fun t d => insertIfAbsent d t) s.device_data } := rfl

/-- SaveUsageAndErrorCounts under the all-success environment. -/
theorem saveUEC_allOk (counts : UsageAndErrorCounts) (s : DBState) :
    SaveUsageAndErrorCounts allOk counts s =
      some { s with app_level := counts.app_level } := rfl

/-- SaveModuleMeta under the all-success environment. -/
theorem saveMM_allOk (meta : ModuleMeta) (s : DBState) :
    SaveModuleMeta allOk meta s =
      some { s with module_meta := s.module_meta.map (fun _ => metaRowOf meta) } := rfl

/-- Save under the all-success environment on a document without string app
values and with an unset messages container. -/
theorem save_allOk (table : Table) (s : DBState)
    (hnot : ∀ kv ∈ table.app_policies_section.apps, ∀ str, kv.2 ≠ .str str)
    (hmsg : table.consumer_friendly_messages.messages = none) :
    Save allOk table s = (true, finalState table s) := by
  unfold Save finalState
  simp only [saveFG_allOk, saveAPS_allOk _ _ hnot, saveMC_allOk,
    saveCFM_unset allOk _ _ hmsg, saveDD_allOk, saveUEC_allOk, saveMM_allOk]

/-- A state observation preserved by every applyApp is preserved by the
whole loop. -/
theorem applyLoop_field {γ : Type} (f : DBState → γ)
    (hf : ∀ a s, f (applyApp a s) = f s) :
    ∀ (apps : AList AppPolicyValue) (s : DBState), f (applyLoop apps s) = f s := by
  intro apps
  induction apps with
  | nil => intro s; rfl
  | cons a rest ih =>
      intro s
      have hstep : applyLoop (a :: rest) s =
          applyLoop rest (if IsPredefinedApp a.1 then s else applyApp a s) := by
        unfold applyLoop
        rw [List.foldl_cons]
      rw [hstep, ih]
      by_cases hp : IsPredefinedApp a.1
      · rw [if_pos hp]
      · rw [if_neg hp, hf]

/-- The application rows the loop appends. -/
theorem applyLoop_application :
    ∀ (apps : AList AppPolicyValue) (s : DBState),
      (applyLoop apps s).application =
        s.application ++
          (apps.filter (fun a => ! IsPredefinedApp a.1)).map appRowOf := by
  intro apps
  induction apps with
  | nil => intro s; simp [applyLoop]
  | cons a rest ih =>
      intro s
      have hstep : applyLoop (a :: rest) s =
          applyLoop rest (if IsPredefinedApp a.1 then s else applyApp a s) := by
        unfold applyLoop
        rw [List.foldl_cons]
      rw [hstep, List.filter_cons]
      by_cases hp : IsPredefinedApp a.1
      · rw [if_pos hp, ih, if_neg (by simp [hp])]
      · rw [if_neg hp, ih, if_pos (by simp [hp])]
        show (applyApp a s).application ++ _ = _
        rw [show (applyApp a s).application = s.application ++ [appRowOf a] from rfl,
          List.append_assoc]
        rfl

/-- The request-type rows the loop appends. -/
theorem applyLoop_request_type :
    ∀ (apps : AList AppPolicyValue) (s : DBState),
      (applyLoop apps s).request_type =
        s.request_type ++
          (apps.filter (fun a => ! IsPredefinedApp a.1)).flatMap (fun a =>
            a.2.getParams.requestType.map
              (fun ty => (a.1, RequestType.toJsonString ty))) := by
  intro apps
  induction apps with
  | nil => intro s; simp [applyLoop]
  | cons a rest ih =>
      intro s
      have hstep : applyLoop (a :: rest) s =
          applyLoop rest (if IsPredefinedApp a.1 then s else applyApp a s) := by
        unfold applyLoop
        rw [List.foldl_cons]
      rw [hstep, List.filter_cons]
      by_cases hp : IsPredefinedApp a.1
      · rw [if_pos hp, ih, if_neg (by simp [hp])]
      · rw [if_neg hp, ih, if_pos (by simp [hp])]
        show (applyApp a s).request_type ++ _ = _
        rw [show (applyApp a s).request_type =
            s.request_type ++
              a.2.getParams.requestType.map
                (fun ty => (a.1, RequestType.toJsonString ty)) from rfl,
          List.append_assoc]
        rfl

/-- The app-group rows the loop appends, resolved against the unchanged
group table. -/
theorem applyLoop_app_group :
    ∀ (apps : AList AppPolicyValue) (s : DBState),
      (applyLoop apps s).app_group =
        s.app_group ++
          (apps.filter (fun a => ! IsPredefinedApp a.1)).flatMap (fun a =>
            resolveGroups s.functional_group a.1 a.2.getParams.groups) := by
  intro apps
  induction apps with
  | nil => intro s; simp [applyLoop]
  | cons a rest ih =>
      intro s
      have hstep : applyLoop (a :: rest) s =
          applyLoop rest (if IsPredefinedApp a.1 then s else applyApp a s) := by
        unfold applyLoop
        rw [List.foldl_cons]
      rw [hstep, List.filter_cons]
      by_cases hp : IsPredefinedApp a.1
      · rw [if_pos hp, ih, if_neg (by simp [hp])]
      · rw [if_neg hp, ih, if_pos (by simp [hp])]
        show (applyApp a s).app_group ++ _ = _
        rw [show (applyApp a s).app_group =
            s.app_group ++ resolveGroups s.functional_group a.1 a.2.getParams.groups
          from rfl,
          show (applyApp a s).functional_group = s.functional_group from rfl,
          List.append_assoc]
        rfl

/-- The loop leaves the nickname table unchanged when every nickname it
inserts is already stored. -/
theorem applyLoop_nickname :
    ∀ (apps : AList AppPolicyValue) (s : DBState),
      (∀ a ∈ apps, ∀ n ∈ a.2.getParams.nicknames, (a.1, n) ∈ s.nickname) →
      (applyLoop apps s).nickname = s.nickname := by
  intro apps
  induction apps with
  | nil => intro s _; rfl
  | cons a rest ih =>
      intro s h
      have hstep : applyLoop (a :: rest) s =
          applyLoop rest (if IsPredefinedApp a.1 then s else applyApp a s) := by
        unfold applyLoop
        rw [List.foldl_cons]
      rw [hstep]
      by_cases hp : IsPredefinedApp a.1
      · rw [if_pos hp]
        exact ih s (fun x hx => h x (List.mem_cons_of_mem _ hx))
      · rw [if_neg hp]
        have happ : (applyApp a s).nickname = s.nickname := by
          show a.2.getParams.nicknames.foldl
              (fun t n => insertIfAbsent (a.1, n) t) s.nickname = s.nickname
          exact foldl_insertIfAbsent_mem_map (fun n => (a.1, n)) _ _
            (fun n hn => h a (List.mem_cons_self _ _) n hn)
        have hrest : ∀ x ∈ rest, ∀ n ∈ x.2.getParams.nicknames,
            (x.1, n) ∈ (applyApp a s).nickname := by
          rw [happ]
          exact fun x hx => h x (List.mem_cons_of_mem _ hx)
        rw [ih _ hrest, happ]

/-- The loop leaves the app-type table unchanged when every type token it
inserts is already stored. -/
theorem applyLoop_app_type :
    ∀ (apps : AList AppPolicyValue) (s : DBState),
      (∀ a ∈ apps, ∀ ty ∈ a.2.getParams.appHMIType,
        (a.1, AppHMIType.toJsonString ty) ∈ s.app_type) →
      (applyLoop apps s).app_type = s.app_type := by
  intro apps
  induction apps with
  | nil => intro s _; rfl
  | cons a rest ih =>
      intro s h
      have hstep : applyLoop (a :: rest) s =
          applyLoop rest (if IsPredefinedApp a.1 then s else applyApp a s) := by
        unfold applyLoop
        rw [List.foldl_cons]
      rw [hstep]
      by_cases hp : IsPredefinedApp a.1
      · rw [if_pos hp]
        exact ih s (fun x hx => h x (List.mem_cons_of_mem _ hx))
      · rw [if_neg hp]
        have happ : (applyApp a s).app_type = s.app_type := by
          show a.2.getParams.appHMIType.foldl
              (fun t ty => insertIfAbsent (a.1, AppHMIType.toJsonString ty) t)
              s.app_type = s.app_type
          exact foldl_insertIfAbsent_mem_map
            (fun ty => (a.1, AppHMIType.toJsonString ty)) _ _
            (fun ty hty => h a (List.mem_cons_self _ _) ty hty)
        have hrest : ∀ x ∈ rest, ∀ ty ∈ x.2.getParams.appHMIType,
            (x.1, AppHMIType.toJsonString ty) ∈ (applyApp a s).app_type := by
          rw [happ]
          exact fun x hx => h x (List.mem_cons_of_mem _ hx)
        rw [ih _ hrest, happ]

/-- A state observation preserved by applyApp is preserved by applyOptApp. -/
theorem applyOptApp_field {γ : Type} (f : DBState → γ)
    (hf : ∀ a s, f (applyApp a s) = f s) (k : String)
    (o : Option AppPolicyValue) (s : DBState) : f (applyOptApp k o s) = f s := by
  cases o with
  | none => rfl
  | some v => exact hf (k, v) s

/-- Application rows of applyOptApp. -/
theorem applyOptApp_application (k : String) (o : Option AppPolicyValue)
    (s : DBState) :
    (applyOptApp k o s).application = s.application ++ optRows k o := by
  cases o with
  | none => simp [applyOptApp, optRows]
  | some v => rfl

/-- App-group rows of applyOptApp. -/
theorem applyOptApp_app_group (k : String) (o : Option AppPolicyValue)
    (s : DBState) :
    (applyOptApp k o s).app_group =
      s.app_group ++ optGroupRows s.functional_group k o := by
  cases o with
  | none => simp [applyOptApp, optGroupRows]
  | some v => rfl

/-- Request-type rows of applyOptApp. -/
theorem applyOptApp_request_type (k : String) (o : Option AppPolicyValue)
    (s : DBState) :
    (applyOptApp k o s).request_type =
      s.request_type ++ optRequestRows k o := by
  cases o with
  | none => simp [applyOptApp, optRequestRows]
  | some v => rfl

/-- applyOptApp keeps the nickname table when the inserted pairs are
present. -/
theorem applyOptApp_nickname (k : String) (o : Option AppPolicyValue)
    (s : DBState)
    (h : ∀ v, o = some v → ∀ n ∈ v.getParams.nicknames, (k, n) ∈ s.nickname) :
    (applyOptApp k o s).nickname = s.nickname := by
  cases o with
  | none => rfl
  | some v =>
      show v.getParams.nicknames.foldl
          (fun t n => insertIfAbsent (k, n) t) s.nickname = s.nickname
      exact foldl_insertIfAbsent_mem_map (fun n => (k, n)) _ _ (h v rfl)

/-- applyOptApp keeps the app-type table when the inserted pairs are
present. -/
theorem applyOptApp_app_type (k : String) (o : Option AppPolicyValue)
    (s : DBState)
    (h : ∀ v, o = some v → ∀ ty ∈ v.getParams.appHMIType,
      (k, AppHMIType.toJsonString ty) ∈ s.app_type) :
    (applyOptApp k o s).app_type = s.app_type := by
  cases o with
  | none => rfl
  | some v =>
      show v.getParams.appHMIType.foldl
          (fun t ty => insertIfAbsent (k, AppHMIType.toJsonString ty) t)
          s.app_type = s.app_type
      exact foldl_insertIfAbsent_mem_map
        (fun ty => (k, AppHMIType.toJsonString ty)) _ _ (h v rfl)

/-- The application table a successful section save leaves behind: the
predefined apps, the device row, then the non-predefined apps in map
order. -/
theorem applyAPS_application (pol : ApplicationPoliciesSection) (s : DBState) :
    (applyAPS pol s).application =
      optRows kDefaultId (alookup kDefaultId pol.apps) ++
      optRows kPreDataConsentId (alookup kPreDataConsentId pol.apps) ++
      [deviceRowOf pol.device] ++
      (pol.apps.filter (fun a => ! IsPredefinedApp a.1)).map appRowOf := by
  unfold applyAPS
  rw [applyLoop_application]
  show ((applyOptApp kPreDataConsentId (alookup kPreDataConsentId pol.apps)
      (applyOptApp kDefaultId (alookup kDefaultId pol.apps)
        { s with app_group := [], application := [], request_type := [] })).application
      ++ [deviceRowOf pol.device]) ++ _ = _
  rw [applyOptApp_application, applyOptApp_application]
  show (([] ++ optRows kDefaultId _ ++ optRows kPreDataConsentId _) ++ _) ++ _ = _
  simp [List.append_assoc]

/-- applyOptApp never touches the group table. -/
theorem applyOptApp_functional_group (k : String) (o : Option AppPolicyValue)
    (s : DBState) : (applyOptApp k o s).functional_group = s.functional_group :=
  applyOptApp_field (fun st => st.functional_group) (fun _ _ => rfl) k o s

/-- The app-group table a successful section save leaves behind. -/
theorem applyAPS_app_group (pol : ApplicationPoliciesSection) (s : DBState) :
    (applyAPS pol s).app_group =
      optGroupRows s.functional_group kDefaultId (alookup kDefaultId pol.apps) ++
      optGroupRows s.functional_group kPreDataConsentId
        (alookup kPreDataConsentId pol.apps) ++
      (pol.apps.filter (fun a => ! IsPredefinedApp a.1)).flatMap (fun a =>
        resolveGroups s.functional_group a.1 a.2.getParams.groups) := by
  unfold applyAPS
  rw [applyLoop_app_group]
  simp only [applyOptApp_functional_group]
  rw [applyOptApp_app_group, applyOptApp_app_group]
  simp only [applyOptApp_functional_group]
  simp [List.append_assoc]

/-- The request-type table a successful section save leaves behind. -/
theorem applyAPS_request_type (pol : ApplicationPoliciesSection) (s : DBState) :
    (applyAPS pol s).request_type =
      optRequestRows kDefaultId (alookup kDefaultId pol.apps) ++
      optRequestRows kPreDataConsentId (alookup kPreDataConsentId pol.apps) ++
      (pol.apps.filter (fun a => ! IsPredefinedApp a.1)).flatMap (fun a =>
        a.2.getParams.requestType.map
          (fun ty => (a.1, RequestType.toJsonString ty))) := by
  unfold applyAPS
  rw [applyLoop_request_type]
  show ((applyOptApp kPreDataConsentId (alookup kPreDataConsentId pol.apps)
      (applyOptApp kDefaultId (alookup kDefaultId pol.apps)
        { s with app_group := [], application := [], request_type := [] })).request_type)
      ++ _ = _
  rw [applyOptApp_request_type, applyOptApp_request_type]
  show ([] ++ optRequestRows kDefaultId _ ++ optRequestRows kPreDataConsentId _) ++ _ = _
  simp [List.append_assoc]

/-- The nickname table survives a section save whose nicknames are all
stored already. -/
theorem applyAPS_nickname (pol : ApplicationPoliciesSection) (s : DBState)
    (h : ∀ a ∈ pol.apps, ∀ n ∈ a.2.getParams.nicknames, (a.1, n) ∈ s.nickname) :
    (applyAPS pol s).nickname = s.nickname := by
  have h1 : ∀ (k : String) (o : Option AppPolicyValue),
      (∀ v, o = some v → (k, v) ∈ pol.apps) →
      ∀ t : DBState, t.nickname = s.nickname →
      (applyOptApp k o t).nickname = s.nickname := by
    intro k o ho t ht
    rw [applyOptApp_nickname k o t, ht]
    intro v hv n hn
    rw [ht]
    exact h (k, v) (ho v hv) n hn
  have hd := h1 kDefaultId (alookup kDefaultId pol.apps)
    (fun v hv => mem_of_alookup _ _ _ hv)
    ({ s with app_group := [], application := [], request_type := [] } : DBState) rfl
  have hp := h1 kPreDataConsentId (alookup kPreDataConsentId pol.apps)
    (fun v hv => mem_of_alookup _ _ _ hv) _ hd
  unfold applyAPS
  rw [applyLoop_nickname]
  · exact hp
  · intro a ha n hn
    exact hp.symm ▸ h a ha n hn

/-- The app-type table survives a section save whose types are all stored
already. -/
theorem applyAPS_app_type (pol : ApplicationPoliciesSection) (s : DBState)
    (h : ∀ a ∈ pol.apps, ∀ ty ∈ a.2.getParams.appHMIType,
      (a.1, AppHMIType.toJsonString ty) ∈ s.app_type) :
    (applyAPS pol s).app_type = s.app_type := by
  have h1 : ∀ (k : String) (o : Option AppPolicyValue),
      (∀ v, o = some v → (k, v) ∈ pol.apps) →
      ∀ t : DBState, t.app_type = s.app_type →
      (applyOptApp k o t).app_type = s.app_type := by
    intro k o ho t ht
    rw [applyOptApp_app_type k o t, ht]
    intro v hv ty hty
    rw [ht]
    exact h (k, v) (ho v hv) ty hty
  have hd := h1 kDefaultId (alookup kDefaultId pol.apps)
    (fun v hv => mem_of_alookup _ _ _ hv)
    ({ s with app_group := [], application := [], request_type := [] } : DBState) rfl
  have hp := h1 kPreDataConsentId (alookup kPreDataConsentId pol.apps)
    (fun v hv => mem_of_alookup _ _ _ hv) _ hd
  unfold applyAPS
  rw [applyLoop_app_type]
  · exact hp
  · intro a ha ty hty
    exact hp.symm ▸ h a ha ty hty

/-- A state observation preserved by applyApp is preserved by the whole
section save. -/
theorem applyAPS_field {γ : Type} (f : DBState → γ)
    (hf : ∀ a s, f (applyApp a s) = f s)
    (hdel : ∀ s : DBState,
      f { s with app_group := [], application := [], request_type := [] } = f s)
    (hdev : ∀ (s : DBState) (rows : List AppRow), f { s with application := rows } = f s)
    (pol : ApplicationPoliciesSection) (s : DBState) :
    f (applyAPS pol s) = f s := by
  unfold applyAPS
  rw [applyLoop_field f hf, hdev, applyOptApp_field f hf, applyOptApp_field f hf,
    hdel]

/-- C1 counterexample: the snapshot of stateC1bad holds group G with rpc
Show carrying parameter gps but no hmi level; Save writes no rpc row for an
rpc without hmi levels, so the re-generated snapshot has G with a null rpcs
container - the documents differ under any ordering of the unordered
containers. -/
theorem C1_counterexample :
    (Save allOk (GenerateSnapshot stateC1bad) stateC1bad).1 = true ∧
    alookup "G" (GenerateSnapshot stateC1bad).functional_groupings =
      some { user_consent_prompt := none
             rpcs := some [("Show", { hmi_levels := [], parameters := [.gps] })] } ∧
    alookup "G"
        (GenerateSnapshot
          (Save allOk (GenerateSnapshot stateC1bad) stateC1bad).2).functional_groupings =
      some { user_consent_prompt := none, rpcs := none } ∧
    ¬ TableEquiv
        (GenerateSnapshot (Save allOk (GenerateSnapshot stateC1bad) stateC1bad).2)
        (GenerateSnapshot stateC1bad) := by
  refine ⟨by decide, by decide, by decide, ?_⟩
  intro h
  have hg := h.functional_groupings "G"
  rw [show alookup "G"
        (GenerateSnapshot
          (Save allOk (GenerateSnapshot stateC1bad) stateC1bad).2).functional_groupings =
      some { user_consent_prompt := none, rpcs := none } by decide] at hg
  rw [show alookup "G" (GenerateSnapshot stateC1bad).functional_groupings =
      some { user_consent_prompt := none
             rpcs := some [("Show", { hmi_levels := [], parameters := [.gps] })] }
    by decide] at hg
  exact absurd hg (by decide)

/-! ## Refolding machinery: amodify structure lemmas -/

/-- Modifying an absent key appends the defaulted entry. -/
theorem amodify_of_not_mem {α : Type} (k : String) (d : α) (f : α → α) :
    ∀ l : AList α, k ∉ l.map Prod.fst → amodify k d f l = l ++ [(k, f d)] := by
  intro l
  induction l with
  | nil => intro _; rfl
  | cons hd tl ih =>
      obtain ⟨k1, v1⟩ := hd
      intro h
      simp only [List.map_cons, List.mem_cons] at h
      push_neg at h
      rw [show amodify k d f ((k1, v1) :: tl) =
        if k1 = k then (k1, f v1) :: tl else (k1, v1) :: amodify k d f tl from rfl,
        if_neg (fun he => h.1 he.symm), ih h.2]
      rfl

/-- Modifying the key of the last entry, the key being absent earlier, maps
its value in place. -/
theorem amodify_last {α : Type} (k : String) (d : α) (f : α → α) (v : α) :
    ∀ l : AList α, k ∉ l.map Prod.fst →
      amodify k d f (l ++ [(k, v)]) = l ++ [(k, f v)] := by
  intro l
  induction l with
  | nil => intro _; simp [amodify]
  | cons hd tl ih =>
      obtain ⟨k1, v1⟩ := hd
      intro h
      simp only [List.map_cons, List.mem_cons] at h
      push_neg at h
      rw [List.cons_append,
        show amodify k d f ((k1, v1) :: (tl ++ [(k, v)])) =
          if k1 = k then (k1, f v1) :: (tl ++ [(k, v)])
          else (k1, v1) :: amodify k d f (tl ++ [(k, v)]) from rfl,
        if_neg (fun he => h.1 he.symm), ih h.2]
      rfl

/-- The key list of a modification. -/
theorem amodify_keys {α : Type} (k : String) (d : α) (f : α → α) :
    ∀ l : AList α, (amodify k d f l).map Prod.fst =
      if k ∈ l.map Prod.fst then l.map Prod.fst else l.map Prod.fst ++ [k] := by
  intro l
  induction l with
  | nil => simp [amodify]
  | cons hd tl ih =>
      obtain ⟨k1, v1⟩ := hd
      by_cases hk : k1 = k
      · subst hk
        simp [amodify]
      · rw [show amodify k d f ((k1, v1) :: tl) =
            (k1, v1) :: amodify k d f tl from by rw [show amodify k d f ((k1, v1) :: tl) =
              if k1 = k then (k1, f v1) :: tl else (k1, v1) :: amodify k d f tl from rfl,
              if_neg hk],
          List.map_cons, ih]
        by_cases hmem : k ∈ tl.map Prod.fst
        · rw [if_pos hmem, if_pos, List.map_cons]
          simp [hmem]
        · rw [if_neg hmem, if_neg, List.map_cons, List.cons_append]
          simp only [List.map_cons, List.mem_cons]
          push_neg
          exact ⟨fun he => hk he.symm, hmem⟩

/-- The modified key is present afterwards. -/
theorem amodify_mem_keys {α : Type} (k : String) (d : α) (f : α → α) (l : AList α) :
    k ∈ (amodify k d f l).map Prod.fst := by
  rw [amodify_keys]
  split_ifs with h
  · exact h
  · simp

/-- Modification keeps the key list duplicate-free. -/
theorem amodify_nodup {α : Type} (k : String) (d : α) (f : α → α) (l : AList α)
    (h : (l.map Prod.fst).Nodup) : ((amodify k d f l).map Prod.fst).Nodup := by
  rw [amodify_keys]
  split_ifs with hm
  · exact h
  · rw [List.nodup_append]
    exact ⟨h, List.nodup_singleton k, by simpa using hm⟩

/-- A modified list never collapses to nil. -/
theorem amodify_ne_nil {α : Type} (k : String) (d : α) (f : α → α) (l : AList α) :
    amodify k d f l ≠ [] := by
  cases l with
  | nil => simp [amodify]
  | cons hd tl =>
      obtain ⟨k1, v1⟩ := hd
      rw [show amodify k d f ((k1, v1) :: tl) =
        if k1 = k then (k1, f v1) :: tl else (k1, v1) :: amodify k d f tl from rfl]
      split_ifs <;> simp

/-- Every member of a modification is an old member, the defaulted new entry,
or a mapped old entry of the key. -/
theorem mem_amodify {α : Type} (k : String) (d : α) (f : α → α) :
    ∀ l : AList α, ∀ x ∈ amodify k d f l,
      x ∈ l ∨ x = (k, f d) ∨ ∃ v, (k, v) ∈ l ∧ x = (k, f v) := by
  intro l
  induction l with
  | nil =>
      intro x hx
      simp only [amodify, List.mem_singleton] at hx
      exact Or.inr (Or.inl hx)
  | cons hd tl ih =>
      obtain ⟨k1, v1⟩ := hd
      intro x hx
      by_cases hk : k1 = k
      · rw [show amodify k d f ((k1, v1) :: tl) =
          if k1 = k then (k1, f v1) :: tl else (k1, v1) :: amodify k d f tl from rfl,
          if_pos hk] at hx
        rcases List.mem_cons.mp hx with rfl | hx2
        · subst hk
          exact Or.inr (Or.inr ⟨v1, List.mem_cons_self _ _, rfl⟩)
        · exact Or.inl (List.mem_cons_of_mem _ hx2)
      · rw [show amodify k d f ((k1, v1) :: tl) =
          if k1 = k then (k1, f v1) :: tl else (k1, v1) :: amodify k d f tl from rfl,
          if_neg hk] at hx
        rcases List.mem_cons.mp hx with rfl | hx2
        · exact Or.inl (List.mem_cons_self _ _)
        · rcases ih x hx2 with h1 | h1 | ⟨v, hv, hxv⟩
          · exact Or.inl (List.mem_cons_of_mem _ h1)
          · exact Or.inr (Or.inl h1)
          · exact Or.inr (Or.inr ⟨v, List.mem_cons_of_mem _ hv, hxv⟩)

/-- At a present key no defaulted entry appears: every member is an old
member or a mapped old entry of the key. -/
theorem mem_amodify_of_mem {α : Type} (k : String) (d : α) (f : α → α) :
    ∀ l : AList α, k ∈ l.map Prod.fst → ∀ x ∈ amodify k d f l,
      x ∈ l ∨ ∃ v, (k, v) ∈ l ∧ x = (k, f v) := by
  intro l
  induction l with
  | nil => intro hk; exact absurd hk (by simp)
  | cons hd tl ih =>
      obtain ⟨k1, v1⟩ := hd
      intro hk x hx
      by_cases hk1 : k1 = k
      · rw [show amodify k d f ((k1, v1) :: tl) =
          if k1 = k then (k1, f v1) :: tl else (k1, v1) :: amodify k d f tl from rfl,
          if_pos hk1] at hx
        rcases List.mem_cons.mp hx with rfl | hx2
        · subst hk1
          exact Or.inr ⟨v1, List.mem_cons_self _ _, rfl⟩
        · exact Or.inl (List.mem_cons_of_mem _ hx2)
      · rw [show amodify k d f ((k1, v1) :: tl) =
          if k1 = k then (k1, f v1) :: tl else (k1, v1) :: amodify k d f tl from rfl,
          if_neg hk1] at hx
        have hk2 : k ∈ tl.map Prod.fst := by
          simp only [List.map_cons, List.mem_cons] at hk
          rcases hk with h | h
          · exact absurd h.symm hk1
          · exact h
        rcases List.mem_cons.mp hx with rfl | hx2
        · exact Or.inl (List.mem_cons_self _ _)
        · rcases ih hk2 x hx2 with h1 | ⟨v, hv, hxv⟩
          · exact Or.inl (List.mem_cons_of_mem _ h1)
          · exact Or.inr ⟨v, List.mem_cons_of_mem _ hv, hxv⟩

theorem gatherEndpoints_eq (rows : List EndpointRow) :
    gatherEndpoints rows = rows.foldl epStep [] := rfl

/-- epInner preserves the per-service shape invariant. -/
theorem epInner_canon (r : EndpointRow) (inner : AList (List String))
    (hnd : (inner.map Prod.fst).Nodup) (hne : ∀ app ∈ inner, app.2 ≠ []) :
    epInner r inner ≠ [] ∧ ((epInner r inner).map Prod.fst).Nodup ∧
      ∀ app ∈ epInner r inner, app.2 ≠ [] := by
  refine ⟨amodify_ne_nil _ _ _ _, amodify_nodup _ _ _ _ hnd, ?_⟩
  intro app happ
  rcases mem_amodify _ _ _ inner app happ with h | h | ⟨v, hv, hx⟩
  · exact hne app h
  · rw [h]
    simp
  · rw [hx]
    simp

/-- One endpoint-fold step preserves the shape invariant. -/
theorem epStep_canon (acc : AList (AList (List String))) (r : EndpointRow)
    (h : EndpointsCanon acc) : EndpointsCanon (epStep acc r) := by
  obtain ⟨hnd, hv⟩ := h
  refine ⟨amodify_nodup _ _ _ _ hnd, ?_⟩
  intro svc hsvc
  rcases mem_amodify _ _ _ acc svc hsvc with h1 | h1 | ⟨v, hv1, hx⟩
  · exact hv svc h1
  · rw [h1]
    exact epInner_canon r [] (by simp) (by simp)
  · rw [hx]
    obtain ⟨_, hnd2, hne2⟩ := hv (r.service, v) hv1
    exact epInner_canon r v hnd2 hne2

/-- The endpoint fold preserves the shape invariant. -/
theorem epFold_canon :
    ∀ (rows : List EndpointRow) (acc : AList (AList (List String))),
      EndpointsCanon acc → EndpointsCanon (rows.foldl epStep acc) := by
  intro rows
  induction rows with
  | nil => intro acc h; exact h
  | cons r rest ih =>
      intro acc h
      rw [List.foldl_cons]
      exact ih _ (epStep_canon acc r h)

/-- Every gathered endpoint map satisfies the shape invariant. -/
theorem gatherEndpoints_canon (rows : List EndpointRow) :
    EndpointsCanon (gatherEndpoints rows) := by
  rw [gatherEndpoints_eq]
  exact epFold_canon rows [] ⟨by simp, by simp⟩

/-- Urls folded onto a trailing application entry append in order. -/
theorem epInner_fold_last (svc a : String) :
    ∀ (us : List String) (J : AList (List String)) (vs : List String),
      a ∉ J.map Prod.fst →
      (us.map (fun u => ({ service := svc, url := u, app_id := a } : EndpointRow))).foldl
        (fun I r => epInner r I) (J ++ [(a, vs)]) = J ++ [(a, vs ++ us)] := by
  intro us
  induction us with
  | nil => intro J vs _; simp
  | cons u rest ih =>
      intro J vs hJ
      rw [List.map_cons, List.foldl_cons,
        show epInner ({ service := svc, url := u, app_id := a } : EndpointRow)
            (J ++ [(a, vs)]) = J ++ [(a, vs ++ [u])] from
          amodify_last a [] _ vs J hJ,
        ih J (vs ++ [u]) hJ, List.append_assoc]
      simp

/-- A fresh application's url block creates its entry at the end. -/
theorem epInner_fold_fresh (svc a : String) (us : List String)
    (J : AList (List String)) (hJ : a ∉ J.map Prod.fst) (hne : us ≠ []) :
    (us.map (fun u => ({ service := svc, url := u, app_id := a } : EndpointRow))).foldl
      (fun I r => epInner r I) J = J ++ [(a, us)] := by
  cases us with
  | nil => exact absurd rfl hne
  | cons u rest =>
      rw [List.map_cons, List.foldl_cons,
        show epInner ({ service := svc, url := u, app_id := a } : EndpointRow) J =
            J ++ [(a, [u])] from amodify_of_not_mem a [] _ J hJ,
        epInner_fold_last svc a rest J [u] hJ]
      simp

/-- One service's application map refolds from its rows. -/
theorem epInner_refold (svc : String) :
    ∀ (inner : AList (List String)) (J : AList (List String)),
      (inner.map Prod.fst).Nodup → (∀ app ∈ inner, app.2 ≠ []) →
      (∀ kk ∈ inner.map Prod.fst, kk ∉ J.map Prod.fst) →
      (inner.flatMap (fun app => app.2.map
        (fun u => ({ service := svc, url := u, app_id := app.1 } : EndpointRow)))).foldl
        (fun I r => epInner r I) J = J ++ inner := by
  intro inner
  induction inner with
  | nil => intro J _ _ _; simp
  | cons app rest ih =>
      intro J hnd hne hfr
      rw [List.map_cons, List.nodup_cons] at hnd
      rw [List.flatMap_cons, List.foldl_append,
        epInner_fold_fresh svc app.1 app.2 J
          (hfr app.1 (by simp)) (hne app (List.mem_cons_self _ _)),
        ih (J ++ [(app.1, app.2)]) hnd.2
          (fun x hx => hne x (List.mem_cons_of_mem _ hx)) ?_,
        List.append_assoc]
      · simp
      · intro kk hkk
        rw [List.map_append, List.mem_append]
        push_neg
        refine ⟨hfr kk (by simp [hkk]), ?_⟩
        simp only [List.map_cons, List.map_nil, List.mem_singleton]
        intro he
        exact hnd.1 (he ▸ hkk)

/-- Rows of one service folded onto a trailing service entry act through the
inner fold. -/
theorem epFold_step_last :
    ∀ (rows : List EndpointRow) (accO : AList (AList (List String)))
      (svcName : String) (I : AList (List String)),
      svcName ∉ accO.map Prod.fst → (∀ r ∈ rows, r.service = svcName) →
      rows.foldl epStep (accO ++ [(svcName, I)]) =
        accO ++ [(svcName, rows.foldl (fun J r => epInner r J) I)] := by
  intro rows
  induction rows with
  | nil => intro accO svcName I _ _; rfl
  | cons r rest ih =>
      intro accO svcName I hfr hsvc
      have h1 : epStep (accO ++ [(svcName, I)]) r = accO ++ [(svcName, epInner r I)] := by
        unfold epStep
        rw [hsvc r (List.mem_cons_self _ _), amodify_last svcName [] (epInner r) I accO hfr]
      rw [List.foldl_cons, List.foldl_cons, h1,
        ih accO svcName (epInner r I) hfr (fun x hx => hsvc x (List.mem_cons_of_mem _ hx))]

/-- One canonical service block refolds to its service entry. -/
theorem epOuter_seg (svcName : String) (inner : AList (List String))
    (accO : AList (AList (List String)))
    (hfr : svcName ∉ accO.map Prod.fst)
    (hneI : inner ≠ []) (hndI : (inner.map Prod.fst).Nodup)
    (hneU : ∀ app ∈ inner, app.2 ≠ []) :
    (inner.flatMap (fun app => app.2.map
      (fun u => ({ service := svcName, url := u, app_id := app.1 } : EndpointRow)))).foldl
      epStep accO = accO ++ [(svcName, inner)] := by
  cases inner with
  | nil => exact absurd rfl hneI
  | cons app rest =>
      rcases happ : app.2 with _ | ⟨u, us⟩
      · exact absurd happ (hneU app (List.mem_cons_self _ _))
      · rw [List.map_cons, List.nodup_cons] at hndI
        have h1 : epStep accO ({ service := svcName, url := u, app_id := app.1 }) =
            accO ++ [(svcName, [(app.1, [u])])] := by
          unfold epStep
          rw [amodify_of_not_mem svcName [] _ accO hfr]
          rfl
        rw [List.flatMap_cons, happ, List.map_cons, List.cons_append, List.foldl_cons, h1,
          epFold_step_last _ accO svcName _ hfr ?_, List.foldl_append,
          show ([(app.1, [u])] : AList (List String)) = [] ++ [(app.1, [u])] from rfl,
          epInner_fold_last svcName app.1 us [] [u] (by simp),
          List.nil_append,
          show ([u] ++ us : List String) = app.2 from by simp [happ],
          epInner_refold svcName rest [(app.1, app.2)] hndI.2
            (fun x hx => hneU x (List.mem_cons_of_mem _ hx)) ?_]
        · simp
        · intro kk hkk
          simp only [List.map_cons, List.map_nil, List.mem_singleton]
          intro he
          exact hndI.1 (he ▸ hkk)
        · intro r hr
          rcases List.mem_append.mp hr with h | h
          · obtain ⟨x, _, hx⟩ := List.mem_map.mp h
            rw [← hx]
          · obtain ⟨x, _, hx⟩ := List.mem_flatMap.mp h
            obtain ⟨y, _, hy⟩ := List.mem_map.mp hx
            rw [← hy]

/-- A canonical endpoints map refolds from its rows onto a fresh
accumulator. -/
theorem epOuter_refold :
    ∀ (E : AList (AList (List String))) (accO : AList (AList (List String))),
      EndpointsCanon E → (∀ kk ∈ E.map Prod.fst, kk ∉ accO.map Prod.fst) →
      (endpointRowsOf E).foldl epStep accO = accO ++ E := by
  intro E
  induction E with
  | nil => intro accO _ _; simp [endpointRowsOf]
  | cons svc rest ih =>
      intro accO hE hfr
      obtain ⟨hnd, hv⟩ := hE
      rw [List.map_cons, List.nodup_cons] at hnd
      obtain ⟨hne1, hnd1, hneU1⟩ := hv svc (List.mem_cons_self _ _)
      rw [show endpointRowsOf (svc :: rest) =
          svc.2.flatMap (fun app => app.2.map
            (fun u => ({ service := svc.1, url := u, app_id := app.1 } : EndpointRow))) ++
          endpointRowsOf rest from by simp [endpointRowsOf],
        List.foldl_append,
        epOuter_seg svc.1 svc.2 accO (hfr svc.1 (by simp)) hne1 hnd1 hneU1,
        ih (accO ++ [(svc.1, svc.2)])
          ⟨hnd.2, fun x hx => hv x (List.mem_cons_of_mem _ hx)⟩ ?_,
        List.append_assoc]
      · simp
      · intro kk hkk
        rw [List.map_append, List.mem_append]
        push_neg
        refine ⟨hfr kk (by simp [hkk]), ?_⟩
        simp only [List.map_cons, List.map_nil, List.mem_singleton]
        intro he
        exact hnd.1 (he ▸ hkk)

/-- Refolding the rows written for a canonical endpoints map recovers it. -/
theorem gatherEndpoints_refold (E : AList (AList (List String)))
    (hE : EndpointsCanon E) : gatherEndpoints (endpointRowsOf E) = E := by
  rw [gatherEndpoints_eq, epOuter_refold E [] hE (by simp)]
  simp

/-! ## Per-field characterization of the saved state -/

/-- A section save never touches module_meta. -/
theorem applyAPS_module_meta (pol : ApplicationPoliciesSection) (s : DBState) :
    (applyAPS pol s).module_meta = s.module_meta :=
  applyAPS_field (fun st => st.module_meta) (fun _ _ => rfl) (fun _ => rfl)
    (fun _ _ => rfl) pol s

/-- A section save never touches module_config. -/
theorem applyAPS_module_config (pol : ApplicationPoliciesSection) (s : DBState) :
    (applyAPS pol s).module_config = s.module_config :=
  applyAPS_field (fun st => st.module_config) (fun _ _ => rfl) (fun _ => rfl)
    (fun _ _ => rfl) pol s

/-- A section save never touches the notifications table. -/
theorem applyAPS_notifications (pol : ApplicationPoliciesSection) (s : DBState) :
    (applyAPS pol s).notifications_by_priority = s.notifications_by_priority :=
  applyAPS_field (fun st => st.notifications_by_priority) (fun _ _ => rfl) (fun _ => rfl)
    (fun _ _ => rfl) pol s

/-- A section save never touches the group table. -/
theorem applyAPS_functional_group (pol : ApplicationPoliciesSection) (s : DBState) :
    (applyAPS pol s).functional_group = s.functional_group :=
  applyAPS_field (fun st => st.functional_group) (fun _ _ => rfl) (fun _ => rfl)
    (fun _ _ => rfl) pol s

/-- A section save never touches the rpc table. -/
theorem applyAPS_rpc (pol : ApplicationPoliciesSection) (s : DBState) :
    (applyAPS pol s).rpc = s.rpc :=
  applyAPS_field (fun st => st.rpc) (fun _ _ => rfl) (fun _ => rfl)
    (fun _ _ => rfl) pol s

/-- A section save never touches the device_data table. -/
theorem applyAPS_device_data (pol : ApplicationPoliciesSection) (s : DBState) :
    (applyAPS pol s).device_data = s.device_data :=
  applyAPS_field (fun st => st.device_data) (fun _ _ => rfl) (fun _ => rfl)
    (fun _ _ => rfl) pol s

/-- A section save never touches the message version. -/
theorem applyAPS_message_version (pol : ApplicationPoliciesSection) (s : DBState) :
    (applyAPS pol s).message_version = s.message_version :=
  applyAPS_field (fun st => st.message_version) (fun _ _ => rfl) (fun _ => rfl)
    (fun _ _ => rfl) pol s

/-- module_meta after a successful Save. -/
theorem finalState_module_meta (T : Table) (s : DBState) :
    (finalState T s).module_meta = s.module_meta.map (fun _ => metaRowOf T.module_meta) := by
  show (applyAPS T.app_policies_section (applyFG T.functional_groupings s)).module_meta.map
      (fun _ => metaRowOf T.module_meta) = _
  rw [applyAPS_module_meta]
  rfl

/-- module_config after a successful Save. -/
theorem finalState_module_config (T : Table) (s : DBState) :
    (finalState T s).module_config =
      s.module_config.map (fun _ => cfgRowOf T.module_config) := by
  show (applyAPS T.app_policies_section (applyFG T.functional_groupings s)).module_config.map
      (fun _ => cfgRowOf T.module_config) = _
  rw [applyAPS_module_config]
  rfl

/-- The endpoint table after a successful Save. -/
theorem finalState_endpoint (T : Table) (s : DBState) :
    (finalState T s).endpoint = endpointRowsOf T.module_config.endpoints := rfl

/-- The retry-seconds table after a successful Save. -/
theorem finalState_seconds (T : Table) (s : DBState) :
    (finalState T s).seconds_between_retries =
      T.module_config.seconds_between_retries := rfl

/-- The notifications table after a successful Save. -/
theorem finalState_notifications (T : Table) (s : DBState) :
    (finalState T s).notifications_by_priority =
      T.module_config.notifications_per_minute_by_priority.foldl
        (fun t kv => aupdate kv.1 kv.2 t) s.notifications_by_priority := by
  show T.module_config.notifications_per_minute_by_priority.foldl
      (fun t kv => aupdate kv.1 kv.2 t)
      (applyAPS T.app_policies_section
        (applyFG T.functional_groupings s)).notifications_by_priority = _
  rw [applyAPS_notifications]
  rfl

/-- The group table after a successful Save. -/
theorem finalState_functional_group (T : Table) (s : DBState) :
    (finalState T s).functional_group = fgRowsOf T.functional_groupings := by
  show (applyAPS T.app_policies_section (applyFG T.functional_groupings s)).functional_group = _
  rw [applyAPS_functional_group]
  rfl

/-- The rpc table after a successful Save. -/
theorem finalState_rpc (T : Table) (s : DBState) :
    (finalState T s).rpc = rpcRowsAll T.functional_groupings := by
  show (applyAPS T.app_policies_section (applyFG T.functional_groupings s)).rpc = _
  rw [applyAPS_rpc]
  rfl

/-- The application table after a successful Save. -/
theorem finalState_application (T : Table) (s : DBState) :
    (finalState T s).application =
      optRows kDefaultId (alookup kDefaultId T.app_policies_section.apps) ++
      optRows kPreDataConsentId (alookup kPreDataConsentId T.app_policies_section.apps) ++
      [deviceRowOf T.app_policies_section.device] ++
      (T.app_policies_section.apps.filter (fun a => ! IsPredefinedApp a.1)).map appRowOf := by
  show (applyAPS T.app_policies_section (applyFG T.functional_groupings s)).application = _
  exact applyAPS_application T.app_policies_section _

/-- The app_group table after a successful Save. -/
theorem finalState_app_group (T : Table) (s : DBState) :
    (finalState T s).app_group =
      optGroupRows (fgRowsOf T.functional_groupings) kDefaultId
        (alookup kDefaultId T.app_policies_section.apps) ++
      optGroupRows (fgRowsOf T.functional_groupings) kPreDataConsentId
        (alookup kPreDataConsentId T.app_policies_section.apps) ++
      (T.app_policies_section.apps.filter (fun a => ! IsPredefinedApp a.1)).flatMap (fun a =>
        resolveGroups (fgRowsOf T.functional_groupings) a.1 a.2.getParams.groups) := by
  show (applyAPS T.app_policies_section (applyFG T.functional_groupings s)).app_group = _
  exact applyAPS_app_group T.app_policies_section _

/-- The request_type table after a successful Save. -/
theorem finalState_request_type (T : Table) (s : DBState) :
    (finalState T s).request_type =
      optRequestRows kDefaultId (alookup kDefaultId T.app_policies_section.apps) ++
      optRequestRows kPreDataConsentId
        (alookup kPreDataConsentId T.app_policies_section.apps) ++
      (T.app_policies_section.apps.filter (fun a => ! IsPredefinedApp a.1)).flatMap (fun a =>
        a.2.getParams.requestType.map
          (fun ty => (a.1, RequestType.toJsonString ty))) := by
  show (applyAPS T.app_policies_section (applyFG T.functional_groupings s)).request_type = _
  exact applyAPS_request_type T.app_policies_section _

/-- The nickname table survives a Save whose nicknames are all stored. -/
theorem finalState_nickname (T : Table) (s : DBState)
    (h : ∀ a ∈ T.app_policies_section.apps, ∀ n ∈ a.2.getParams.nicknames,
      (a.1, n) ∈ s.nickname) :
    (finalState T s).nickname = s.nickname := by
  show (applyAPS T.app_policies_section (applyFG T.functional_groupings s)).nickname = _
  exact applyAPS_nickname T.app_policies_section _ h

/-- The app_type table survives a Save whose type tokens are all stored. -/
theorem finalState_app_type (T : Table) (s : DBState)
    (h : ∀ a ∈ T.app_policies_section.apps, ∀ ty ∈ a.2.getParams.appHMIType,
      (a.1, AppHMIType.toJsonString ty) ∈ s.app_type) :
    (finalState T s).app_type = s.app_type := by
  show (applyAPS T.app_policies_section (applyFG T.functional_groupings s)).app_type = _
  exact applyAPS_app_type T.app_policies_section _ h

/-- The device_data table after a successful Save. -/
theorem finalState_device_data (T : Table) (s : DBState) :
    (finalState T s).device_data =
      T.device_data.foldl (fun t d => insertIfAbsent d t) s.device_data := by
  show T.device_data.foldl (fun t d => insertIfAbsent d t)
      (applyAPS T.app_policies_section (applyFG T.functional_groupings s)).device_data = _
  rw [applyAPS_device_data]
  rfl

/-- The app_level table after a successful Save. -/
theorem finalState_app_level (T : Table) (s : DBState) :
    (finalState T s).app_level = T.usage_and_error_counts.app_level := rfl

/-- The message version after a successful Save of an unset messages
container. -/
theorem finalState_message_version (T : Table) (s : DBState) :
    (finalState T s).message_version = s.message_version := by
  show (applyAPS T.app_policies_section (applyFG T.functional_groupings s)).message_version = _
  rw [applyAPS_message_version]
  rfl

/-- The inserted value is present afterwards. -/
theorem mem_InsertUnique_self {α : Type} [DecidableEq α] (a : α) (l : List α) :
    a ∈ InsertUnique a l := by
  unfold InsertUnique
  split_ifs with h
  · exact h
  · simp

/-- Old members survive an InsertUnique. -/
theorem mem_InsertUnique_of_mem {α : Type} [DecidableEq α] (a x : α) (l : List α)
    (h : x ∈ l) : x ∈ InsertUnique a l := by
  unfold InsertUnique
  split_ifs
  · exact h
  · exact List.mem_append_left _ h

/-- InsertUnique keeps a list duplicate-free. -/
theorem InsertUnique_nodup {α : Type} [DecidableEq α] (a : α) (l : List α)
    (h : l.Nodup) : (InsertUnique a l).Nodup := by
  unfold InsertUnique
  split_ifs with hm
  · exact h
  · rw [List.nodup_append]
    exact ⟨h, List.nodup_singleton a, by simpa using hm⟩

/-- InsertUnique never yields nil. -/
theorem InsertUnique_ne_nil {α : Type} [DecidableEq α] (a : α) (l : List α) :
    InsertUnique a l ≠ [] := by
  unfold InsertUnique
  split_ifs with hm
  · intro he
    rw [he] at hm
    exact absurd hm (List.not_mem_nil a)
  · simp

/-- The key list of an update. -/
theorem aupdate_keys {α : Type} (k : String) (v : α) :
    ∀ l : AList α, (aupdate k v l).map Prod.fst =
      if k ∈ l.map Prod.fst then l.map Prod.fst else l.map Prod.fst ++ [k] := by
  intro l
  induction l with
  | nil => simp [aupdate]
  | cons hd tl ih =>
      obtain ⟨k1, v1⟩ := hd
      by_cases hk : k1 = k
      · subst hk
        simp [aupdate]
      · rw [show aupdate k v ((k1, v1) :: tl) =
            (k1, v1) :: aupdate k v tl from by
              rw [show aupdate k v ((k1, v1) :: tl) =
                if k1 = k then (k1, v) :: tl else (k1, v1) :: aupdate k v tl from rfl,
                if_neg hk],
          List.map_cons, ih]
        by_cases hmem : k ∈ tl.map Prod.fst
        · rw [if_pos hmem, if_pos, List.map_cons]
          simp [hmem]
        · rw [if_neg hmem, if_neg, List.map_cons, List.cons_append]
          simp only [List.map_cons, List.mem_cons]
          push_neg
          exact ⟨fun he => hk he.symm, hmem⟩

/-- Keys survive an update. -/
theorem mem_keys_aupdate {α : Type} (k k2 : String) (v : α) (l : AList α)
    (h : k2 ∈ l.map Prod.fst) : k2 ∈ (aupdate k v l).map Prod.fst := by
  rw [aupdate_keys]
  split_ifs
  · exact h
  · exact List.mem_append_left _ h

/-- The updated key is present afterwards. -/
theorem aupdate_mem_keys {α : Type} (k : String) (v : α) (l : AList α) :
    k ∈ (aupdate k v l).map Prod.fst := by
  rw [aupdate_keys]
  split_ifs with h
  · exact h
  · simp

/-- A row of the wrong group is skipped. -/
theorem selectAllRpcsStep_skip (gid : Int) (acc : AList RpcEntry) (r : RpcRow)
    (h : ¬ r.group_id = gid) : selectAllRpcsStep gid acc r = acc := by
  unfold selectAllRpcsStep
  rw [if_neg h]

/-- Every row written for a group carries its group id. -/
theorem rpcRowsOf_group_id (gid : Int) (R : AList RpcEntry) :
    ∀ r ∈ rpcRowsOf gid R, r.group_id = gid := by
  intro r hr
  obtain ⟨e, _, he⟩ := List.mem_flatMap.mp hr
  obtain ⟨h, _, hh⟩ := List.mem_flatMap.mp he
  by_cases hps : e.2.parameters = []
  · rw [if_pos hps] at hh
    rw [List.mem_singleton.mp hh]
  · rw [if_neg hps] at hh
    obtain ⟨p, _, hp⟩ := List.mem_map.mp hh
    rw [← hp]

/-- Rows of other groups leave the fold unchanged. -/
theorem rpcFold_skip (gid : Int) :
    ∀ (rows : List RpcRow) (acc : AList RpcEntry),
      (∀ r ∈ rows, ¬ r.group_id = gid) →
      rows.foldl (selectAllRpcsStep gid) acc = acc := by
  intro rows
  induction rows with
  | nil => intro acc _; rfl
  | cons r rest ih =>
      intro acc h
      rw [List.foldl_cons, selectAllRpcsStep_skip gid acc r (h r (List.mem_cons_self _ _))]
      exact ih acc (fun x hx => h x (List.mem_cons_of_mem _ hx))

/-- A matching row acting on a trailing fresh entry acts through entryStep. -/
theorem selectAllRpcsStep_last (gid : Int) (nm : String) (r : RpcRow)
    (acc : AList RpcEntry) (v : RpcEntry)
    (hacc : nm ∉ acc.map Prod.fst) (hname : r.name = nm) (hgid : r.group_id = gid) :
    selectAllRpcsStep gid (acc ++ [(nm, v)]) r = acc ++ [(nm, entryStep v r)] := by
  unfold selectAllRpcsStep entryStep
  rw [if_pos hgid, hname]
  cases hh : r.hmi_level with
  | none =>
      cases hp : r.parameter with
      | none => rfl
      | some t =>
          cases hc : Parameter.fromJsonString t with
          | none => simp [hc]
          | some p =>
              simp only [hc]
              rw [amodify_last nm _ _ v acc hacc]
  | some t =>
      cases hhc : HmiLevel.fromJsonString t with
      | none =>
          simp only [hhc]
          cases hp : r.parameter with
          | none => rfl
          | some t2 =>
              cases hc : Parameter.fromJsonString t2 with
              | none => simp [hc]
              | some p =>
                  simp only [hc]
                  rw [amodify_last nm _ _ v acc hacc]
      | some h =>
          simp only [hhc]
          cases hp : r.parameter with
          | none => rw [amodify_last nm _ _ v acc hacc]
          | some t2 =>
              cases hc : Parameter.fromJsonString t2 with
              | none =>
                  simp only [hc]
                  rw [amodify_last nm _ _ v acc hacc]
              | some p =>
                  simp only [hc]
                  rw [amodify_last nm _ _ v acc hacc, amodify_last nm _ _ _ acc hacc]

/-- A matching valid row on a fresh key creates its entry at the end. -/
theorem selectAllRpcsStep_fresh (gid : Int) (nm : String) (r : RpcRow)
    (acc : AList RpcEntry)
    (hacc : nm ∉ acc.map Prod.fst) (hname : r.name = nm) (hgid : r.group_id = gid)
    (hvalid : ∃ t h, r.hmi_level = some t ∧ HmiLevel.fromJsonString t = some h) :
    selectAllRpcsStep gid acc r = acc ++ [(nm, entryStep ⟨[], []⟩ r)] := by
  obtain ⟨t, h, hht, hhc⟩ := hvalid
  unfold selectAllRpcsStep entryStep
  rw [if_pos hgid, hname]
  cases hh : r.hmi_level with
  | none =>
      rw [hh] at hht
      exact Option.noConfusion hht
  | some t1 =>
      rw [hh] at hht
      injection hht with hteq
      subst hteq
      simp only [hhc]
      cases hp : r.parameter with
      | none => rw [amodify_of_not_mem nm _ _ acc hacc]
      | some t2 =>
          cases hc : Parameter.fromJsonString t2 with
          | none =>
              simp only [hc]
              rw [amodify_of_not_mem nm _ _ acc hacc]
          | some p =>
              simp only [hc]
              rw [amodify_of_not_mem nm _ _ acc hacc, amodify_last nm _ _ _ acc hacc]

/-- Matching rows folded onto a trailing fresh entry act through entryStep. -/
theorem rpcFold_seg_last (gid : Int) (nm : String) :
    ∀ (rows : List RpcRow) (acc : AList RpcEntry) (v : RpcEntry),
      nm ∉ acc.map Prod.fst → (∀ r ∈ rows, r.name = nm ∧ r.group_id = gid) →
      rows.foldl (selectAllRpcsStep gid) (acc ++ [(nm, v)]) =
        acc ++ [(nm, rows.foldl entryStep v)] := by
  intro rows
  induction rows with
  | nil => intro acc v _ _; rfl
  | cons r rest ih =>
      intro acc v hacc hprops
      obtain ⟨hn, hg⟩ := hprops r (List.mem_cons_self _ _)
      rw [List.foldl_cons, selectAllRpcsStep_last gid nm r acc v hacc hn hg,
        ih acc (entryStep v r) hacc (fun x hx => hprops x (List.mem_cons_of_mem _ hx)),
        List.foldl_cons]

/-- A fresh block of matching valid rows builds its entry at the end. -/
theorem rpcFold_seg_fresh (gid : Int) (nm : String) (rows : List RpcRow)
    (acc : AList RpcEntry)
    (hacc : nm ∉ acc.map Prod.fst)
    (hprops : ∀ r ∈ rows, r.name = nm ∧ r.group_id = gid ∧
      ∃ t h, r.hmi_level = some t ∧ HmiLevel.fromJsonString t = some h)
    (hne : rows ≠ []) :
    rows.foldl (selectAllRpcsStep gid) acc =
      acc ++ [(nm, rows.foldl entryStep ⟨[], []⟩)] := by
  cases rows with
  | nil => exact absurd rfl hne
  | cons r rest =>
      obtain ⟨hn, hg, hv⟩ := hprops r (List.mem_cons_self _ _)
      rw [List.foldl_cons, selectAllRpcsStep_fresh gid nm r acc hacc hn hg hv,
        rpcFold_seg_last gid nm rest acc _ hacc
          (fun x hx => ⟨(hprops x (List.mem_cons_of_mem _ hx)).1,
            (hprops x (List.mem_cons_of_mem _ hx)).2.1⟩),
        List.foldl_cons]

/-- The SaveRpcs row list is the per-entry block concatenation. -/
theorem rpcRowsOf_eq_segRows (gid : Int) (R : AList RpcEntry) :
    rpcRowsOf gid R =
      R.flatMap (fun e => segRowsOf e.1 gid e.2.hmi_levels e.2.parameters) := rfl

/-- One parameter block whose hmi level is already present only accumulates
parameters. -/
theorem entryFold_params_mem (nm : String) (gid : Int) (h : HmiLevel) :
    ∀ (ps : List Parameter) (e : RpcEntry), h ∈ e.hmi_levels →
      (ps.map (fun p => segRow nm gid h (some (Parameter.toJsonString p)))).foldl
        entryStep e =
      { e with parameters := ps.foldl (fun l p => InsertUnique p l) e.parameters } := by
  intro ps
  induction ps with
  | nil => intro e _; rfl
  | cons p rest ih =>
      intro e hmem
      have hstep : entryStep e (segRow nm gid h (some (Parameter.toJsonString p))) =
          { e with parameters := InsertUnique p e.parameters } := by
        unfold entryStep segRow
        simp only [HmiLevel.hmi_from_to, Parameter.param_from_to]
        rw [InsertUnique_mem h e.hmi_levels hmem]
      rw [List.map_cons, List.foldl_cons, hstep,
        ih { e with parameters := InsertUnique p e.parameters } hmem, List.foldl_cons]

/-- One hmi block inserts the level once and folds the parameters. -/
theorem entryFold_hblock (nm : String) (gid : Int) (h : HmiLevel) (ps : List Parameter)
    (e : RpcEntry) :
    ((if ps = [] then [segRow nm gid h none]
      else ps.map (fun p => segRow nm gid h (some (Parameter.toJsonString p)))).foldl
      entryStep e) =
    { hmi_levels := InsertUnique h e.hmi_levels
      parameters := ps.foldl (fun l p => InsertUnique p l) e.parameters } := by
  split_ifs with hps
  · subst hps
    rw [List.foldl_cons, List.foldl_nil]
    unfold entryStep segRow
    simp only [HmiLevel.hmi_from_to, List.foldl_nil]
  · cases ps with
    | nil => exact absurd rfl hps
    | cons p rest =>
        have hstep : entryStep e (segRow nm gid h (some (Parameter.toJsonString p))) =
            { hmi_levels := InsertUnique h e.hmi_levels
              parameters := InsertUnique p e.parameters } := by
          unfold entryStep segRow
          simp only [HmiLevel.hmi_from_to, Parameter.param_from_to]
        rw [List.map_cons, List.foldl_cons, hstep,
          entryFold_params_mem nm gid h rest _ (mem_InsertUnique_self h e.hmi_levels),
          List.foldl_cons]

/-- The block list splits along its hmi levels. -/
theorem segRowsOf_cons (nm : String) (gid : Int) (h : HmiLevel) (hs : List HmiLevel)
    (ps : List Parameter) :
    segRowsOf nm gid (h :: hs) ps =
      (if ps = [] then [segRow nm gid h none]
       else ps.map (fun p => segRow nm gid h (some (Parameter.toJsonString p)))) ++
      segRowsOf nm gid hs ps := by
  unfold segRowsOf
  rw [List.flatMap_cons]

/-- Trailing hmi blocks of an entry whose parameters are already stored. -/
theorem entryFold_tail (nm : String) (gid : Int) (ps : List Parameter) :
    ∀ (hs : List HmiLevel) (e : RpcEntry), hs.Nodup →
      (∀ h2 ∈ hs, h2 ∉ e.hmi_levels) → (∀ p ∈ ps, p ∈ e.parameters) →
      (segRowsOf nm gid hs ps).foldl entryStep e =
      { hmi_levels := e.hmi_levels ++ hs, parameters := e.parameters } := by
  intro hs
  induction hs with
  | nil =>
      intro e _ _ _
      simp [segRowsOf]
  | cons h hs2 ih =>
      intro e hnd hfr hsub
      rw [List.nodup_cons] at hnd
      have hfr2 : ∀ h2 ∈ hs2,
          h2 ∉ ({ hmi_levels := e.hmi_levels ++ [h]
                  parameters := e.parameters } : RpcEntry).hmi_levels := by
        intro h2 hh2
        show h2 ∉ e.hmi_levels ++ [h]
        rw [List.mem_append]
        push_neg
        refine ⟨hfr h2 (List.mem_cons_of_mem _ hh2), ?_⟩
        simp only [List.mem_singleton]
        intro he
        exact hnd.1 (he ▸ hh2)
      have hsub2 : ∀ p ∈ ps,
          p ∈ ({ hmi_levels := e.hmi_levels ++ [h]
                 parameters := e.parameters } : RpcEntry).parameters := hsub
      rw [segRowsOf_cons, List.foldl_append, entryFold_hblock nm gid h ps e,
        InsertUnique_not_mem h e.hmi_levels (hfr h (List.mem_cons_self _ _)),
        foldl_InsertUnique_mem ps e.parameters hsub,
        ih _ hnd.2 hfr2 hsub2, List.append_assoc]
      rfl

/-- A canonical entry refolds from its rows. -/
theorem entryFold_full (nm : String) (gid : Int) (hs : List HmiLevel) (ps : List Parameter)
    (hnd : hs.Nodup) (hne : hs ≠ []) (hpnd : ps.Nodup) :
    (segRowsOf nm gid hs ps).foldl entryStep (⟨[], []⟩ : RpcEntry) = ⟨hs, ps⟩ := by
  cases hs with
  | nil => exact absurd rfl hne
  | cons h hs2 =>
      rw [List.nodup_cons] at hnd
      have hfr2 : ∀ h2 ∈ hs2,
          h2 ∉ ({ hmi_levels := [h], parameters := ps } : RpcEntry).hmi_levels := by
        intro h2 hh2
        simp only [List.mem_singleton]
        intro he
        exact hnd.1 (he ▸ hh2)
      rw [segRowsOf_cons, List.foldl_append, entryFold_hblock nm gid h ps ⟨[], []⟩,
        show InsertUnique h ([] : List HmiLevel) = [h] from by simp [InsertUnique],
        foldl_InsertUnique_fresh ps [] hpnd (by simp), List.nil_append,
        entryFold_tail nm gid ps hs2 ⟨[h], ps⟩ hnd.2 hfr2 (fun p hp => hp)]
      rfl

/-- Rows of one entry block list match its name and group and carry
convertible hmi tokens. -/
theorem segRows_props (gid : Int) (nm : String) (hs : List HmiLevel) (ps : List Parameter) :
    ∀ r ∈ segRowsOf nm gid hs ps,
      r.name = nm ∧ r.group_id = gid ∧
      ∃ t h2, r.hmi_level = some t ∧ HmiLevel.fromJsonString t = some h2 := by
  intro r hr
  unfold segRowsOf at hr
  obtain ⟨h, _, hh⟩ := List.mem_flatMap.mp hr
  split_ifs at hh with hps
  · rw [List.mem_singleton.mp hh]
    exact ⟨rfl, rfl, HmiLevel.toJsonString h, h, rfl, HmiLevel.hmi_from_to h⟩
  · obtain ⟨p, _, hp⟩ := List.mem_map.mp hh
    rw [← hp]
    exact ⟨rfl, rfl, HmiLevel.toJsonString h, h, rfl, HmiLevel.hmi_from_to h⟩

/-- A non-empty hmi list yields a non-empty block list. -/
theorem segRows_ne_nil (gid : Int) (nm : String) (hs : List HmiLevel) (ps : List Parameter)
    (hne : hs ≠ []) : segRowsOf nm gid hs ps ≠ [] := by
  cases hs with
  | nil => exact absurd rfl hne
  | cons h hs2 =>
      rw [segRowsOf_cons]
      split_ifs with hps
      · simp
      · cases ps with
        | nil => exact absurd rfl hps
        | cons p ps2 => simp

/-- The rows of a canonical rpcs container refold to it. -/
theorem rpcRowsOf_refold (gid : Int) :
    ∀ (R : AList RpcEntry) (acc : AList RpcEntry),
      (R.map Prod.fst).Nodup →
      (∀ e ∈ R, e.2.hmi_levels ≠ [] ∧ e.2.hmi_levels.Nodup ∧ e.2.parameters.Nodup) →
      (∀ kk ∈ R.map Prod.fst, kk ∉ acc.map Prod.fst) →
      (rpcRowsOf gid R).foldl (selectAllRpcsStep gid) acc = acc ++ R := by
  intro R
  induction R with
  | nil => intro acc _ _ _; simp [rpcRowsOf]
  | cons en rest ih =>
      intro acc hnd hcanon hfr
      obtain ⟨hane, hhnd, hpnd⟩ := hcanon en (List.mem_cons_self _ _)
      rw [List.map_cons, List.nodup_cons] at hnd
      have hfr2 : ∀ kk ∈ rest.map Prod.fst, kk ∉ (acc ++ [(en.1, en.2)]).map Prod.fst := by
        intro kk hkk
        rw [List.map_append, List.mem_append]
        push_neg
        refine ⟨hfr kk (List.mem_cons_of_mem _ hkk), ?_⟩
        simp only [List.map_cons, List.map_nil, List.mem_singleton]
        intro he
        exact hnd.1 (he ▸ hkk)
      rw [rpcRowsOf_eq_segRows, List.flatMap_cons, List.foldl_append,
        rpcFold_seg_fresh gid en.1 _ acc (hfr en.1 (by simp))
          (segRows_props gid en.1 en.2.hmi_levels en.2.parameters)
          (segRows_ne_nil gid en.1 en.2.hmi_levels en.2.parameters hane),
        entryFold_full en.1 gid en.2.hmi_levels en.2.parameters hhnd hane hpnd,
        show ((en.1, (⟨en.2.hmi_levels, en.2.parameters⟩ : RpcEntry))) = en from rfl,
        ← rpcRowsOf_eq_segRows, ih (acc ++ [en]) hnd.2
          (fun x hx => hcanon x (List.mem_cons_of_mem _ hx))
          (fun kk hkk => hfr2 kk hkk),
        List.append_assoc]
      rfl

/-- Rows written for other groups never touch a group's fold. -/
theorem rpcFold_skip_groups (gid : Int) :
    ∀ (L : List (String × Rpcs)) (acc : AList RpcEntry),
      (∀ g ∈ L, ¬ GroupId g.1 = gid) →
      (L.flatMap (fun x => rpcRowsOf (GroupId x.1) (x.2.rpcs.getD []))).foldl
        (selectAllRpcsStep gid) acc = acc := by
  intro L
  induction L with
  | nil => intro acc _; rfl
  | cons g rest ih =>
      intro acc h
      have hskip : ∀ r ∈ rpcRowsOf (GroupId g.1) (g.2.rpcs.getD []),
          ¬ r.group_id = gid := by
        intro r hr
        rw [rpcRowsOf_group_id (GroupId g.1) _ r hr]
        exact h g (List.mem_cons_self _ _)
      rw [List.flatMap_cons, List.foldl_append, rpcFold_skip gid _ acc hskip,
        ih acc (fun x hx => h x (List.mem_cons_of_mem _ hx))]

/-- The fold of all saved rpc rows at one group's id recovers that group's
canonical container. -/
theorem rpcRowsAll_fold_eq (g : String × Rpcs) :
    ∀ (L : List (String × Rpcs)), g ∈ L → (L.map Prod.fst).Nodup →
      (∀ k1 ∈ L.map Prod.fst, ∀ k2 ∈ L.map Prod.fst, GroupId k1 = GroupId k2 → k1 = k2) →
      ((g.2.rpcs.getD []).map Prod.fst).Nodup →
      (∀ e ∈ g.2.rpcs.getD [], e.2.hmi_levels ≠ [] ∧ e.2.hmi_levels.Nodup ∧
        e.2.parameters.Nodup) →
      (L.flatMap (fun x => rpcRowsOf (GroupId x.1) (x.2.rpcs.getD []))).foldl
        (selectAllRpcsStep (GroupId g.1)) [] = g.2.rpcs.getD [] := by
  intro L
  induction L with
  | nil => intro hg; exact absurd hg (List.not_mem_nil g)
  | cons x rest ih =>
      intro hg hnd hinj hRnd hRcanon
      rw [List.map_cons, List.nodup_cons] at hnd
      rw [List.flatMap_cons, List.foldl_append]
      rcases List.mem_cons.mp hg with rfl | hg2
      · have hrest : ∀ y ∈ rest, ¬ GroupId y.1 = GroupId g.1 := by
          intro y hy hEq
          have h1 : y.1 ∈ (g :: rest).map Prod.fst :=
            List.mem_cons_of_mem _ (List.mem_map_of_mem Prod.fst hy)
          have h2 : g.1 ∈ (g :: rest).map Prod.fst := by simp
          have h3 := hinj y.1 h1 g.1 h2 hEq
          exact hnd.1 (h3 ▸ List.mem_map_of_mem Prod.fst hy)
        rw [rpcRowsOf_refold (GroupId g.1) _ [] hRnd hRcanon (by simp), List.nil_append,
          rpcFold_skip_groups (GroupId g.1) rest _ hrest]
      · have hxk : ¬ GroupId x.1 = GroupId g.1 := by
          intro hEq
          have h1 : x.1 ∈ (x :: rest).map Prod.fst := by simp
          have h2 : g.1 ∈ (x :: rest).map Prod.fst :=
            List.mem_cons_of_mem _ (List.mem_map_of_mem Prod.fst hg2)
          have h3 := hinj x.1 h1 g.1 h2 hEq
          exact hnd.1 (h3 ▸ List.mem_map_of_mem Prod.fst hg2)
        have hskip : ∀ r ∈ rpcRowsOf (GroupId x.1) (x.2.rpcs.getD []),
            ¬ r.group_id = GroupId g.1 := by
          intro r hr
          rw [rpcRowsOf_group_id (GroupId x.1) _ r hr]
          exact hxk
        rw [rpcFold_skip (GroupId g.1) _ [] hskip]
        exact ih hg2 hnd.2
          (fun k1 hk1 k2 hk2 =>
            hinj k1 (List.mem_cons_of_mem _ hk1) k2 (List.mem_cons_of_mem _ hk2))
          hRnd hRcanon

/-- gatherGroupRpcs over the saved rows recovers a canonical group's rpcs
container. -/
theorem gatherGroupRpcs_refold (G : AList Rpcs) (g : String × Rpcs)
    (hg : g ∈ G) (hnd : (G.map Prod.fst).Nodup)
    (hinj : ∀ k1 ∈ G.map Prod.fst, ∀ k2 ∈ G.map Prod.fst, GroupId k1 = GroupId k2 → k1 = k2)
    (hcanon : ∀ R, g.2.rpcs = some R → R ≠ [] ∧ (R.map Prod.fst).Nodup ∧
      ∀ e ∈ R, e.2.hmi_levels ≠ [] ∧ e.2.hmi_levels.Nodup ∧ e.2.parameters.Nodup) :
    gatherGroupRpcs (rpcRowsAll G) (GroupId g.1) = g.2.rpcs := by
  have hRnd : ((g.2.rpcs.getD []).map Prod.fst).Nodup := by
    cases hR : g.2.rpcs with
    | none => simp
    | some R => exact (hcanon R hR).2.1
  have hRe : ∀ e ∈ g.2.rpcs.getD [], e.2.hmi_levels ≠ [] ∧ e.2.hmi_levels.Nodup ∧
      e.2.parameters.Nodup := by
    cases hR : g.2.rpcs with
    | none => simp
    | some R => exact (hcanon R hR).2.2
  have hfold := rpcRowsAll_fold_eq g G hg hnd hinj hRnd hRe
  show (if (rpcRowsAll G).foldl (selectAllRpcsStep (GroupId g.1)) [] = [] then none
      else some ((rpcRowsAll G).foldl (selectAllRpcsStep (GroupId g.1)) [])) = g.2.rpcs
  rw [show rpcRowsAll G =
      G.flatMap (fun x => rpcRowsOf (GroupId x.1) (x.2.rpcs.getD [])) from rfl, hfold]
  cases hR : g.2.rpcs with
  | none => simp
  | some R =>
      have hne := (hcanon R hR).1
      simp [hne]

/-- One valid row keeps the accumulator canonical. -/
theorem selectAllRpcsStep_canon (gid : Int) (acc : AList RpcEntry) (r : RpcRow)
    (hr : ∃ t h, r.hmi_level = some t ∧ HmiLevel.fromJsonString t = some h)
    (hnd : (acc.map Prod.fst).Nodup)
    (hval : ∀ e ∈ acc, e.2.hmi_levels ≠ [] ∧ e.2.hmi_levels.Nodup ∧ e.2.parameters.Nodup) :
    ((selectAllRpcsStep gid acc r).map Prod.fst).Nodup ∧
    ∀ e ∈ selectAllRpcsStep gid acc r,
      e.2.hmi_levels ≠ [] ∧ e.2.hmi_levels.Nodup ∧ e.2.parameters.Nodup := by
  obtain ⟨t, h, hht, hhc⟩ := hr
  unfold selectAllRpcsStep
  split_ifs with hgid
  · simp only [hht, hhc]
    have hnd1 : ((amodify r.name ⟨[], []⟩
        (fun e => { e with hmi_levels := InsertUnique h e.hmi_levels }) acc).map
          Prod.fst).Nodup := amodify_nodup _ _ _ _ hnd
    have hval1 : ∀ e ∈ amodify r.name ⟨[], []⟩
        (fun e => { e with hmi_levels := InsertUnique h e.hmi_levels }) acc,
        e.2.hmi_levels ≠ [] ∧ e.2.hmi_levels.Nodup ∧ e.2.parameters.Nodup := by
      intro e he
      rcases mem_amodify _ _ _ acc e he with h1 | h1 | ⟨v, hv, hx⟩
      · exact hval e h1
      · rw [h1]
        exact ⟨by simp [InsertUnique], by simp [InsertUnique], by simp⟩
      · rw [hx]
        obtain ⟨hv1, hv2, hv3⟩ := hval (r.name, v) hv
        exact ⟨InsertUnique_ne_nil h v.hmi_levels, InsertUnique_nodup h v.hmi_levels hv2, hv3⟩
    cases hp : r.parameter with
    | none => exact ⟨hnd1, hval1⟩
    | some t2 =>
        cases hc : Parameter.fromJsonString t2 with
        | none =>
            simp only [hc]
            exact ⟨hnd1, hval1⟩
        | some p =>
            simp only [hc]
            refine ⟨amodify_nodup _ _ _ _ hnd1, ?_⟩
            intro e he
            rcases mem_amodify_of_mem _ _ _ _
              (amodify_mem_keys r.name ⟨[], []⟩
                (fun e => { e with hmi_levels := InsertUnique h e.hmi_levels }) acc)
              e he with h1 | ⟨v, hv, hx⟩
            · exact hval1 e h1
            · rw [hx]
              obtain ⟨hv1, hv2, hv3⟩ := hval1 (r.name, v) hv
              exact ⟨hv1, hv2, InsertUnique_nodup p v.parameters hv3⟩
  · exact ⟨hnd, hval⟩

/-- The whole fold over valid rows is canonical. -/
theorem rpcFold_canon (gid : Int) :
    ∀ (rows : List RpcRow) (acc : AList RpcEntry),
      (∀ r ∈ rows, ∃ t h, r.hmi_level = some t ∧ HmiLevel.fromJsonString t = some h) →
      (acc.map Prod.fst).Nodup →
      (∀ e ∈ acc, e.2.hmi_levels ≠ [] ∧ e.2.hmi_levels.Nodup ∧ e.2.parameters.Nodup) →
      (((rows.foldl (selectAllRpcsStep gid) acc).map Prod.fst).Nodup ∧
       ∀ e ∈ rows.foldl (selectAllRpcsStep gid) acc,
         e.2.hmi_levels ≠ [] ∧ e.2.hmi_levels.Nodup ∧ e.2.parameters.Nodup) := by
  intro rows
  induction rows with
  | nil => intro acc _ hnd hval; exact ⟨hnd, hval⟩
  | cons r rest ih =>
      intro acc hwf hnd hval
      rw [List.foldl_cons]
      obtain ⟨h1, h2⟩ := selectAllRpcsStep_canon gid acc r
        (hwf r (List.mem_cons_self _ _)) hnd hval
      exact ih _ (fun x hx => hwf x (List.mem_cons_of_mem _ hx)) h1 h2

/-- The rpcs container gathered for any group from a valid rpc table is
canonical. -/
theorem gatherGroupRpcs_canon (s : DBState) (gid : Int)
    (hwf : ∀ r ∈ s.rpc, ∃ t h, r.hmi_level = some t ∧ HmiLevel.fromJsonString t = some h) :
    ∀ R, gatherGroupRpcs s.rpc gid = some R →
      R ≠ [] ∧ (R.map Prod.fst).Nodup ∧
      ∀ e ∈ R, e.2.hmi_levels ≠ [] ∧ e.2.hmi_levels.Nodup ∧ e.2.parameters.Nodup := by
  intro R hR
  have hcanon := rpcFold_canon gid s.rpc [] hwf (by simp) (by simp)
  simp only [gatherGroupRpcs] at hR
  split_ifs at hR with hnil
  injection hR with hR2
  subst hR2
  exact ⟨hnil, hcanon.1, hcanon.2⟩

/-- Provenance of the entries of the gathered functional groupings. -/
theorem gfg_fold_entries (s : DBState) :
    ∀ (rows : List GroupRow) (acc : AList Rpcs) (kv : String × Rpcs),
      kv ∈ rows.foldl (fun acc g => aupdate g.name
        { user_consent_prompt := g.user_consent_prompt
          rpcs := gatherGroupRpcs s.rpc g.id } acc) acc →
      kv ∈ acc ∨ ∃ g ∈ rows, kv.1 = g.name ∧
        kv.2 = { user_consent_prompt := g.user_consent_prompt
                 rpcs := gatherGroupRpcs s.rpc g.id } := by
  intro rows
  induction rows with
  | nil => intro acc kv h; exact Or.inl h
  | cons g rest ih =>
      intro acc kv h
      rw [List.foldl_cons] at h
      rcases ih _ kv h with h1 | ⟨g2, hg2, he⟩
      · rcases mem_aupdate _ _ _ kv h1 with h2 | h2
        · right
          exact ⟨g, List.mem_cons_self _ _, by rw [h2], by rw [h2]⟩
        · exact Or.inl h2
      · exact Or.inr ⟨g2, List.mem_cons_of_mem _ hg2, he⟩

/-- The gathered functional groupings carry duplicate-free keys. -/
theorem gfg_fold_keys_nodup (s : DBState) :
    ∀ (rows : List GroupRow) (acc : AList Rpcs), (acc.map Prod.fst).Nodup →
      ((rows.foldl (fun acc g => aupdate g.name
        { user_consent_prompt := g.user_consent_prompt
          rpcs := gatherGroupRpcs s.rpc g.id } acc) acc).map Prod.fst).Nodup := by
  intro rows
  induction rows with
  | nil => intro acc h; exact h
  | cons g rest ih =>
      intro acc h
      rw [List.foldl_cons]
      exact ih _ (aupdate_nodup _ _ _ h)

/-- A stored group's name is a key of the gathered functional groupings. -/
theorem gfg_fold_mem_keys (s : DBState) :
    ∀ (rows : List GroupRow) (acc : AList Rpcs) (k : String),
      ((∃ g ∈ rows, g.name = k) ∨ k ∈ acc.map Prod.fst) →
      k ∈ (rows.foldl (fun acc g => aupdate g.name
        { user_consent_prompt := g.user_consent_prompt
          rpcs := gatherGroupRpcs s.rpc g.id } acc) acc).map Prod.fst := by
  intro rows
  induction rows with
  | nil =>
      intro acc k h
      rcases h with ⟨g, hg, _⟩ | h
      · exact absurd hg (List.not_mem_nil g)
      · exact h
  | cons g rest ih =>
      intro acc k h
      rw [List.foldl_cons]
      apply ih
      rcases h with ⟨g2, hg2, hk⟩ | hk
      · rcases List.mem_cons.mp hg2 with rfl | hg3
        · right
          rw [← hk]
          exact aupdate_mem_keys _ _ _
        · exact Or.inl ⟨g2, hg3, hk⟩
      · right
        exact mem_keys_aupdate _ _ _ _ hk

/-- Wrapper: key list of the gathered functional groupings. -/
theorem GatherFunctionalGroupings_keys_nodup (s : DBState) :
    ((GatherFunctionalGroupings s).map Prod.fst).Nodup :=
  gfg_fold_keys_nodup s s.functional_group [] (by simp)

/-- Wrapper: provenance of the gathered functional groupings. -/
theorem GatherFunctionalGroupings_entries (s : DBState) :
    ∀ kv ∈ GatherFunctionalGroupings s, ∃ g ∈ s.functional_group,
      kv.1 = g.name ∧ kv.2 = { user_consent_prompt := g.user_consent_prompt
                               rpcs := gatherGroupRpcs s.rpc g.id } := by
  intro kv h
  rcases gfg_fold_entries s s.functional_group [] kv h with h1 | h1
  · exact absurd h1 (List.not_mem_nil kv)
  · exact h1

/-- Wrapper: a stored group name is a gathered key. -/
theorem GatherFunctionalGroupings_mem_name (s : DBState) (g0 : GroupRow)
    (hg : g0 ∈ s.functional_group) :
    g0.name ∈ (GatherFunctionalGroupings s).map Prod.fst :=
  gfg_fold_mem_keys s s.functional_group [] g0.name (Or.inl ⟨g0, hg, rfl⟩)

/-- Folding the gather step over fresh, distinct group rows appends their
entries. -/
theorem gfg_fold_fresh (rpcT : List RpcRow) :
    ∀ (rows : List GroupRow) (acc : AList Rpcs),
      (rows.map (fun g => g.name)).Nodup →
      (∀ g ∈ rows, alookup g.name acc = none) →
      rows.foldl (fun acc g => aupdate g.name
        { user_consent_prompt := g.user_consent_prompt
          rpcs := gatherGroupRpcs rpcT g.id } acc) acc =
      acc ++ rows.map (fun g => (g.name,
        ({ user_consent_prompt := g.user_consent_prompt
           rpcs := gatherGroupRpcs rpcT g.id } : Rpcs))) := by
  intro rows
  induction rows with
  | nil => intro acc _ _; simp
  | cons g rest ih =>
      intro acc hnd hfresh
      rw [List.map_cons, List.nodup_cons] at hnd
      rw [List.foldl_cons, aupdate_of_lookup_none g.name _ acc
          (hfresh g (List.mem_cons_self _ _)),
        ih _ hnd.2 ?_, List.map_cons, List.append_assoc]
      · rfl
      · intro g2 hg2
        rw [alookup_append, hfresh g2 (List.mem_cons_of_mem _ hg2)]
        have hk2 : g2.name ≠ g.name := by
          intro he
          exact hnd.1 (he ▸ List.mem_map_of_mem (fun g => g.name) hg2)
        simp [alookup, Ne.symm hk2]

/-- The names of the written group rows are the gathered keys. -/
theorem fgRowsOf_names (G : AList Rpcs) :
    (fgRowsOf G).map (fun g => g.name) = G.map Prod.fst := by
  unfold fgRowsOf
  rw [List.map_map]
  rfl

/-- Rebuilding the groupings from the written rows, given a pointwise rpcs
recovery, is the identity. -/
theorem map_fgRows_pointwise (X : List RpcRow) :
    ∀ G : AList Rpcs, (∀ kv ∈ G, gatherGroupRpcs X (GroupId kv.1) = kv.2.rpcs) →
      (fgRowsOf G).map (fun g => (g.name,
        ({ user_consent_prompt := g.user_consent_prompt
           rpcs := gatherGroupRpcs X g.id } : Rpcs))) = G := by
  intro G
  induction G with
  | nil => intro _; rfl
  | cons kv rest ih =>
      intro h
      rw [show fgRowsOf (kv :: rest) =
          ({ id := GroupId kv.1, name := kv.1,
             user_consent_prompt := kv.2.user_consent_prompt } : GroupRow) :: fgRowsOf rest
          from by unfold fgRowsOf; rw [List.map_cons]]
      simp only [List.map_cons]
      rw [h kv (List.mem_cons_self _ _), ih (fun x hx => h x (List.mem_cons_of_mem _ hx))]

/-- The functional groupings of a well-formed store survive the save /
re-gather round trip unchanged. -/
theorem functional_groupings_roundtrip (s : DBState)
    (hwf : ∀ r ∈ s.rpc, ∃ t h, r.hmi_level = some t ∧ HmiLevel.fromJsonString t = some h)
    (hinj : ∀ g1 ∈ s.functional_group, ∀ g2 ∈ s.functional_group,
      GroupId g1.name = GroupId g2.name → g1.name = g2.name) :
    GatherFunctionalGroupings (finalState (GenerateSnapshot s) s) =
      GatherFunctionalGroupings s := by
  have hGnd := GatherFunctionalGroupings_keys_nodup s
  have hGinj : ∀ k1 ∈ (GatherFunctionalGroupings s).map Prod.fst,
      ∀ k2 ∈ (GatherFunctionalGroupings s).map Prod.fst,
      GroupId k1 = GroupId k2 → k1 = k2 := by
    intro k1 hk1 k2 hk2 hEq
    obtain ⟨kv1, hkv1, he1⟩ := List.mem_map.mp hk1
    obtain ⟨kv2, hkv2, he2⟩ := List.mem_map.mp hk2
    obtain ⟨g1, hg1, hn1, _⟩ := GatherFunctionalGroupings_entries s kv1 hkv1
    obtain ⟨g2, hg2, hn2, _⟩ := GatherFunctionalGroupings_entries s kv2 hkv2
    subst he1
    subst he2
    rw [hn1, hn2] at hEq ⊢
    exact hinj g1 hg1 g2 hg2 hEq
  have hGcanon : ∀ kv ∈ GatherFunctionalGroupings s, ∀ R, kv.2.rpcs = some R →
      R ≠ [] ∧ (R.map Prod.fst).Nodup ∧
      ∀ e ∈ R, e.2.hmi_levels ≠ [] ∧ e.2.hmi_levels.Nodup ∧ e.2.parameters.Nodup := by
    intro kv hkv R hR
    obtain ⟨g0, hg0, _, hval⟩ := GatherFunctionalGroupings_entries s kv hkv
    rw [hval] at hR
    exact gatherGroupRpcs_canon s g0.id hwf R hR
  show (finalState (GenerateSnapshot s) s).functional_group.foldl
      (fun acc g => aupdate g.name
        ({ user_consent_prompt := g.user_consent_prompt
           rpcs := gatherGroupRpcs (finalState (GenerateSnapshot s) s).rpc g.id } : Rpcs)
        acc) [] = _
  rw [finalState_functional_group, finalState_rpc,
    show (GenerateSnapshot s).functional_groupings = GatherFunctionalGroupings s from rfl,
    gfg_fold_fresh (rpcRowsAll (GatherFunctionalGroupings s))
      (fgRowsOf (GatherFunctionalGroupings s)) []
      (by rw [fgRowsOf_names]; exact hGnd) (fun g _ => rfl),
    List.nil_append,
    map_fgRows_pointwise (rpcRowsAll (GatherFunctionalGroupings s))
      (GatherFunctionalGroupings s)
      (fun kv hkv => gatherGroupRpcs_refold (GatherFunctionalGroupings s) kv hkv hGnd hGinj
        (hGcanon kv hkv))]

/-- Under convertible tokens and a non-default device flag the snapshot's
application-policies section is the total fold. -/
theorem snapshot_app_section (s : DBState)
    (hT : ∀ r ∈ s.app_type, (AppHMIType.fromJsonString r.2).isSome = true)
    (hR : ∀ r ∈ s.request_type, (RequestType.fromJsonString r.2).isSome = true)
    (hdev : IsDefaultPolicy s kDeviceId = false) :
    (GenerateSnapshot s).app_policies_section = gatherPol s := by
  show (GatherApplicationPoliciesSection s).2 = gatherPol s
  unfold GatherApplicationPoliciesSection
  rw [gatherAppsLoop_eq_fold s hT hR hdev s.application _]
  rfl

/-- The gathered apps map carries duplicate-free keys. -/
theorem foldGather_keys_nodup (s : DBState) :
    ∀ (rows : List AppRow) (acc : ApplicationPoliciesSection),
      (acc.apps.map Prod.fst).Nodup →
      ((rows.foldl (gatherRowStep s) acc).apps.map Prod.fst).Nodup := by
  intro rows
  induction rows with
  | nil => intro acc h; exact h
  | cons r rest ih =>
      intro acc h
      rw [List.foldl_cons]
      apply ih
      unfold gatherRowStep
      split_ifs <;> first
        | exact aupdate_nodup _ _ _ h
        | exact h

/-- Every gathered apps entry is null or the structured parameters of one of
its rows. -/
theorem foldGather_values (s : DBState) :
    ∀ (rows : List AppRow) (acc : ApplicationPoliciesSection) (kv : String × AppPolicyValue),
      kv ∈ (rows.foldl (gatherRowStep s) acc).apps →
      kv ∈ acc.apps ∨ ∃ r ∈ rows, kv.1 = r.app_id ∧
        (kv.2 = .null ∨ kv.2 = .params (gatherRowParams s r)) := by
  intro rows
  induction rows with
  | nil => intro acc kv h; exact Or.inl h
  | cons r rest ih =>
      intro acc kv h
      rw [List.foldl_cons] at h
      rcases ih _ kv h with h1 | ⟨r2, hr2, he⟩
      · unfold gatherRowStep at h1
        split_ifs at h1 with hrev hdvc
        · rcases mem_aupdate _ _ _ kv h1 with h2 | h2
          · exact Or.inr ⟨r, List.mem_cons_self _ _, by rw [h2], Or.inl (by rw [h2])⟩
          · exact Or.inl h2
        · exact Or.inl h1
        · rcases mem_aupdate _ _ _ kv h1 with h2 | h2
          · exact Or.inr ⟨r, List.mem_cons_self _ _, by rw [h2], Or.inr (by rw [h2])⟩
          · exact Or.inl h2
      · exact Or.inr ⟨r2, List.mem_cons_of_mem _ hr2, he⟩

/-- Live device rows never write an apps entry under the device key. -/
theorem foldGather_device_key (s : DBState) :
    ∀ (rows : List AppRow) (acc : ApplicationPoliciesSection),
      (∀ r ∈ rows, r.app_id = kDeviceId → IsApplicationRevoked s r.app_id = false) →
      alookup kDeviceId (rows.foldl (gatherRowStep s) acc).apps =
        alookup kDeviceId acc.apps := by
  intro rows
  induction rows with
  | nil => intro acc _; rfl
  | cons r rest ih =>
      intro acc h
      rw [List.foldl_cons, ih _ (fun x hx => h x (List.mem_cons_of_mem _ hx))]
      unfold gatherRowStep
      split_ifs with hrev hdvc
      · have hne : r.app_id ≠ kDeviceId := by
          intro he
          rw [h r (List.mem_cons_self _ _) he] at hrev
          exact Bool.noConfusion hrev
        exact alookup_aupdate_ne _ _ _ _ hne
      · rfl
      · exact alookup_aupdate_ne _ _ _ _ hdvc

/-- The gathered apps map never holds a predefined string value. -/
theorem gatherPol_no_str (s : DBState) :
    ∀ kv ∈ (gatherPol s).apps, ∀ str, kv.2 ≠ .str str := by
  intro kv h str he
  rcases foldGather_values s s.application _ kv h with h1 | ⟨_, _, _, h2 | h2⟩
  · exact absurd h1 (List.not_mem_nil kv)
  · rw [he] at h2
    exact AppPolicyValue.noConfusion h2
  · rw [he] at h2
    exact AppPolicyValue.noConfusion h2

/-- A gathered nickname is a stored row. -/
theorem nickName_mem (s : DBState) (k n : String) (h : n ∈ GatherNickName s k) :
    (k, n) ∈ s.nickname := by
  unfold GatherNickName at h
  obtain ⟨pr, hpr, he⟩ := List.mem_map.mp h
  obtain ⟨hmem, hfst⟩ := List.mem_filter.mp hpr
  simp only [decide_eq_true_eq] at hfst
  have : (k, n) = pr := by
    rw [← hfst, ← he]
  rw [this]
  exact hmem

/-- A gathered app type's canonical token is a stored row. -/
theorem appType_mem (s : DBState)
    (hT : ∀ r ∈ s.app_type, (AppHMIType.fromJsonString r.2).isSome = true)
    (k : String) (ty : AppHMIType) (h : ty ∈ (GatherAppType s k).getD []) :
    (k, AppHMIType.toJsonString ty) ∈ s.app_type := by
  obtain ⟨ts, hts⟩ := Option.isSome_iff_exists.mp (gatherAppType_isSome s hT k)
  rw [hts] at h
  obtain ⟨x, hx, hfx⟩ := optionMapM_mem _ _ ts hts ty h
  obtain ⟨hmem, hfst⟩ := List.mem_filter.mp hx
  simp only [decide_eq_true_eq] at hfst
  have : (k, AppHMIType.toJsonString ty) = x := by
    rw [← hfst, AppHMIType.appty_to_from hfx]
  rw [this]
  exact hmem

/-- Every nickname held by the gathered section is stored. -/
theorem gatherPol_nick_mem (s : DBState) :
    ∀ a ∈ (gatherPol s).apps, ∀ n ∈ a.2.getParams.nicknames, (a.1, n) ∈ s.nickname := by
  intro a ha n hn
  rcases foldGather_values s s.application _ a ha with h1 | ⟨r, _, hk, h2 | h2⟩
  · exact absurd h1 (List.not_mem_nil a)
  · rw [h2] at hn
    exact absurd hn (List.not_mem_nil n)
  · rw [h2] at hn
    rw [hk]
    exact nickName_mem s r.app_id n hn

/-- Every app-type token held by the gathered section is stored. -/
theorem gatherPol_type_mem (s : DBState)
    (hT : ∀ r ∈ s.app_type, (AppHMIType.fromJsonString r.2).isSome = true) :
    ∀ a ∈ (gatherPol s).apps, ∀ ty ∈ a.2.getParams.appHMIType,
      (a.1, AppHMIType.toJsonString ty) ∈ s.app_type := by
  intro a ha ty hty
  rcases foldGather_values s s.application _ a ha with h1 | ⟨r, _, hk, h2 | h2⟩
  · exact absurd h1 (List.not_mem_nil a)
  · rw [h2] at hty
    exact absurd hty (List.not_mem_nil ty)
  · rw [h2] at hty
    rw [hk]
    exact appType_mem s hT r.app_id ty hty

/-- Every gathered app-group name resolves to a stored group row. -/
theorem gatherAppGroup_sub (s : DBState) (k : String) :
    ∀ n ∈ GatherAppGroup s k, ∃ g0 ∈ s.functional_group, g0.name = n := by
  intro n hn
  unfold GatherAppGroup at hn
  obtain ⟨pr, _, hfind⟩ := List.mem_filterMap.mp hn
  obtain ⟨g0, hg0, he⟩ := Option.map_eq_some'.mp hfind
  exact ⟨g0, List.mem_of_find?_eq_some hg0, he⟩

/-- The application table after a successful Save, named form. -/
theorem finalState_savedAppRows (T : Table) (s : DBState) :
    (finalState T s).application = savedAppRows T.app_policies_section :=
  finalState_application T s

/-- Ids of an optional predefined app's row. -/
theorem optRows_ids_mem {k0 : String} {o : Option AppPolicyValue} {k : String}
    (h : k ∈ (optRows k0 o).map (fun r => r.app_id)) : k = k0 := by
  cases o with
  | none => exact absurd h (List.not_mem_nil k)
  | some v =>
      simp only [optRows, List.map_cons, List.map_nil, List.mem_singleton] at h
      exact h

/-- The id list of an optional predefined app's row is duplicate-free. -/
theorem optRows_ids_nodup {k0 : String} {o : Option AppPolicyValue} :
    ((optRows k0 o).map (fun r => r.app_id)).Nodup := by
  cases o <;> simp [optRows]

/-- Ids of the saved application rows. -/
theorem savedAppRows_ids (pol : ApplicationPoliciesSection) :
    (savedAppRows pol).map (fun r => r.app_id) =
      (optRows kDefaultId (alookup kDefaultId pol.apps)).map (fun r => r.app_id) ++
      (optRows kPreDataConsentId (alookup kPreDataConsentId pol.apps)).map
        (fun r => r.app_id) ++
      [kDeviceId] ++
      (pol.apps.filter (fun a => ! IsPredefinedApp a.1)).map Prod.fst := by
  unfold savedAppRows
  rw [List.map_append, List.map_append, List.map_append, List.map_map]
  rfl

/-- The saved application rows carry duplicate-free ids. -/
theorem savedAppRows_ids_nodup (pol : ApplicationPoliciesSection)
    (hnd : (pol.apps.map Prod.fst).Nodup) :
    ((savedAppRows pol).map (fun r => r.app_id)).Nodup := by
  rw [savedAppRows_ids]
  have hC_nd : ((pol.apps.filter (fun a => ! IsPredefinedApp a.1)).map Prod.fst).Nodup :=
    List.Nodup.sublist ((List.filter_sublist _).map Prod.fst) hnd
  have hC_np : ∀ k ∈ (pol.apps.filter (fun a => ! IsPredefinedApp a.1)).map Prod.fst,
      ¬ IsPredefinedApp k = true := by
    intro k hk
    obtain ⟨a, ha, he⟩ := List.mem_map.mp hk
    obtain ⟨_, hpred⟩ := List.mem_filter.mp ha
    rw [← he]
    simpa using hpred
  rw [List.nodup_append]
  refine ⟨?_, hC_nd, ?_⟩
  · rw [List.nodup_append]
    refine ⟨?_, List.nodup_singleton _, ?_⟩
    · rw [List.nodup_append]
      refine ⟨optRows_ids_nodup, optRows_ids_nodup, ?_⟩
      intro k hk1 hk2
      have h1 := optRows_ids_mem hk1
      have h2 := optRows_ids_mem hk2
      rw [h1] at h2
      exact (by decide : ¬ kDefaultId = kPreDataConsentId) h2
    · intro k hk hk2
      rw [List.mem_singleton] at hk2
      rcases List.mem_append.mp hk with h1 | h1
      · rw [optRows_ids_mem h1] at hk2
        exact (by decide : ¬ kDefaultId = kDeviceId) hk2
      · rw [optRows_ids_mem h1] at hk2
        exact (by decide : ¬ kPreDataConsentId = kDeviceId) hk2
  · intro k hk hkC
    have hnp := hC_np k hkC
    rcases List.mem_append.mp hk with h1 | h1
    · rcases List.mem_append.mp h1 with h2 | h2
      · rw [optRows_ids_mem h2] at hnp
        exact hnp (by decide)
      · rw [optRows_ids_mem h2] at hnp
        exact hnp (by decide)
    · rw [List.mem_singleton.mp h1] at hnp
      exact hnp (by decide)

/-- A looked-up non-device app's saved row is among the saved rows. -/
theorem savedAppRows_mem (pol : ApplicationPoliciesSection) (k : String)
    (v : AppPolicyValue) (halo : alookup k pol.apps = some v) (hk : ¬ k = kDeviceId) :
    appRowOf (k, v) ∈ savedAppRows pol := by
  unfold savedAppRows
  by_cases hd : k = kDefaultId
  · subst hd
    rw [halo]
    simp [optRows]
  · by_cases hp : k = kPreDataConsentId
    · subst hp
      rw [halo]
      simp [optRows]
    · have hmem : (k, v) ∈ pol.apps.filter (fun a => ! IsPredefinedApp a.1) := by
        rw [List.mem_filter]
        refine ⟨mem_of_alookup _ _ _ halo, ?_⟩
        simp [IsPredefinedApp, hd, hp, hk]
      exact List.mem_append_right _ (List.mem_map_of_mem appRowOf hmem)

/-- The device row is among the saved rows. -/
theorem savedAppRows_device_mem (pol : ApplicationPoliciesSection) :
    deviceRowOf pol.device ∈ savedAppRows pol := by
  unfold savedAppRows
  exact List.mem_append_left _ (List.mem_append_right _ (List.mem_singleton.mpr rfl))

/-- Membership facts of an optional predefined app row list. -/
theorem optRows_mem {k0 : String} {o : Option AppPolicyValue} {r : AppRow}
    (h : r ∈ optRows k0 o) : r.app_id = k0 ∧ ∃ v, o = some v ∧ r = appRowOf (k0, v) := by
  cases o with
  | none => exact absurd h (List.not_mem_nil r)
  | some v =>
      rw [show optRows k0 (some v) = [appRowOf (k0, v)] from rfl,
        List.mem_singleton] at h
      rw [h]
      exact ⟨rfl, v, rfl, rfl⟩

/-- No saved row carries an absent non-device key. -/
theorem savedAppRows_no_key (pol : ApplicationPoliciesSection) (k : String)
    (halo : alookup k pol.apps = none) (hk : ¬ k = kDeviceId) :
    ∀ r ∈ savedAppRows pol, r.app_id ≠ k := by
  intro r hr he
  unfold savedAppRows at hr
  rcases List.mem_append.mp hr with h1 | h1
  · rcases List.mem_append.mp h1 with h2 | h2
    · rcases List.mem_append.mp h2 with h3 | h3
      · obtain ⟨hid, v, ho, _⟩ := optRows_mem h3
        rw [he] at hid
        rw [hid] at halo
        rw [halo] at ho
        exact Option.noConfusion ho
      · obtain ⟨hid, v, ho, _⟩ := optRows_mem h3
        rw [he] at hid
        rw [hid] at halo
        rw [halo] at ho
        exact Option.noConfusion ho
    · rw [List.mem_singleton.mp h2] at he
      exact hk he.symm
  · obtain ⟨a, ha, hra⟩ := List.mem_map.mp h1
    obtain ⟨hmem, _⟩ := List.mem_filter.mp ha
    have haid : a.1 = k := by
      rw [← he, ← hra]
      rfl
    have hkk : k ∈ pol.apps.map Prod.fst := haid ▸ List.mem_map_of_mem Prod.fst hmem
    exact (alookup_eq_none_iff k pol.apps).mp halo hkk

/-- Lookup of a saved non-device app's row. -/
theorem savedAppRows_find (pol : ApplicationPoliciesSection) (k : String)
    (v : AppPolicyValue) (hnd : (pol.apps.map Prod.fst).Nodup)
    (halo : alookup k pol.apps = some v) (hk : ¬ k = kDeviceId) :
    (savedAppRows pol).find? (fun r => r.app_id = k) = some (appRowOf (k, v)) :=
  find?_of_key_nodup (fun r : AppRow => r.app_id) (savedAppRows pol) (appRowOf (k, v))
    (savedAppRows_ids_nodup pol hnd) (savedAppRows_mem pol k v halo hk)

/-- Lookup of the saved device row. -/
theorem savedAppRows_find_device (pol : ApplicationPoliciesSection)
    (hnd : (pol.apps.map Prod.fst).Nodup) :
    (savedAppRows pol).find? (fun r => r.app_id = kDeviceId) =
      some (deviceRowOf pol.device) :=
  find?_of_key_nodup (fun r : AppRow => r.app_id) (savedAppRows pol)
    (deviceRowOf pol.device) (savedAppRows_ids_nodup pol hnd)
    (savedAppRows_device_mem pol)

/-- Lookup of an absent non-device key among the saved rows. -/
theorem savedAppRows_find_none (pol : ApplicationPoliciesSection) (k : String)
    (halo : alookup k pol.apps = none) (hk : ¬ k = kDeviceId) :
    (savedAppRows pol).find? (fun r => r.app_id = k) = none :=
  find?_of_key_not_mem (fun r : AppRow => r.app_id) (savedAppRows pol) k
    (savedAppRows_no_key pol k halo hk)

/-- Every request-type row a Save writes carries a canonical token. -/
theorem optRequestRows_mem {k0 : String} {o : Option AppPolicyValue}
    {pr : String × String} (h : pr ∈ optRequestRows k0 o) :
    ∃ ty : RequestType, pr.2 = RequestType.toJsonString ty := by
  cases o with
  | none => exact absurd h (List.not_mem_nil pr)
  | some v =>
      obtain ⟨ty, _, he⟩ := List.mem_map.mp h
      exact ⟨ty, by rw [← he]⟩

/-- Every request-type row of the saved state carries a canonical token. -/
theorem finalState_request_tokens (T : Table) (s : DBState) :
    ∀ pr ∈ (finalState T s).request_type,
      ∃ ty : RequestType, pr.2 = RequestType.toJsonString ty := by
  intro pr hpr
  rw [finalState_request_type] at hpr
  rcases List.mem_append.mp hpr with h1 | h1
  · rcases List.mem_append.mp h1 with h2 | h2
    · exact optRequestRows_mem h2
    · exact optRequestRows_mem h2
  · obtain ⟨a, _, ha⟩ := List.mem_flatMap.mp h1
    obtain ⟨ty, _, he⟩ := List.mem_map.mp ha
    exact ⟨ty, by rw [← he]⟩

/-- Filtering on a first component every pair carries is the identity. -/
theorem filter_fst_all {β : Type} (k : String) (l : List (String × β))
    (h : ∀ pr ∈ l, pr.1 = k) : l.filter (fun pr => pr.1 = k) = l :=
  List.filter_eq_self.mpr (fun pr hpr => by simp [h pr hpr])

/-- Filtering on a first component no pair carries is empty. -/
theorem filter_fst_none {β : Type} (k : String) (l : List (String × β))
    (h : ∀ pr ∈ l, pr.1 ≠ k) : l.filter (fun pr => pr.1 = k) = [] := by
  rw [List.filter_eq_nil_iff]
  intro pr hpr
  simp [h pr hpr]

/-- Every resolved app-group pair carries the application id. -/
theorem resolveGroups_fst (fg : List GroupRow) (a : String) (gs : List String) :
    ∀ pr ∈ resolveGroups fg a gs, pr.1 = a := by
  intro pr hpr
  obtain ⟨n, _, hn⟩ := List.mem_filterMap.mp hpr
  obtain ⟨g, _, he⟩ := Option.map_eq_some'.mp hn
  rw [← he]

/-- Every optional predefined app-group pair carries the predefined id. -/
theorem optGroupRows_fst {fg : List GroupRow} {k0 : String} {o : Option AppPolicyValue} :
    ∀ pr ∈ optGroupRows fg k0 o, pr.1 = k0 := by
  intro pr hpr
  cases o with
  | none => exact absurd hpr (List.not_mem_nil pr)
  | some v => exact resolveGroups_fst fg k0 _ pr hpr

/-- Every optional predefined request-type pair carries the predefined id. -/
theorem optRequestRows_fst {k0 : String} {o : Option AppPolicyValue} :
    ∀ pr ∈ optRequestRows k0 o, pr.1 = k0 := by
  intro pr hpr
  cases o with
  | none => exact absurd hpr (List.not_mem_nil pr)
  | some v =>
      obtain ⟨ty, _, he⟩ := List.mem_map.mp hpr
      rw [← he]

/-- Filtering a keyed flatMap on one key picks that key's block. -/
theorem filter_fst_flatMap_single {β γ : Type}
    (F : String × γ → List (String × β))
    (hF : ∀ a pr, pr ∈ F a → pr.1 = a.1) (k : String) :
    ∀ l : List (String × γ), (l.map Prod.fst).Nodup →
      ((l.flatMap F).filter (fun pr => pr.1 = k)) =
        (match l.find? (fun a => a.1 = k) with
         | some a => F a
         | none => []) := by
  intro l
  induction l with
  | nil => intro _; rfl
  | cons a rest ih =>
      intro hnd
      rw [List.map_cons, List.nodup_cons] at hnd
      rw [List.flatMap_cons, List.filter_append, ih hnd.2]
      by_cases hak : a.1 = k
      · have hfind : rest.find? (fun x => x.1 = k) = none := by
          apply find?_of_key_not_mem (fun x : String × γ => x.1) rest k
          intro x hx hxk
          apply hnd.1
          rw [hak]
          exact hxk ▸ List.mem_map_of_mem Prod.fst hx
        rw [hfind, List.find?_cons_of_pos _ (by simp [hak])]
        simp [filter_fst_all k (F a) (fun pr hpr => (hF a pr hpr).trans hak)]
      · rw [List.find?_cons_of_neg _ (by simp [hak]),
          filter_fst_none k (F a) (fun pr hpr => by rw [hF a pr hpr]; exact hak),
          List.nil_append]

/-- Gathered apps keys are duplicate-free. -/
theorem gatherPol_keys_nodup (s : DBState) :
    ((gatherPol s).apps.map Prod.fst).Nodup :=
  foldGather_keys_nodup s s.application _ (by simp)

/-- Keys of the non-predefined filter of a map stay duplicate-free. -/
theorem filtered_keys_nodup (apps : AList AppPolicyValue)
    (hnd : (apps.map Prod.fst).Nodup) :
    ((apps.filter (fun a => ! IsPredefinedApp a.1)).map Prod.fst).Nodup :=
  List.Nodup.sublist ((List.filter_sublist _).map Prod.fst) hnd

/-- The app-group rows of the saved state filtered to one stored app. -/
theorem finalState_appGroup_filter (T : Table) (s : DBState) (k : String)
    (v : AppPolicyValue)
    (hnd : (T.app_policies_section.apps.map Prod.fst).Nodup)
    (halo : alookup k T.app_policies_section.apps = some v) (hk : ¬ k = kDeviceId) :
    (finalState T s).app_group.filter (fun pr => pr.1 = k) =
      resolveGroups (fgRowsOf T.functional_groupings) k v.getParams.groups := by
  rw [finalState_app_group, List.filter_append, List.filter_append,
    filter_fst_flatMap_single
      (fun a => resolveGroups (fgRowsOf T.functional_groupings) a.1 a.2.getParams.groups)
      (fun a pr hpr => resolveGroups_fst _ a.1 _ pr hpr) k _
      (filtered_keys_nodup _ hnd)]
  by_cases hd : k = kDefaultId
  · subst hd
    rw [halo,
      filter_fst_all kDefaultId _
        (fun pr hpr => optGroupRows_fst pr hpr),
      filter_fst_none kDefaultId _
        (fun pr hpr => by
          rw [optGroupRows_fst pr hpr]
          decide),
      find?_of_key_not_mem (fun a : String × AppPolicyValue => a.1) _ kDefaultId ?_]
    · simp [optGroupRows]
    · intro a ha hak
      obtain ⟨_, hpred⟩ := List.mem_filter.mp ha
      have hak2 : a.1 = kDefaultId := hak
      rw [hak2] at hpred
      simp [IsPredefinedApp] at hpred
  · by_cases hp : k = kPreDataConsentId
    · subst hp
      rw [halo,
        filter_fst_none kPreDataConsentId _
          (fun pr hpr => by
            rw [optGroupRows_fst pr hpr]
            decide),
        filter_fst_all kPreDataConsentId _
          (fun pr hpr => optGroupRows_fst pr hpr),
        find?_of_key_not_mem (fun a : String × AppPolicyValue => a.1) _ kPreDataConsentId ?_]
      · simp [optGroupRows]
      · intro a ha hak
        obtain ⟨_, hpred⟩ := List.mem_filter.mp ha
        have hak2 : a.1 = kPreDataConsentId := hak
        rw [hak2] at hpred
        simp [IsPredefinedApp] at hpred
    · have hmem : (k, v) ∈ T.app_policies_section.apps.filter
          (fun a => ! IsPredefinedApp a.1) := by
        rw [List.mem_filter]
        refine ⟨mem_of_alookup _ _ _ halo, ?_⟩
        simp [IsPredefinedApp, hd, hp, hk]
      rw [filter_fst_none k _
          (fun pr hpr => by
            rw [optGroupRows_fst pr hpr]
            exact fun he => hd he.symm),
        filter_fst_none k _
          (fun pr hpr => by
            rw [optGroupRows_fst pr hpr]
            exact fun he => hp he.symm),
        find?_of_key_nodup (fun a : String × AppPolicyValue => a.1) _ (k, v)
          (filtered_keys_nodup _ hnd) hmem]
      simp

/-- The request-type rows of the saved state filtered to one stored app. -/
theorem finalState_requestType_filter (T : Table) (s : DBState) (k : String)
    (v : AppPolicyValue)
    (hnd : (T.app_policies_section.apps.map Prod.fst).Nodup)
    (halo : alookup k T.app_policies_section.apps = some v) (hk : ¬ k = kDeviceId) :
    (finalState T s).request_type.filter (fun pr => pr.1 = k) =
      v.getParams.requestType.map (fun ty => (k, RequestType.toJsonString ty)) := by
  rw [finalState_request_type, List.filter_append, List.filter_append,
    filter_fst_flatMap_single
      (fun a => a.2.getParams.requestType.map (fun ty => (a.1, RequestType.toJsonString ty)))
      (fun a pr hpr => by
        obtain ⟨ty, _, he⟩ := List.mem_map.mp hpr
        rw [← he]) k _
      (filtered_keys_nodup _ hnd)]
  by_cases hd : k = kDefaultId
  · subst hd
    rw [halo,
      filter_fst_all kDefaultId _
        (fun pr hpr => optRequestRows_fst pr hpr),
      filter_fst_none kDefaultId _
        (fun pr hpr => by
          rw [optRequestRows_fst pr hpr]
          decide),
      find?_of_key_not_mem (fun a : String × AppPolicyValue => a.1) _ kDefaultId ?_]
    · simp [optRequestRows]
    · intro a ha hak
      obtain ⟨_, hpred⟩ := List.mem_filter.mp ha
      have hak2 : a.1 = kDefaultId := hak
      rw [hak2] at hpred
      simp [IsPredefinedApp] at hpred
  · by_cases hp : k = kPreDataConsentId
    · subst hp
      rw [halo,
        filter_fst_none kPreDataConsentId _
          (fun pr hpr => by
            rw [optRequestRows_fst pr hpr]
            decide),
        filter_fst_all kPreDataConsentId _
          (fun pr hpr => optRequestRows_fst pr hpr),
        find?_of_key_not_mem (fun a : String × AppPolicyValue => a.1) _ kPreDataConsentId ?_]
      · simp [optRequestRows]
      · intro a ha hak
        obtain ⟨_, hpred⟩ := List.mem_filter.mp ha
        have hak2 : a.1 = kPreDataConsentId := hak
        rw [hak2] at hpred
        simp [IsPredefinedApp] at hpred
    · have hmem : (k, v) ∈ T.app_policies_section.apps.filter
          (fun a => ! IsPredefinedApp a.1) := by
        rw [List.mem_filter]
        refine ⟨mem_of_alookup _ _ _ halo, ?_⟩
        simp [IsPredefinedApp, hd, hp, hk]
      rw [filter_fst_none k _
          (fun pr hpr => by
            rw [optRequestRows_fst pr hpr]
            exact fun he => hd he.symm),
        filter_fst_none k _
          (fun pr hpr => by
            rw [optRequestRows_fst pr hpr]
            exact fun he => hp he.symm),
        find?_of_key_nodup (fun a : String × AppPolicyValue => a.1) _ (k, v)
          (filtered_keys_nodup _ hnd) hmem]
      simp

/-- Resolving names to stored ids and back is the identity under unique and
hash-distinct group names. -/
theorem resolve_unresolve (G : AList Rpcs)
    (hGnd : (G.map Prod.fst).Nodup)
    (hGinj : ∀ k1 ∈ G.map Prod.fst, ∀ k2 ∈ G.map Prod.fst,
      GroupId k1 = GroupId k2 → k1 = k2)
    (k : String) :
    ∀ gs : List String, (∀ n ∈ gs, n ∈ G.map Prod.fst) →
      (resolveGroups (fgRowsOf G) k gs).filterMap
        (fun r => ((fgRowsOf G).find? (fun g => g.id = r.2)).map (fun g => g.name)) = gs := by
  have hids_nd : ((fgRowsOf G).map (fun g => g.id)).Nodup := by
    have h1 : (fgRowsOf G).map (fun g => g.id) = (G.map Prod.fst).map GroupId := by
      unfold fgRowsOf
      rw [List.map_map, List.map_map]
      rfl
    rw [h1]
    exact List.Nodup.map_on (fun x hx y hy hxy => hGinj x hx y hy hxy) hGnd
  have hnames_nd : ((fgRowsOf G).map (fun g => g.name)).Nodup := by
    rw [fgRowsOf_names]
    exact hGnd
  intro gs
  induction gs with
  | nil => intro _; rfl
  | cons n rest ih =>
      intro h
      obtain ⟨kv, hkv, hkvn⟩ := List.mem_map.mp (h n (List.mem_cons_self _ _))
      subst hkvn
      have hrow_mem : ({ id := GroupId kv.1
                         name := kv.1
                         user_consent_prompt := kv.2.user_consent_prompt } : GroupRow) ∈
          fgRowsOf G :=
        List.mem_map_of_mem _ hkv
      have hfind_name : (fgRowsOf G).find? (fun g => g.name = kv.1) =
          some ({ id := GroupId kv.1
                  name := kv.1
                  user_consent_prompt := kv.2.user_consent_prompt } : GroupRow) :=
        find?_of_key_nodup (fun g : GroupRow => g.name) (fgRowsOf G) _ hnames_nd hrow_mem
      have hfind_id : (fgRowsOf G).find? (fun g => g.id = GroupId kv.1) =
          some ({ id := GroupId kv.1
                  name := kv.1
                  user_consent_prompt := kv.2.user_consent_prompt } : GroupRow) :=
        find?_of_key_nodup (fun g : GroupRow => g.id) (fgRowsOf G) _ hids_nd hrow_mem
      rw [show resolveGroups (fgRowsOf G) k (kv.1 :: rest) =
          (k, GroupId kv.1) :: resolveGroups (fgRowsOf G) k rest from by
            unfold resolveGroups
            rw [List.filterMap_cons, hfind_name]
            rfl,
        List.filterMap_cons]
      rw [show ((fgRowsOf G).find? (fun g => g.id = (k, GroupId kv.1).2)).map
            (fun g => g.name) = some kv.1 from by rw [hfind_id]; rfl]
      rw [ih (fun x hx => h x (List.mem_cons_of_mem _ hx))]

/-- Writing a priority token and reading it back is the identity. -/
theorem priorityFromToken_toJson (x : Priority) :
    priorityFromToken (some (Priority.toJsonString x)) = x := by
  unfold priorityFromToken getStringOpt
  simp [Priority.prio_from_to]

/-- GatherNickName depends only on the nickname table. -/
theorem gatherNickName_congr (s1 s2 : DBState) (h : s1.nickname = s2.nickname)
    (k : String) : GatherNickName s1 k = GatherNickName s2 k := by
  unfold GatherNickName
  rw [h]

/-- GatherAppType depends only on the app_type table. -/
theorem gatherAppType_congr (s1 s2 : DBState) (h : s1.app_type = s2.app_type)
    (k : String) : GatherAppType s1 k = GatherAppType s2 k := by
  unfold GatherAppType
  rw [h]

/-- Every gathered app-group name is a gathered groupings key. -/
theorem gatherAppGroup_in_G (s : DBState) (k : String) :
    ∀ n ∈ GatherAppGroup s k, n ∈ (GatherFunctionalGroupings s).map Prod.fst := by
  intro n hn
  obtain ⟨g0, hg0, he⟩ := gatherAppGroup_sub s k n hn
  exact he ▸ GatherFunctionalGroupings_mem_name s g0 hg0

/-- The saved state's app groups gather back to the stored value's groups. -/
theorem gatherAppGroup_final (s : DBState)
    (hTt : ∀ r2 ∈ s.app_type, (AppHMIType.fromJsonString r2.2).isSome = true)
    (hRt : ∀ r2 ∈ s.request_type, (RequestType.fromJsonString r2.2).isSome = true)
    (hdev : IsDefaultPolicy s kDeviceId = false)
    (hGinj : ∀ k1 ∈ (GatherFunctionalGroupings s).map Prod.fst,
      ∀ k2 ∈ (GatherFunctionalGroupings s).map Prod.fst, GroupId k1 = GroupId k2 → k1 = k2)
    (k : String) (v : AppPolicyValue)
    (halo : alookup k (gatherPol s).apps = some v) (hk : ¬ k = kDeviceId)
    (hsubG : ∀ n ∈ v.getParams.groups, n ∈ (GatherFunctionalGroupings s).map Prod.fst) :
    GatherAppGroup (finalState (GenerateSnapshot s) s) k = v.getParams.groups := by
  have hnd : ((GenerateSnapshot s).app_policies_section.apps.map Prod.fst).Nodup := by
    rw [snapshot_app_section s hTt hRt hdev]
    exact gatherPol_keys_nodup s
  have halo2 : alookup k (GenerateSnapshot s).app_policies_section.apps = some v := by
    rw [snapshot_app_section s hTt hRt hdev]
    exact halo
  unfold GatherAppGroup
  rw [finalState_appGroup_filter (GenerateSnapshot s) s k v hnd halo2 hk,
    finalState_functional_group]
  exact resolve_unresolve (GatherFunctionalGroupings s)
    (GatherFunctionalGroupings_keys_nodup s) hGinj k v.getParams.groups hsubG

/-- The saved state's request types gather back to the stored value's
request types. -/
theorem gatherRequestType_final (s : DBState)
    (hTt : ∀ r2 ∈ s.app_type, (AppHMIType.fromJsonString r2.2).isSome = true)
    (hRt : ∀ r2 ∈ s.request_type, (RequestType.fromJsonString r2.2).isSome = true)
    (hdev : IsDefaultPolicy s kDeviceId = false)
    (k : String) (v : AppPolicyValue)
    (halo : alookup k (gatherPol s).apps = some v) (hk : ¬ k = kDeviceId) :
    GatherRequestType (finalState (GenerateSnapshot s) s) k =
      some v.getParams.requestType := by
  have hnd : ((GenerateSnapshot s).app_policies_section.apps.map Prod.fst).Nodup := by
    rw [snapshot_app_section s hTt hRt hdev]
    exact gatherPol_keys_nodup s
  have halo2 : alookup k (GenerateSnapshot s).app_policies_section.apps = some v := by
    rw [snapshot_app_section s hTt hRt hdev]
    exact halo
  unfold GatherRequestType
  rw [finalState_requestType_filter (GenerateSnapshot s) s k v hnd halo2 hk]
  exact optionMapM_map_section (fun r => RequestType.fromJsonString r.2)
    (fun ty => (k, RequestType.toJsonString ty)) (fun ty => RequestType.reqty_from_to ty)
    v.getParams.requestType

/-- The structured parameters of a stored non-device app survive the save /
re-gather round trip. -/
theorem gatherRowParams_roundtrip (s : DBState)
    (hTt : ∀ r2 ∈ s.app_type, (AppHMIType.fromJsonString r2.2).isSome = true)
    (hRt : ∀ r2 ∈ s.request_type, (RequestType.fromJsonString r2.2).isSome = true)
    (hdev : IsDefaultPolicy s kDeviceId = false)
    (hheart : ∀ r2 ∈ s.application, r2.heart_beat_timeout_ms.isSome = true)
    (hGinj : ∀ k1 ∈ (GatherFunctionalGroupings s).map Prod.fst,
      ∀ k2 ∈ (GatherFunctionalGroupings s).map Prod.fst, GroupId k1 = GroupId k2 → k1 = k2)
    (hnickf : (finalState (GenerateSnapshot s) s).nickname = s.nickname)
    (happf : (finalState (GenerateSnapshot s) s).app_type = s.app_type)
    (k : String) (r : AppRow) (hr : r ∈ s.application) (hkr : k = r.app_id)
    (hk : ¬ k = kDeviceId)
    (halo : alookup k (gatherPol s).apps = some (.params (gatherRowParams s r))) :
    gatherRowParams (finalState (GenerateSnapshot s) s)
      (appRowOf (k, .params (gatherRowParams s r))) = gatherRowParams s r := by
  have hsubG : ∀ n ∈ (AppPolicyValue.params (gatherRowParams s r)).getParams.groups,
      n ∈ (GatherFunctionalGroupings s).map Prod.fst := by
    intro n hn
    exact gatherAppGroup_in_G s r.app_id n hn
  have hgroups := gatherAppGroup_final s hTt hRt hdev hGinj k _ halo hk hsubG
  have hreq := gatherRequestType_final s hTt hRt hdev k _ halo hk
  have hcert : (gatherRowParams s r).certificate = some (getStringOpt r.certificate) := by
    unfold gatherRowParams
    rw [if_pos (hheart r hr)]
  show ({ priority :=
            priorityFromToken (some (Priority.toJsonString (gatherRowParams s r).priority))
          memory_kb := getIntegerOpt (some (gatherRowParams s r).memory_kb)
          heart_beat_timeout_ms :=
            getIntegerOpt (some (gatherRowParams s r).heart_beat_timeout_ms)
          certificate :=
            if (some (gatherRowParams s r).heart_beat_timeout_ms).isSome then
              some (getStringOpt (gatherRowParams s r).certificate)
            else none
          groups := GatherAppGroup (finalState (GenerateSnapshot s) s) k
          nicknames := GatherNickName (finalState (GenerateSnapshot s) s) k
          appHMIType := (GatherAppType (finalState (GenerateSnapshot s) s) k).getD []
          requestType :=
            (GatherRequestType (finalState (GenerateSnapshot s) s) k).getD [] } :
        ApplicationParams) = gatherRowParams s r
  rw [priorityFromToken_toJson, hgroups,
    gatherNickName_congr _ s hnickf k, gatherAppType_congr _ s happf k, hreq,
    show (if (some (gatherRowParams s r).heart_beat_timeout_ms).isSome then
        some (getStringOpt (gatherRowParams s r).certificate) else none) =
      some (getStringOpt (gatherRowParams s r).certificate) from if_pos rfl,
    show some (getStringOpt (gatherRowParams s r).certificate) =
      (gatherRowParams s r).certificate from by rw [hcert]; rfl,
    hkr]
  rfl

/-- Injectivity of the group hash transfers to the gathered keys. -/
theorem GFG_inj (s : DBState)
    (hinj : ∀ g1 ∈ s.functional_group, ∀ g2 ∈ s.functional_group,
      GroupId g1.name = GroupId g2.name → g1.name = g2.name) :
    ∀ k1 ∈ (GatherFunctionalGroupings s).map Prod.fst,
      ∀ k2 ∈ (GatherFunctionalGroupings s).map Prod.fst,
      GroupId k1 = GroupId k2 → k1 = k2 := by
  intro k1 hk1 k2 hk2 hEq
  obtain ⟨kv1, hkv1, he1⟩ := List.mem_map.mp hk1
  obtain ⟨kv2, hkv2, he2⟩ := List.mem_map.mp hk2
  obtain ⟨g1, hg1, hn1, _⟩ := GatherFunctionalGroupings_entries s kv1 hkv1
  obtain ⟨g2, hg2, hn2, _⟩ := GatherFunctionalGroupings_entries s kv2 hkv2
  subst he1
  subst he2
  rw [hn1, hn2] at hEq ⊢
  exact hinj g1 hg1 g2 hg2 hEq

/-- The nickname table survives the save of a well-formed snapshot. -/
theorem finalState_nickname_wf (s : DBState)
    (hTt : ∀ r2 ∈ s.app_type, (AppHMIType.fromJsonString r2.2).isSome = true)
    (hRt : ∀ r2 ∈ s.request_type, (RequestType.fromJsonString r2.2).isSome = true)
    (hdev : IsDefaultPolicy s kDeviceId = false) :
    (finalState (GenerateSnapshot s) s).nickname = s.nickname := by
  apply finalState_nickname
  rw [snapshot_app_section s hTt hRt hdev]
  exact gatherPol_nick_mem s

/-- The app-type table survives saving a well-formed snapshot. -/
theorem finalState_app_type_wf (s : DBState)
    (hTt : ∀ r2 ∈ s.app_type, (AppHMIType.fromJsonString r2.2).isSome = true)
    (hRt : ∀ r2 ∈ s.request_type, (RequestType.fromJsonString r2.2).isSome = true)
    (hdev : IsDefaultPolicy s kDeviceId = false) :
    (finalState (GenerateSnapshot s) s).app_type = s.app_type := by
  apply finalState_app_type
  rw [snapshot_app_section s hTt hRt hdev]
  exact gatherPol_type_mem s hTt

/-- The saved application table in terms of the gathered section. -/
theorem finalState_application_wf (s : DBState)
    (hTt : ∀ r2 ∈ s.app_type, (AppHMIType.fromJsonString r2.2).isSome = true)
    (hRt : ∀ r2 ∈ s.request_type, (RequestType.fromJsonString r2.2).isSome = true)
    (hdev : IsDefaultPolicy s kDeviceId = false) :
    (finalState (GenerateSnapshot s) s).application = savedAppRows (gatherPol s) := by
  rw [finalState_savedAppRows (GenerateSnapshot s) s, snapshot_app_section s hTt hRt hdev]

/-- The saved state never flags any application revoked unless the stored
value was null. -/
theorem finalState_isRevoked_dev (s : DBState)
    (hTt : ∀ r2 ∈ s.app_type, (AppHMIType.fromJsonString r2.2).isSome = true)
    (hRt : ∀ r2 ∈ s.request_type, (RequestType.fromJsonString r2.2).isSome = true)
    (hdev : IsDefaultPolicy s kDeviceId = false) :
    IsApplicationRevoked (finalState (GenerateSnapshot s) s) kDeviceId = false := by
  unfold IsApplicationRevoked
  rw [finalState_application_wf s hTt hRt hdev,
    savedAppRows_find_device (gatherPol s) (gatherPol_keys_nodup s)]
  rfl

/-- The saved state's device application is not flagged is_default. -/
theorem finalState_isDefault_dev (s : DBState)
    (hTt : ∀ r2 ∈ s.app_type, (AppHMIType.fromJsonString r2.2).isSome = true)
    (hRt : ∀ r2 ∈ s.request_type, (RequestType.fromJsonString r2.2).isSome = true)
    (hdev : IsDefaultPolicy s kDeviceId = false) :
    IsDefaultPolicy (finalState (GenerateSnapshot s) s) kDeviceId = false := by
  unfold IsDefaultPolicy
  rw [finalState_application_wf s hTt hRt hdev,
    savedAppRows_find_device (gatherPol s) (gatherPol_keys_nodup s)]
  rfl

/-- The apps maps before and after the round trip agree under every key. -/
theorem apps_roundtrip (s : DBState)
    (hTt : ∀ r2 ∈ s.app_type, (AppHMIType.fromJsonString r2.2).isSome = true)
    (hRt : ∀ r2 ∈ s.request_type, (RequestType.fromJsonString r2.2).isSome = true)
    (hdev : IsDefaultPolicy s kDeviceId = false)
    (hheart : ∀ r2 ∈ s.application, r2.heart_beat_timeout_ms.isSome = true)
    (hdevlive : IsApplicationRevoked s kDeviceId = false)
    (hinj : ∀ g1 ∈ s.functional_group, ∀ g2 ∈ s.functional_group,
      GroupId g1.name = GroupId g2.name → g1.name = g2.name) :
    ∀ a, alookup a (gatherPol (finalState (GenerateSnapshot s) s)).apps =
      alookup a (gatherPol s).apps := by
  have hrows := finalState_application_wf s hTt hRt hdev
  have hFnd : ((savedAppRows (gatherPol s)).map (fun r => r.app_id)).Nodup :=
    savedAppRows_ids_nodup (gatherPol s) (gatherPol_keys_nodup s)
  have hrevF_dev := finalState_isRevoked_dev s hTt hRt hdev
  have hrev_params : ∀ k p, alookup k (gatherPol s).apps = some (.params p) →
      ¬ k = kDeviceId →
      IsApplicationRevoked (finalState (GenerateSnapshot s) s) k = false := by
    intro k p halo hk
    unfold IsApplicationRevoked
    rw [hrows, savedAppRows_find (gatherPol s) k _ (gatherPol_keys_nodup s) halo hk]
    rfl
  have hrev_null : ∀ k, alookup k (gatherPol s).apps = some .null → ¬ k = kDeviceId →
      IsApplicationRevoked (finalState (GenerateSnapshot s) s) k = true := by
    intro k halo hk
    unfold IsApplicationRevoked
    rw [hrows, savedAppRows_find (gatherPol s) k _ (gatherPol_keys_nodup s) halo hk]
    rfl
  intro a
  by_cases ha_dev : a = kDeviceId
  · subst ha_dev
    have h1 : alookup kDeviceId (gatherPol s).apps = none := by
      have h := foldGather_device_key s s.application
        { apps := [], device := { priority := none } } ?_
      · exact h
      · intro r hrr he
        rw [he]
        exact hdevlive
    have h2 : alookup kDeviceId
        (gatherPol (finalState (GenerateSnapshot s) s)).apps = none := by
      show alookup kDeviceId ((finalState (GenerateSnapshot s) s).application.foldl
        (gatherRowStep (finalState (GenerateSnapshot s) s))
        { apps := [], device := { priority := none } }).apps = none
      rw [hrows]
      have h := foldGather_device_key (finalState (GenerateSnapshot s) s)
        (savedAppRows (gatherPol s)) { apps := [], device := { priority := none } } ?_
      · exact h
      · intro r hrr he
        rw [he]
        exact hrevF_dev
    rw [h1, h2]
  · cases halo : alookup a (gatherPol s).apps with
    | none =>
        have hnone : ∀ r ∈ savedAppRows (gatherPol s), r.app_id ≠ a :=
          savedAppRows_no_key (gatherPol s) a halo ha_dev
        show alookup a ((finalState (GenerateSnapshot s) s).application.foldl
          (gatherRowStep (finalState (GenerateSnapshot s) s))
          { apps := [], device := { priority := none } }).apps = none
        rw [hrows,
          foldGather_apps_untouched (finalState (GenerateSnapshot s) s)
            (savedAppRows (gatherPol s)) _ a hnone]
        rfl
    | some v =>
        rcases hv : v with _ | str | p
        · subst hv
          have hfind := foldGather_lookup_mem (finalState (GenerateSnapshot s) s)
            (savedAppRows (gatherPol s)) { apps := [], device := { priority := none } }
            (appRowOf (a, .null)) (savedAppRows_mem (gatherPol s) a .null halo ha_dev)
            hFnd
          have h2 := hfind.1 (hrev_null a halo ha_dev)
          show alookup a ((finalState (GenerateSnapshot s) s).application.foldl
            (gatherRowStep (finalState (GenerateSnapshot s) s))
            { apps := [], device := { priority := none } }).apps = some .null
          rw [hrows]
          exact h2
        · subst hv
          exact absurd rfl
            (gatherPol_no_str s (a, .str str) (mem_of_alookup _ _ _ halo) str)
        · subst hv
          rcases foldGather_values s s.application
            { apps := [], device := { priority := none } } (a, .params p)
            (mem_of_alookup _ _ _ halo) with h1 | ⟨r, hrr, hkr, hvv | hvv⟩
          · exact absurd h1 (List.not_mem_nil _)
          · exact AppPolicyValue.noConfusion hvv
          · have hpp : p = gatherRowParams s r := by
              injection hvv
            subst hpp
            have halo2 : alookup a (gatherPol s).apps =
                some (.params (gatherRowParams s r)) := halo
            have hroundtrip := gatherRowParams_roundtrip s hTt hRt hdev hheart
              (GFG_inj s hinj) (finalState_nickname_wf s hTt hRt hdev)
              (finalState_app_type_wf s hTt hRt hdev) a r hrr hkr ha_dev halo2
            have hfind := foldGather_lookup_mem (finalState (GenerateSnapshot s) s)
              (savedAppRows (gatherPol s)) { apps := [], device := { priority := none } }
              (appRowOf (a, .params (gatherRowParams s r)))
              (savedAppRows_mem (gatherPol s) a _ halo2 ha_dev) hFnd
            have h2 := hfind.2 (hrev_params a _ halo2 ha_dev) ha_dev
            show alookup a ((finalState (GenerateSnapshot s) s).application.foldl
              (gatherRowStep (finalState (GenerateSnapshot s) s))
              { apps := [], device := { priority := none } }).apps =
              some (.params (gatherRowParams s r))
            rw [hrows]
            exact h2.trans (by rw [hroundtrip])

/-- The device policy before and after the round trip agree. -/
theorem device_roundtrip (s : DBState)
    (hTt : ∀ r2 ∈ s.app_type, (AppHMIType.fromJsonString r2.2).isSome = true)
    (hRt : ∀ r2 ∈ s.request_type, (RequestType.fromJsonString r2.2).isSome = true)
    (hdev : IsDefaultPolicy s kDeviceId = false)
    (happids : (s.application.map (fun r => r.app_id)).Nodup)
    (hdevrow : ∃ d ∈ s.application, d.app_id = kDeviceId)
    (hdevlive : IsApplicationRevoked s kDeviceId = false) :
    (gatherPol (finalState (GenerateSnapshot s) s)).device = (gatherPol s).device := by
  obtain ⟨d0, hd0, hd0id⟩ := hdevrow
  have hrev0 : IsApplicationRevoked s d0.app_id = false := by
    rw [hd0id]
    exact hdevlive
  have hdval : (gatherPol s).device =
      { priority := some (priorityFromToken d0.priority) } :=
    foldGather_device_value s s.application
      { apps := [], device := { priority := none } } d0 hd0 happids hd0id hrev0
  have hrows := finalState_application_wf s hTt hRt hdev
  have hFval : (gatherPol (finalState (GenerateSnapshot s) s)).device =
      { priority := some (priorityFromToken
          (deviceRowOf (gatherPol s).device).priority) } := by
    show ((finalState (GenerateSnapshot s) s).application.foldl
      (gatherRowStep (finalState (GenerateSnapshot s) s))
      { apps := [], device := { priority := none } }).device = _
    rw [hrows]
    exact foldGather_device_value (finalState (GenerateSnapshot s) s)
      (savedAppRows (gatherPol s)) { apps := [], device := { priority := none } }
      (deviceRowOf (gatherPol s).device) (savedAppRows_device_mem (gatherPol s))
      (savedAppRows_ids_nodup (gatherPol s) (gatherPol_keys_nodup s)) rfl
      (finalState_isRevoked_dev s hTt hRt hdev)
  rw [hFval, hdval,
    show (deviceRowOf { priority := some (priorityFromToken d0.priority) } : AppRow).priority =
      some (Priority.toJsonString (priorityFromToken d0.priority)) from rfl,
    priorityFromToken_toJson]

/-! ## Assembling the round trip -/

/-- module_meta survives the round trip. -/
theorem module_meta_roundtrip (s : DBState) :
    GatherModuleMeta (finalState (GenerateSnapshot s) s) = GatherModuleMeta s := by
  have h := finalState_module_meta (GenerateSnapshot s) s
  cases hm : s.module_meta with
  | none =>
      rw [hm] at h
      simp only [Option.map_none'] at h
      unfold GatherModuleMeta
      rw [h, hm]
  | some m =>
      rw [hm] at h
      simp only [Option.map_some'] at h
      have h2 : metaRowOf (GenerateSnapshot s).module_meta = m := by
        show metaRowOf (GatherModuleMeta s) = m
        unfold GatherModuleMeta
        rw [hm]
        rfl
      rw [h2] at h
      unfold GatherModuleMeta
      rw [h, hm]

/-- Usage-and-error counts survive the round trip. -/
theorem uec_roundtrip (s : DBState) :
    GatherUsageAndErrorCounts (finalState (GenerateSnapshot s) s) =
      GatherUsageAndErrorCounts s := by
  unfold GatherUsageAndErrorCounts
  rw [finalState_app_level,
    show (GenerateSnapshot s).usage_and_error_counts.app_level =
      s.app_level.foldl (fun acc k => if k ∈ acc then acc else acc ++ [k]) [] from rfl,
    (dedup_fold_spec
      (s.app_level.foldl (fun acc k => if k ∈ acc then acc else acc ++ [k]) [])
      [] List.nodup_nil).2.2
      (dedup_fold_spec s.app_level [] List.nodup_nil).1
      (fun x _ => List.not_mem_nil x),
    List.nil_append]

/-- The device_data table itself survives the round trip. -/
theorem finalState_device_data_eq (s : DBState) :
    (finalState (GenerateSnapshot s) s).device_data = s.device_data := by
  rw [finalState_device_data,
    show (GenerateSnapshot s).device_data =
      s.device_data.foldl (fun acc k => if k ∈ acc then acc else acc ++ [k]) [] from rfl]
  apply foldl_insertIfAbsent_mem
  intro x hx
  rcases (dedup_fold_spec s.device_data [] List.nodup_nil).2.1 x hx with h | h
  · exact absurd h (List.not_mem_nil x)
  · exact h

/-- Device data survives the round trip. -/
theorem device_data_roundtrip (s : DBState) :
    GatherDeviceData (finalState (GenerateSnapshot s) s) = GatherDeviceData s := by
  unfold GatherDeviceData
  rw [finalState_device_data_eq]

/-- Consumer-friendly messages survive the round trip. -/
theorem cfm_roundtrip (s : DBState) :
    GatherConsumerFriendlyMessages (finalState (GenerateSnapshot s) s) =
      GatherConsumerFriendlyMessages s := by
  unfold GatherConsumerFriendlyMessages
  rw [finalState_message_version]

/-- module_config survives the round trip when the notifications table keys
are unique. -/
theorem module_config_roundtrip (s : DBState)
    (hnotif : (s.notifications_by_priority.map Prod.fst).Nodup) :
    GatherModuleConfig (finalState (GenerateSnapshot s) s) = GatherModuleConfig s := by
  have hepG : gatherEndpoints (finalState (GenerateSnapshot s) s).endpoint =
      gatherEndpoints s.endpoint := by
    rw [finalState_endpoint,
      show (GenerateSnapshot s).module_config.endpoints =
        gatherEndpoints s.endpoint from rfl]
    exact gatherEndpoints_refold _ (gatherEndpoints_canon s.endpoint)
  have hnotE : (finalState (GenerateSnapshot s) s).notifications_by_priority =
      s.notifications_by_priority := by
    rw [finalState_notifications,
      show (GenerateSnapshot s).module_config.notifications_per_minute_by_priority =
        gatherNotifications s.notifications_by_priority from rfl,
      gatherNotifications_of_nodup _ hnotif]
    exact foldl_aupdate_self s.notifications_by_priority s.notifications_by_priority
      (fun kv hkv => alookup_of_mem_nodup kv.1 kv.2 _ hnotif hkv)
  have hsecE : (finalState (GenerateSnapshot s) s).seconds_between_retries =
      s.seconds_between_retries := by
    rw [finalState_seconds]
    rfl
  have hmc := finalState_module_config (GenerateSnapshot s) s
  cases hm : s.module_config with
  | none =>
      rw [hm] at hmc
      simp only [Option.map_none'] at hmc
      unfold GatherModuleConfig
      rw [hmc, hm, hepG, hnotE, hsecE]
  | some row =>
      rw [hm] at hmc
      simp only [Option.map_some'] at hmc
      have hG : GatherModuleConfig s =
          { preloaded_pt := some row.preloaded_pt
            exchange_after_x_ignition_cycles := some row.exchange_after_x_ignition_cycles
            exchange_after_x_kilometers := some row.exchange_after_x_kilometers
            exchange_after_x_days := some row.exchange_after_x_days
            timeout_after_x_seconds := some row.timeout_after_x_seconds
            vehicle_make := some (getStringOpt row.vehicle_make)
            vehicle_model := some (getStringOpt row.vehicle_model)
            vehicle_year := some (getStringOpt row.vehicle_year)
            preloaded_date := some (getStringOpt row.preloaded_date)
            certificate := some (getStringOpt row.certificate)
            seconds_between_retries := s.seconds_between_retries
            notifications_per_minute_by_priority :=
              gatherNotifications s.notifications_by_priority
            endpoints := gatherEndpoints s.endpoint } := by
        unfold GatherModuleConfig
        rw [hm]
      rw [show (GenerateSnapshot s).module_config = GatherModuleConfig s from rfl, hG] at hmc
      unfold GatherModuleConfig
      rw [hmc, hm, hepG, hnotE, hsecE]
      rfl

/-- C1 (amended): on a well-formed store the snapshot round-trips: Save of
the generated document succeeds and a second GenerateSnapshot yields a
document equal to the first up to the ordering of the unordered
containers. -/
theorem C1_amended (s : DBState) (hwf : WFState s) :
    (Save allOk (GenerateSnapshot s) s).1 = true ∧
    TableEquiv (GenerateSnapshot (Save allOk (GenerateSnapshot s) s).2)
      (GenerateSnapshot s) := by
  have hTt := hwf.app_type_tokens
  have hRt := hwf.request_type_tokens
  have hdev := hwf.device_not_default
  have hnot : ∀ kv ∈ (GenerateSnapshot s).app_policies_section.apps,
      ∀ str, kv.2 ≠ .str str := by
    rw [snapshot_app_section s hTt hRt hdev]
    exact gatherPol_no_str s
  have hsave := save_allOk (GenerateSnapshot s) s hnot rfl
  rw [hsave]
  refine ⟨rfl, ?_⟩
  have hTtF : ∀ r ∈ (finalState (GenerateSnapshot s) s).app_type,
      (AppHMIType.fromJsonString r.2).isSome = true := by
    rw [finalState_app_type_wf s hTt hRt hdev]
    exact hTt
  have hRtF : ∀ r ∈ (finalState (GenerateSnapshot s) s).request_type,
      (RequestType.fromJsonString r.2).isSome = true := by
    intro r hr
    obtain ⟨ty, he⟩ := finalState_request_tokens (GenerateSnapshot s) s r hr
    rw [he, RequestType.reqty_from_to]
    rfl
  have hdevF := finalState_isDefault_dev s hTt hRt hdev
  refine ⟨?_, ?_, ?_, ?_, ?_, ?_, ?_, ?_⟩
  · exact module_meta_roundtrip s
  · exact module_config_roundtrip s hwf.notif_keys
  · exact uec_roundtrip s
  · exact device_data_roundtrip s
  · intro g
    have h := functional_groupings_roundtrip s hwf.rpc_hmi hwf.group_ids
    show alookup g (GatherFunctionalGroupings (finalState (GenerateSnapshot s) s)) =
      alookup g (GatherFunctionalGroupings s)
    rw [h]
  · exact cfm_roundtrip s
  · intro a
    show alookup a
        (GenerateSnapshot (finalState (GenerateSnapshot s) s)).app_policies_section.apps =
      alookup a (GenerateSnapshot s).app_policies_section.apps
    rw [snapshot_app_section (finalState (GenerateSnapshot s) s) hTtF hRtF hdevF,
      snapshot_app_section s hTt hRt hdev]
    exact apps_roundtrip s hTt hRt hdev hwf.heart_beat hwf.device_live hwf.group_ids a
  · show (GenerateSnapshot
        (finalState (GenerateSnapshot s) s)).app_policies_section.device =
      (GenerateSnapshot s).app_policies_section.device
    rw [snapshot_app_section (finalState (GenerateSnapshot s) s) hTtF hRtF hdevF,
      snapshot_app_section s hTt hRt hdev]
    exact device_roundtrip s hTt hRt hdev hwf.app_ids hwf.device_row hwf.device_live

/-- Witness: the round trip holds at a concrete well-formed store. -/
theorem C1_amended_witness :
    (Save allOk (GenerateSnapshot stateC1) stateC1).1 = true ∧
    TableEquiv (GenerateSnapshot (Save allOk (GenerateSnapshot stateC1) stateC1).2)
      (GenerateSnapshot stateC1) :=
  C1_amended stateC1
    ⟨fun r hr => absurd hr (List.not_mem_nil r), by decide, by decide, by decide,
     by decide, by decide, by decide, by decide, by decide, by decide⟩

end Policy
